import Mathlib

/-!
# The tic-tac-toe datagram server (`tictactoeServer.c`)

A shallow embedding of the session and protocol engine of the server: the board
model, the minimax search, datagram validation, the two command handlers and one
iteration of the server loop, followed by theorems about them.

Conventions of the embedding.

* `int` and `char` values are integers (`Int`); a value stored into a `char`
  field goes through `toChar`.  No arithmetic of the program leaves the `int`
  range: scores lie between -10 and 10 and depths between 0 and 9.
* `char board[9]` is a function on `Fin 9`; cell `i` of the C array is `b i`.
* The roster `gameRoster[MAX_GAMES]` is a function on `Fin 10`.
* `double timeout` is a whole number of seconds: it starts at `TIMEOUT` and only
  differences of two `time_t` readings are ever subtracted from it.
* Functions that write through the `game` pointer return the new value next to
  their result.
* `sendto` is the environment: its outcome is the parameter `sendOk`, and every
  call is recorded as an `Event.sendto`.  The announcements of `game_over` are
  recorded as `Event.wins` and `Event.draw`; other console output is not modelled.
* A result `none` of a handler stands for a run that does not return.
-/

namespace TicTacToe

/-! ## Constants -/

/-- Protocol version number, `#define VERSION 3`. -/
def VERSION : Int := 3

/-- Error code, `#define ERROR_CODE -1`. -/
def ERROR_CODE : Int := -1

/-- Seconds before a timeout, `#define TIMEOUT 30`. -/
def TIMEOUT : Int := 30

/-- Number of simultaneous games, `#define MAX_GAMES 10`. -/
def MAX_GAMES : Int := 10

/-- Marker of player 1, the character X. -/
def P1_MARK : Int := 88

/-- Marker of player 2, the character O. -/
def P2_MARK : Int := 79

/-- Command byte of a new game, `#define NEW_GAME 0x00`. -/
def NEW_GAME : Int := 0

/-- Command byte of a move, `#define MOVE 0x01`. -/
def MOVE : Int := 1

/-- Least value of a 32 bit integer. -/
def INT32_MIN : Int := -2147483648

/-- Greatest value of a 16 bit integer. -/
def INT16_MAX : Int := 32767

/-- Value kept when an `int` is stored into a (signed, 8 bit) `char`. -/
def toChar (x : Int) : Int := (x + 128) % 256 - 128

/-! ## Data -/

/-- Socket address `struct sockaddr_in`: family, port and IP address. -/
structure sockaddr_in where
  sin_family : Int
  sin_port : Int
  sin_addr : Int
deriving DecidableEq

/-- The zero-initialised address `blankAddr = {0}`. -/
def blankAddr : sockaddr_in := ⟨0, 0, 0⟩

/-- Contents of `char board[ROWS*COLUMNS]`. -/
abbrev Board := Fin 9 → Int

/-- One game, `struct TTT_Game`. -/
structure TTT_Game where
  gameNum : Int
  timeout : Int
  p2Address : sockaddr_in
  player : Int
  board : Board

/-- One datagram, `struct Buffer`. -/
structure Buffer where
  version : Int
  command : Int
  data : Int
  gameNum : Int
deriving DecidableEq

/-- The game roster `gameRoster[MAX_GAMES]`. -/
abbrev Roster := Fin 10 → TTT_Game

/-- Observable actions of the handlers. -/
inductive Event where
  | sendto (datagram : Buffer) (dest : sockaddr_in)
  | wins (player : Int) (board : Board)
  | draw (board : Board)

/-- The datagrams handed to `sendto`, in order, with their destinations. -/
def sends : List Event → List (Buffer × sockaddr_in)
  | [] => []
  | Event.sendto d a :: es => (d, a) :: sends es
  | _ :: es => sends es

/-- The indices 0..8 of the board in the order of the C loops. -/
def cells : List (Fin 9) := [0, 1, 2, 3, 4, 5, 6, 7, 8]

/-- The indices 0..9 of the roster in the order of the C loops. -/
def slots : List (Fin 10) := [0, 1, 2, 3, 4, 5, 6, 7, 8, 9]

/-- The digit that marks cell `i` as empty, `(i+1)+'0'`. -/
def sentinel (i : Fin 9) : Int := ((i.val : Int) + 1) + 48

/-- Read `board[k]` for an `int` index; an index outside the array reads 0. -/
def cellAt (b : Board) (k : Int) : Int :=
  if h : 0 ≤ k ∧ k < 9 then b ⟨k.toNat, by omega⟩ else 0

/-- Write `board[k] = v` for an `int` index; an index outside the array writes nothing. -/
def setAt (b : Board) (k : Int) (v : Int) : Board :=
  if h : 0 ≤ k ∧ k < 9 then Function.update b ⟨k.toNat, by omega⟩ v else b

/-- The board written by `init_shared_state`: every cell holds its own digit. -/
def initBoard : Board := fun i => sentinel i

/-! ## Socket helpers -/

/-- The function `same_address`: equal IP address and equal port. -/
def same_address (addr1 addr2 : sockaddr_in) : Bool :=
  if addr1.sin_addr ≠ addr2.sin_addr then false
  else if addr1.sin_port ≠ addr2.sin_port then false
  else true

/-! ## Board functions -/

/-- The function `init_shared_state`: for i = 1..9, `board[i-1] = i + '0'`. -/
def init_shared_state (game : TTT_Game) : TTT_Game :=
  { game with board := cells.foldl (fun b i => Function.update b i (sentinel i)) game.board }

/-- The function `check_win`: the first of the eight lines whose three cells are equal
decides; the value is 10 when that line holds the mark of player 1 and -10 otherwise. -/
def check_win (b : Board) : Int :=
  if b 0 = b 1 ∧ b 1 = b 2 then (if b 0 = P1_MARK then 10 else -10)
  else if b 3 = b 4 ∧ b 4 = b 5 then (if b 3 = P1_MARK then 10 else -10)
  else if b 6 = b 7 ∧ b 7 = b 8 then (if b 6 = P1_MARK then 10 else -10)
  else if b 0 = b 3 ∧ b 3 = b 6 then (if b 0 = P1_MARK then 10 else -10)
  else if b 1 = b 4 ∧ b 4 = b 7 then (if b 1 = P1_MARK then 10 else -10)
  else if b 2 = b 5 ∧ b 5 = b 8 then (if b 2 = P1_MARK then 10 else -10)
  else if b 0 = b 4 ∧ b 4 = b 8 then (if b 0 = P1_MARK then 10 else -10)
  else if b 2 = b 4 ∧ b 4 = b 6 then (if b 2 = P1_MARK then 10 else -10)
  else 0

/-- The function `check_draw`: false as soon as a cell still holds its digit. -/
def check_draw (b : Board) : Bool :=
  cells.all (fun i => decide (b i ≠ sentinel i))

/-- The function `validate_move`. -/
def validate_move (choice : Int) (b : Board) : Bool :=
  if choice < 1 ∨ choice > 9 then false
  else if cellAt b (choice - 1) ≠ choice + 48 then false
  else true

/-! ## Minimax -/

/-- The body of `minimax`, with the recursion depth bounded by `fuel`.  Every recursive call
is made on a board with one empty cell fewer, so a fuel above the number of empty cells is
never used up (`mm_fuel`).  The board is threaded through the loop: a move is made, the
recursive call returns the board it leaves, and the move is undone by writing the digit. -/
def minimaxAux : Nat → Board → Int → Bool → Int × Board
  | 0, b, _, _ => (0, b)
  | fuel + 1, b, depth, isMax =>
    let score := check_win b
    if score > 0 then (score - depth, b)
    else if score < 0 then (score + depth, b)
    else if check_draw b then (0, b)
    else if isMax then
      cells.foldl (fun (st : Int × Board) i =>
        if st.2 i = sentinel i then
          let r := minimaxAux fuel (Function.update st.2 i P1_MARK) (depth + 1) (!isMax)
          (if r.1 > st.1 then r.1 else st.1, Function.update r.2 i (sentinel i))
        else st) (INT32_MIN, b)
    else
      cells.foldl (fun (st : Int × Board) i =>
        if st.2 i = sentinel i then
          let r := minimaxAux fuel (Function.update st.2 i P2_MARK) (depth + 1) (!isMax)
          (if r.1 < st.1 then r.1 else st.1, Function.update r.2 i (sentinel i))
        else st) (INT16_MAX, b)

/-- The function `minimax`: the score and the board left behind.  A board has nine cells,
so ten levels of recursion always suffice. -/
def minimax (b : Board) (depth : Int) (isMax : Bool) : Int × Board :=
  minimaxAux 10 b depth isMax

/-- The function `find_best_move`: the loop state is `(bestMove, bestValue, board)`;
the result is `bestMove` and the board left behind. -/
def find_best_move (b : Board) : Int × Board :=
  let st := cells.foldl (fun (st : Int × Int × Board) i =>
    if st.2.2 i = sentinel i then
      let r := minimax (Function.update st.2.2 i P1_MARK) 0 false
      let b1 := Function.update r.2 i (sentinel i)
      if r.1 > st.2.1 then ((i.val : Int) + 1, r.1, b1) else (st.1, st.2.1, b1)
    else st) (-1, INT32_MIN, b)
  (st.1, st.2.2)

/-! ## Session handlers -/

/-- The function `free_game`. -/
def free_game (game : TTT_Game) : TTT_Game :=
  init_shared_state { game with timeout := TIMEOUT, p2Address := blankAddr, player := 0 }

/-- The function `game_over`: whether the game has ended, the game afterwards, and the
announcement made. -/
def game_over (game : TTT_Game) : Bool × TTT_Game × List Event :=
  if check_win game.board ≠ 0 then
    (true, free_game game, [Event.wins game.player game.board])
  else if check_draw game.board then
    (true, free_game game, [Event.draw game.board])
  else (false, game, [])

/-- The loop `while (!validate_move(move, game)) move = find_best_move(game);` of
`send_p1_move`, bounded by `fuel`; `none` when the fuel runs out. -/
def p1_move_loop : Nat → Board → Int → Option (Int × Board)
  | 0, _, _ => none
  | fuel + 1, b, mv =>
    if validate_move mv b then some (mv, b)
    else p1_move_loop fuel (find_best_move b).2 (find_best_move b).1

/-- The function `send_p1_move`: the move sent or `ERROR_CODE`, the game afterwards and the
call of `sendto`. -/
def send_p1_move (fuel : Nat) (game : TTT_Game) (sendOk : Bool) :
    Option (Int × TTT_Game × List Event) :=
  match p1_move_loop fuel (find_best_move game.board).2 (find_best_move game.board).1 with
  | none => none
  | some (mv, b) =>
    let datagram : Buffer :=
      { version := toChar VERSION, command := toChar MOVE, data := toChar (mv + 48),
        gameNum := toChar game.gameNum }
    let game1 := { game with board := b }
    if sendOk then some (datagram.data - 48, game1, [Event.sendto datagram game.p2Address])
    else some (ERROR_CODE, game1, [Event.sendto datagram game.p2Address])

/-- The handler `new_game`; the game is `none` when the caller passes `NULL`. -/
def new_game (fuel : Nat) (playerAddr : sockaddr_in) (_datagram : Buffer)
    (game : Option TTT_Game) (sendOk : Bool) : Option (Option TTT_Game × List Event) :=
  match game with
  | none => some (none, [])
  | some g =>
    let g1 := init_shared_state { g with p2Address := playerAddr }
    match send_p1_move fuel g1 sendOk with
    | none => none
    | some (mv, g2, ev) =>
      if mv = ERROR_CODE then some (some (free_game g2), ev)
      else some (some { g2 with board := setAt g2.board (mv - 1) P1_MARK, player := 2 }, ev)

/-- The handler `move`. -/
def move (fuel : Nat) (playerAddr : sockaddr_in) (datagram : Buffer) (game : TTT_Game)
    (sendOk : Bool) : Option (TTT_Game × List Event) :=
  let mv := datagram.data - 48
  if same_address playerAddr game.p2Address then
    if validate_move mv game.board then
      let g1 := { game with board := setAt game.board (mv - 1) P2_MARK }
      let r1 := game_over g1
      if r1.1 then some (r1.2.1, r1.2.2)
      else
        let g2 := { r1.2.1 with player := 1 }
        match send_p1_move fuel g2 sendOk with
        | none => none
        | some (mv2, g3, ev2) =>
          if mv2 = ERROR_CODE then some (free_game g3, r1.2.2 ++ ev2)
          else
            let g4 := { g3 with board := setAt g3.board (mv2 - 1) P1_MARK }
            let r2 := game_over g4
            if r2.1 then some (r2.2.1, r1.2.2 ++ ev2 ++ r2.2.2)
            else some ({ r2.2.1 with player := 2 }, r1.2.2 ++ ev2 ++ r2.2.2)
    else some (free_game game, [])
  else some (game, [])

/-! ## Roster and server loop -/

/-- The function `check_timeout`. -/
def check_timeout (roster : Roster) : Roster :=
  slots.foldl (fun r i =>
    if (r i).timeout ≤ 0 then Function.update r i (free_game (r i)) else r) roster

/-- The function `init_game_roster`. -/
def init_game_roster (roster : Roster) : Roster :=
  slots.foldl (fun r i =>
    Function.update r i
      (init_shared_state
        { r i with timeout := TIMEOUT, p2Address := blankAddr,
                   gameNum := (i.val : Int) + 1, player := 0 })) roster

/-- The function `games_in_progress`. -/
def games_in_progress (roster : Roster) : Int :=
  slots.foldl (fun count i => if (roster i).player ≠ 0 then count + 1 else count) 0

/-- The function `find_open_game`: the first index whose game has `player == 0`. -/
def find_open_game (roster : Roster) : Int :=
  match slots.find? (fun i => decide ((roster i).player = 0)) with
  | some i => (i.val : Int)
  | none => ERROR_CODE

/-- What `recvfrom` delivered: its return value, whether a failure was a timeout
(`EAGAIN` or `EWOULDBLOCK`), the sender and the datagram buffer. -/
structure Received where
  rv : Int
  timedOut : Bool
  playerAddr : sockaddr_in
  datagram : Buffer

/-- The function `get_command`, applied to what `recvfrom` delivered. -/
def get_command (r : Received) : Int :=
  if r.rv ≤ 0 then
    if r.rv = 0 then ERROR_CODE
    else if r.timedOut then 0
    else ERROR_CODE
  else if r.datagram.version ≠ VERSION then ERROR_CODE
  else if r.datagram.command < NEW_GAME ∨ r.datagram.command > MOVE then ERROR_CODE
  else if r.datagram.command ≠ NEW_GAME ∧
      (r.datagram.gameNum < 1 ∨ r.datagram.gameNum > MAX_GAMES) then ERROR_CODE
  else r.rv

/-- The index `gameIndx` computed by `tictactoe` for an accepted datagram. -/
def gameIndx (roster : Roster) (datagram : Buffer) : Int :=
  if datagram.command = NEW_GAME then find_open_game roster else datagram.gameNum - 1

/-- The call `commands[(int)datagram.command](sd, &playerAddr, &datagram, game)` where
`game` is `NULL` for a negative index and `&gameRoster[gameIndx]` otherwise.  A call
that would index a table outside its bounds or hand `NULL` to `move` has no result. -/
def dispatch (fuel : Nat) (roster : Roster) (r : Received) (sendOk : Bool) :
    Option (Roster × List Event) :=
  if r.datagram.command = 0 then
    if h : 0 ≤ gameIndx roster r.datagram ∧ gameIndx roster r.datagram < 10 then
      match new_game fuel r.playerAddr r.datagram
          (some (roster ⟨(gameIndx roster r.datagram).toNat, by omega⟩)) sendOk with
      | none => none
      | some (none, ev) => some (roster, ev)
      | some (some g, ev) =>
        some (Function.update roster ⟨(gameIndx roster r.datagram).toNat, by omega⟩ g, ev)
    else if gameIndx roster r.datagram < 0 then
      match new_game fuel r.playerAddr r.datagram none sendOk with
      | none => none
      | some (_, ev) => some (roster, ev)
    else none
  else if r.datagram.command = 1 then
    if h : 0 ≤ gameIndx roster r.datagram ∧ gameIndx roster r.datagram < 10 then
      match move fuel r.playerAddr r.datagram
          (roster ⟨(gameIndx roster r.datagram).toNat, by omega⟩) sendOk with
      | none => none
      | some (g, ev) =>
        some (Function.update roster ⟨(gameIndx roster r.datagram).toNat, by omega⟩ g, ev)
    else none
  else none

/-- The timeout bookkeeping loop of `tictactoe` after a handled command. -/
def update_timeouts (roster : Roster) (k : Int) (elapsed : Int) : Roster :=
  slots.foldl (fun r i =>
    let r1 := if (r i).player ≠ 0
      then Function.update r i { r i with timeout := (r i).timeout - elapsed } else r
    if (i.val : Int) = k then Function.update r1 i { r1 i with timeout := TIMEOUT } else r1)
    roster

/-- One iteration of the `while (1)` loop of `tictactoe`: `elapsed` is
`difftime(stop, start)`. -/
def tictactoe_step (fuel : Nat) (roster : Roster) (r : Received) (elapsed : Int)
    (sendOk : Bool) : Option (Roster × List Event) :=
  if get_command r > 0 then
    match dispatch fuel roster r sendOk with
    | none => none
    | some (roster1, ev) =>
      some (check_timeout (update_timeouts roster1 (gameIndx roster r.datagram) elapsed), ev)
  else if get_command r = 0 then
    if games_in_progress roster > 0 then some (init_game_roster roster, [])
    else some (roster, [])
  else some (roster, [])

/-! ## Specification vocabulary and side-effect free forms -/

/-- Number of cells that still hold their digit. -/
def countEmpty (b : Board) : Nat :=
  (Finset.univ.filter (fun i : Fin 9 => b i = sentinel i)).card

/-- A board whose cells are each their own digit, the mark of player 1 or that of player 2. -/
def validBoard (b : Board) : Prop :=
  ∀ i : Fin 9, b i = sentinel i ∨ b i = P1_MARK ∨ b i = P2_MARK

/-- Number of cells holding the mark `m`. -/
def countMark (b : Board) (m : Int) : Nat :=
  (Finset.univ.filter (fun i : Fin 9 => b i = m)).card

/-- The eight lines of the board: rows, columns, diagonals. -/
def boardLines : List (Fin 9 × Fin 9 × Fin 9) :=
  [(0, 1, 2), (3, 4, 5), (6, 7, 8), (0, 3, 6), (1, 4, 7), (2, 5, 8), (0, 4, 8), (2, 4, 6)]

/-- Some line of the board holds the mark `m` in all three cells. -/
def hasLine (b : Board) (m : Int) : Prop :=
  ∃ l ∈ boardLines, b l.1 = m ∧ b l.2.1 = m ∧ b l.2.2 = m

/-- Cell `p` lies on a line whose two other cells hold the mark `m`. -/
def completesLine (b : Board) (m : Int) (p : Fin 9) : Prop :=
  ∃ l ∈ boardLines,
    (p = l.1 ∧ b l.2.1 = m ∧ b l.2.2 = m) ∨ (p = l.2.1 ∧ b l.1 = m ∧ b l.2.2 = m) ∨
    (p = l.2.2 ∧ b l.1 = m ∧ b l.2.1 = m)

/-- The greatest of `init` and the values `v i` of the empty cells `i` of `l`, computed as
the maximising loop of `minimax` does. -/
def maxOver (b : Board) (v : Fin 9 → Int) (l : List (Fin 9)) (init : Int) : Int :=
  l.foldl (fun best i => if b i = sentinel i then (if v i > best then v i else best) else best)
    init

/-- The least of `init` and the values `v i` of the empty cells `i` of `l`, computed as
the minimising loop of `minimax` does. -/
def minOver (b : Board) (v : Fin 9 → Int) (l : List (Fin 9)) (init : Int) : Int :=
  l.foldl (fun best i => if b i = sentinel i then (if v i < best then v i else best) else best)
    init

/-- The score computed by `minimaxAux`, without the threading of the board. -/
def mm : Nat → Board → Int → Bool → Int
  | 0, _, _, _ => 0
  | fuel + 1, b, depth, isMax =>
    if check_win b > 0 then check_win b - depth
    else if check_win b < 0 then check_win b + depth
    else if check_draw b then 0
    else if isMax then
      maxOver b (fun i => mm fuel (Function.update b i P1_MARK) (depth + 1) false) cells
        INT32_MIN
    else
      minOver b (fun i => mm fuel (Function.update b i P2_MARK) (depth + 1) true) cells
        INT16_MAX

/-- The score `minimax(board with the mark of player 1 at i, 0, 0)` of the move to cell `i`. -/
def moveScore (b : Board) (i : Fin 9) : Int :=
  (minimax (Function.update b i P1_MARK) 0 false).1

/-- The loop of `find_best_move` over the scores `v`, without the threading of the board:
the state is `(bestMove, bestValue)`. -/
def bestOver (b : Board) (v : Fin 9 → Int) (l : List (Fin 9)) (init : Int × Int) : Int × Int :=
  l.foldl (fun st i =>
    if b i = sentinel i then (if v i > st.2 then ((i.val : Int) + 1, v i) else st) else st) init

/-- The order in which the sign tests try the cells: centre, corners, edges. -/
def tryOrder : List (Fin 9) := [4, 0, 2, 6, 8, 1, 3, 5, 7]

/-- Sign test: player 1 can hold the score at 0 or above (player 1 does not lose). -/
def geZ : Nat → Board → Bool → Bool
  | 0, _, _ => true
  | fuel + 1, b, isMax =>
    if 0 < check_win b then true
    else if check_win b < 0 then false
    else if check_draw b then true
    else if isMax then
      tryOrder.any (fun i =>
        decide (b i = sentinel i) && geZ fuel (Function.update b i P1_MARK) false)
    else
      tryOrder.all (fun i =>
        decide (b i ≠ sentinel i) || geZ fuel (Function.update b i P2_MARK) true)

/-- Sign test: player 2 can hold the score at 0 or below (player 2 does not lose). -/
def leZ : Nat → Board → Bool → Bool
  | 0, _, _ => true
  | fuel + 1, b, isMax =>
    if 0 < check_win b then false
    else if check_win b < 0 then true
    else if check_draw b then true
    else if isMax then
      tryOrder.all (fun i =>
        decide (b i ≠ sentinel i) || leZ fuel (Function.update b i P1_MARK) false)
    else
      tryOrder.any (fun i =>
        decide (b i = sentinel i) && leZ fuel (Function.update b i P2_MARK) true)

/-- The default content of a roster slot that is Free. -/
def isFree (g : TTT_Game) : Prop :=
  g.player = 0 ∧ g.p2Address = blankAddr ∧ g.timeout = TIMEOUT ∧ g.board = initBoard

/-- The decision of `check_win` over a list of lines given by their three cell values. -/
def firstLine : List (Int × Int × Int) → Int
  | [] => 0
  | (x, y, z) :: rest =>
    if x = y ∧ y = z then (if x = P1_MARK then 10 else -10) else firstLine rest

/-- The cell values of the eight lines of a board, in the order `check_win` tests them. -/
def lineCells (b : Board) : List (Int × Int × Int) :=
  boardLines.map (fun l => (b l.1, b l.2.1, b l.2.2))

/-- A position with two marks each, in which player 1 can complete the top row. -/
def winnableBoard : Board :=
  Function.update (Function.update (Function.update (Function.update initBoard 0 P1_MARK)
    3 P2_MARK) 1 P1_MARK) 4 P2_MARK

/-- A peer address used in examples. -/
def samplePeer : sockaddr_in := ⟨2, 4000, 7⟩

/-- A position in which player 2, to move, threatens nothing yet: marks of player 1
in cells 0, 2 and 7, marks of player 2 in cells 1 and 4. -/
def exchangeBoard : Board :=
  Function.update (Function.update (Function.update (Function.update (Function.update
    initBoard 0 P1_MARK) 1 P2_MARK) 2 P1_MARK) 4 P2_MARK) 7 P1_MARK

/-- A position in which player 2 can complete the middle row: marks of player 1 in
cells 0, 1 and 8, marks of player 2 in cells 3 and 4. -/
def losingBoard : Board :=
  Function.update (Function.update (Function.update (Function.update (Function.update
    initBoard 0 P1_MARK) 3 P2_MARK) 1 P1_MARK) 4 P2_MARK) 8 P1_MARK

/-- A position before the second mark of player 2: marks of player 1 in cells 0 and 1,
a mark of player 2 in cell 3. -/
def earlyBoard : Board :=
  Function.update (Function.update (Function.update initBoard 0 P1_MARK) 3 P2_MARK) 1 P1_MARK

/-- The session of slot 1 in play on `exchangeBoard`. -/
def exchangeGame : TTT_Game := ⟨1, 30, samplePeer, 2, exchangeBoard⟩

/-- The session of slot 1 in play on `losingBoard`. -/
def losingGame : TTT_Game := ⟨1, 30, samplePeer, 2, losingBoard⟩

/-- The session of slot 1 in play on `earlyBoard`. -/
def earlyGame : TTT_Game := ⟨1, 30, samplePeer, 2, earlyBoard⟩

/-- A roster with every game in play, used in examples. -/
def busyRoster : Roster := fun i => ⟨(i.val : Int) + 1, TIMEOUT, samplePeer, 2, exchangeBoard⟩

/-- The datagrams that `get_command` lets through: the supported version, a known
command and, for a command other than `NEW_GAME`, a game number from 1 to `MAX_GAMES`. -/
def acceptable (d : Buffer) : Prop :=
  d.version = 3 ∧ (d.command = 0 ∨ d.command = 1) ∧
    (d.command = 0 ∨ (1 ≤ d.gameNum ∧ d.gameNum ≤ 10))

/-- The roster right after `init_game_roster`: every slot Free. -/
def idleRoster : Roster := fun i => ⟨(i.val : Int) + 1, TIMEOUT, blankAddr, 0, initBoard⟩

/-- An accepted `NEW_GAME` datagram from `samplePeer`. -/
def newGameReceived : Received := ⟨4, false, samplePeer, ⟨3, 0, 0, 0⟩⟩

/-- The calls of `move` made for one session while its game lasts: each datagram of the
list comes from the peer `A` and is handled by `move`, every send succeeding, as long as
the session is in play (`player` not 0).  The result lists the session after each call
and all events in order. -/
def play_moves (fuel : Nat) (A : sockaddr_in) :
    TTT_Game → List Buffer → Option (List TTT_Game × List Event)
  | _, [] => some ([], [])
  | g, d :: ds =>
    if g.player = 0 then some ([], [])
    else
      match move fuel A d g true with
      | none => none
      | some (g1, ev) =>
        match play_moves fuel A g1 ds with
        | none => none
        | some (gs, evs) => some (g1 :: gs, ev ++ evs)

/-- One game: `new_game` for the peer `A` on the slot `g0`, every send succeeding, then
the moves `ds` of that peer.  The result lists the session after each handler call and
all events in order. -/
def play_game (fuel : Nat) (A : sockaddr_in) (d0 : Buffer) (g0 : TTT_Game)
    (ds : List Buffer) : Option (List TTT_Game × List Event) :=
  match new_game fuel A d0 (some g0) true with
  | none => none
  | some (none, _) => none
  | some (some g1, ev) =>
    match play_moves fuel A g1 ds with
    | none => none
    | some (gs, evs) => some (g1 :: gs, ev ++ evs)

/-- An event that does not announce a loss of player 1: an announced winner is player 1,
and an announced final board is not scored -10 by `check_win` and holds no line of
marks of player 2. -/
def noLoss : Event → Prop
  | Event.sendto _ _ => True
  | Event.wins pl b => pl = 1 ∧ check_win b ≠ -10 ∧ ¬hasLine b P2_MARK
  | Event.draw b => check_win b ≠ -10 ∧ ¬hasLine b P2_MARK

/-- A session as the handlers leave it in a game against `A`: either reset, or in play
with player 2 to move on a board without a completed line whose score is not negative. -/
def sessionSafe (A : sockaddr_in) (g : TTT_Game) : Prop :=
  (g.player = 0 ∧ g.board = initBoard) ∨
  (g.player = 2 ∧ g.p2Address = A ∧ check_win g.board = 0 ∧
    0 ≤ (minimax g.board 0 false).1)

/-- A receive that ended on the receive timeout: `recvfrom` gave -1 with `EWOULDBLOCK`. -/
def timeoutReceived : Received := ⟨-1, true, blankAddr, ⟨0, 0, 0, 0⟩⟩

/-- A full board won by the last mark: marks of player 1 in cells 0, 2, 4, 6 and 8 (both
diagonals), marks of player 2 in cells 1, 3, 5 and 7. -/
def fullWonBoard : Board := fun i => if i.val % 2 = 0 then P1_MARK else P2_MARK

/-- A board won by player 1: `winnableBoard` with the top row completed. -/
def wonBoard : Board := Function.update winnableBoard 2 P1_MARK

/-- A board won by player 2: `losingBoard` with the middle row completed. -/
def lostBoard : Board := Function.update losingBoard 5 P2_MARK

/-- A full board without a line: marks of player 1 in cells 0, 1, 5, 6 and 8, marks of
player 2 in cells 2, 3, 4 and 7. -/
def drawnBoard : Board :=
  fun i => if i.val = 0 ∨ i.val = 1 ∨ i.val = 5 ∨ i.val = 6 ∨ i.val = 8 then P1_MARK
    else P2_MARK

/-- A second board won by player 2: marks of player 1 in cells 0, 1 and 8, marks of
player 2 in cells 2, 4 and 6. -/
def lostDiagBoard : Board :=
  fun i => if i.val = 0 ∨ i.val = 1 ∨ i.val = 8 then P1_MARK
    else if i.val = 2 ∨ i.val = 4 ∨ i.val = 6 then P2_MARK else sentinel i

/-- The rosters at the top of the `while (1)` loop of `tictactoe`: the roster written by
`init_game_roster`, and the roster left by an iteration of the loop that started from
such a roster, whatever was received, whatever time elapsed and whether or not the send
succeeded. -/
inductive Reachable : Roster → Prop
  | init (roster0 : Roster) : Reachable (init_game_roster roster0)
  | step (fuel : Nat) (roster : Roster) (r : Received) (elapsed : Int) (sendOk : Bool)
      (roster1 : Roster) (ev : List Event) :
      Reachable roster → tictactoe_step fuel roster r elapsed sendOk = some (roster1, ev) →
      Reachable roster1

/-- A session with `player` 0 has the default content, and a session with another
`player` has a board that is not the initial one. -/
def slotInv (g : TTT_Game) : Prop :=
  (g.player = 0 → isFree g) ∧ (g.player ≠ 0 → g.board ≠ initBoard)

/-- An accepted `MOVE` datagram for game 1 from a sender that is not `samplePeer`. -/
def foreignMoveReceived : Received := ⟨4, false, ⟨2, 4001, 7⟩, ⟨3, 1, 53, 1⟩⟩

/-- An accepted `MOVE` datagram for game 1, naming cell 5, whose sender address is
0.0.0.0 port 0: the address `free_game` and `init_game_roster` store in a Free slot. -/
def blankMoveReceived : Received := ⟨4, false, blankAddr, ⟨3, 1, 53, 1⟩⟩

/-- The rosters at the top of the `while (1)` loop of `tictactoe` on a socket that
refuses to send to the blank address: the roster written by `init_game_roster`, and the
roster left by an iteration of the loop that started from such a roster, whatever was
received and whatever time elapsed, where the send failed whenever `sendto` was called
with a destination of IP address 0.0.0.0 and port 0 (a UDP socket rejects a datagram for
port 0), and succeeded or failed for any other destination. -/
inductive ReachableSent : Roster → Prop
  | init (roster0 : Roster) : ReachableSent (init_game_roster roster0)
  | step (fuel : Nat) (roster : Roster) (r : Received) (elapsed : Int) (sendOk : Bool)
      (roster1 : Roster) (ev : List Event) :
      ReachableSent roster →
      tictactoe_step fuel roster r elapsed sendOk = some (roster1, ev) →
      (∀ (dg : Buffer) (A : sockaddr_in), Event.sendto dg A ∈ ev →
        same_address A blankAddr = true → sendOk = false) →
      ReachableSent roster1

/-- A board in the middle of a game, player 2 to move: cells are digits or marks, there
is one more mark of player 1 than of player 2, no line is complete and a cell is empty. -/
def midGame (b : Board) : Prop :=
  validBoard b ∧ countMark b P1_MARK = countMark b P2_MARK + 1 ∧ check_win b = 0 ∧
    ∃ i, b i = sentinel i

/-- A session that is Free with the blank address, or in play with `player` 2 on a board
in the middle of a game. -/
def playInv (g : TTT_Game) : Prop :=
  (g.player = 0 ∧ g.p2Address = blankAddr) ∨ (g.player = 2 ∧ midGame g.board)

/-! ## Basic facts about boards -/

theorem sentinel_ne_P1 (i : Fin 9) : P1_MARK ≠ sentinel i := by
  have := i.isLt
  simp only [P1_MARK, sentinel]
  omega

theorem sentinel_ne_P2 (i : Fin 9) : P2_MARK ≠ sentinel i := by
  have := i.isLt
  simp only [P2_MARK, sentinel]
  omega

theorem update_restore (b : Board) (i : Fin 9) (m : Int) (h : b i = sentinel i) :
    Function.update (Function.update b i m) i (sentinel i) = b := by
  rw [Function.update_idem, ← h, Function.update_eq_self]

theorem countEmpty_update (b : Board) (i : Fin 9) (m : Int) (h : b i = sentinel i)
    (hm : m ≠ sentinel i) : countEmpty (Function.update b i m) + 1 = countEmpty b := by
  unfold countEmpty
  have hmem : i ∈ Finset.univ.filter (fun j : Fin 9 => b j = sentinel j) := by simp [h]
  have heq : Finset.univ.filter (fun j : Fin 9 => Function.update b i m j = sentinel j) =
      (Finset.univ.filter (fun j : Fin 9 => b j = sentinel j)).erase i := by
    ext j
    by_cases hj : j = i
    · subst hj; simp [hm]
    · simp [Function.update_noteq hj, hj]
  rw [heq, Finset.card_erase_of_mem hmem]
  have : 0 < (Finset.univ.filter (fun j : Fin 9 => b j = sentinel j)).card :=
    Finset.card_pos.mpr ⟨i, hmem⟩
  omega

theorem countEmpty_le (b : Board) : countEmpty b ≤ 9 := by
  unfold countEmpty
  calc (Finset.univ.filter (fun i : Fin 9 => b i = sentinel i)).card
      ≤ (Finset.univ : Finset (Fin 9)).card := Finset.card_filter_le _ _
    _ = 9 := by simp

theorem mem_cells (i : Fin 9) : i ∈ cells := by
  revert i
  decide

theorem mem_tryOrder (i : Fin 9) : i ∈ tryOrder := by
  revert i
  decide

theorem check_draw_eq_true (b : Board) : check_draw b = true ↔ ∀ i, b i ≠ sentinel i := by
  unfold check_draw
  rw [List.all_eq_true]
  constructor
  · intro h i
    simpa using h i (mem_cells i)
  · intro h i _
    simpa using h i

theorem check_draw_eq_false (b : Board) : check_draw b = false ↔ ∃ i, b i = sentinel i := by
  rw [← Bool.not_eq_true, check_draw_eq_true]
  push_neg
  rfl

theorem check_win_eq (b : Board) : check_win b = firstLine (lineCells b) := rfl

theorem firstLine_cases (l : List (Int × Int × Int)) :
    firstLine l = 10 ∨ firstLine l = -10 ∨ firstLine l = 0 := by
  induction l with
  | nil => exact Or.inr (Or.inr rfl)
  | cons t l ih =>
    obtain ⟨x, y, z⟩ := t
    simp only [firstLine]
    split_ifs
    · exact Or.inl rfl
    · exact Or.inr (Or.inl rfl)
    · exact ih

theorem check_win_cases (b : Board) : check_win b = 10 ∨ check_win b = -10 ∨ check_win b = 0 := by
  rw [check_win_eq]
  exact firstLine_cases _

/-! ## The search leaves the board as it found it -/

theorem maxLoop_eq (f : Board → Int × Board) (v : Fin 9 → Int) (b : Board) (mark : Int)
    (hf : ∀ i, b i = sentinel i → f (Function.update b i mark) = (v i, Function.update b i mark))
    (l : List (Fin 9)) (init : Int) :
    l.foldl (fun (st : Int × Board) i =>
        if st.2 i = sentinel i then
          (if (f (Function.update st.2 i mark)).1 > st.1
            then (f (Function.update st.2 i mark)).1 else st.1,
           Function.update (f (Function.update st.2 i mark)).2 i (sentinel i))
        else st) (init, b) = (maxOver b v l init, b) := by
  induction l generalizing init with
  | nil => rfl
  | cons i l ih =>
    simp only [List.foldl_cons, maxOver]
    by_cases h : b i = sentinel i
    · simp only [h, if_true, hf i h, update_restore b i mark h]
      rw [ih]
      simp [maxOver, h]
    · simp only [h, if_false]
      rw [ih]
      simp [maxOver, h]

theorem minLoop_eq (f : Board → Int × Board) (v : Fin 9 → Int) (b : Board) (mark : Int)
    (hf : ∀ i, b i = sentinel i → f (Function.update b i mark) = (v i, Function.update b i mark))
    (l : List (Fin 9)) (init : Int) :
    l.foldl (fun (st : Int × Board) i =>
        if st.2 i = sentinel i then
          (if (f (Function.update st.2 i mark)).1 < st.1
            then (f (Function.update st.2 i mark)).1 else st.1,
           Function.update (f (Function.update st.2 i mark)).2 i (sentinel i))
        else st) (init, b) = (minOver b v l init, b) := by
  induction l generalizing init with
  | nil => rfl
  | cons i l ih =>
    simp only [List.foldl_cons, minOver]
    by_cases h : b i = sentinel i
    · simp only [h, if_true, hf i h, update_restore b i mark h]
      rw [ih]
      simp [minOver, h]
    · simp only [h, if_false]
      rw [ih]
      simp [minOver, h]

theorem minimaxAux_eq (fuel : Nat) (b : Board) (depth : Int) (isMax : Bool) :
    minimaxAux fuel b depth isMax = (mm fuel b depth isMax, b) := by
  induction fuel generalizing b depth isMax with
  | zero => rfl
  | succ fuel ih =>
    unfold minimaxAux mm
    simp only
    by_cases h1 : check_win b > 0
    · rw [if_pos h1, if_pos h1]
    · rw [if_neg h1, if_neg h1]
      by_cases h2 : check_win b < 0
      · rw [if_pos h2, if_pos h2]
      · rw [if_neg h2, if_neg h2]
        by_cases h3 : check_draw b = true
        · rw [if_pos h3, if_pos h3]
        · rw [if_neg h3, if_neg h3]
          cases isMax with
          | true =>
            rw [if_pos rfl, if_pos rfl]
            exact maxLoop_eq (fun x => minimaxAux fuel x (depth + 1) false)
              (fun i => mm fuel (Function.update b i P1_MARK) (depth + 1) false) b P1_MARK
              (fun i _ => ih _ _ _) cells INT32_MIN
          | false =>
            rw [if_neg Bool.false_ne_true, if_neg Bool.false_ne_true]
            exact minLoop_eq (fun x => minimaxAux fuel x (depth + 1) true)
              (fun i => mm fuel (Function.update b i P2_MARK) (depth + 1) true) b P2_MARK
              (fun i _ => ih _ _ _) cells INT16_MAX

theorem minimax_eq (b : Board) (depth : Int) (isMax : Bool) :
    minimax b depth isMax = (mm 10 b depth isMax, b) :=
  minimaxAux_eq 10 b depth isMax

/-! ## The loops compute maxima and minima -/

theorem le_maxOver_iff (b : Board) (v : Fin 9 → Int) (l : List (Fin 9)) (init t : Int) :
    t ≤ maxOver b v l init ↔ t ≤ init ∨ ∃ i ∈ l, b i = sentinel i ∧ t ≤ v i := by
  induction l generalizing init with
  | nil => simp [maxOver]
  | cons a l ih =>
    have hstep : maxOver b v (a :: l) init =
        maxOver b v l (if b a = sentinel a then (if v a > init then v a else init) else init) := rfl
    rw [hstep, ih]
    by_cases h : b a = sentinel a
    · by_cases hv : v a > init
      · simp only [h, hv, if_true, List.mem_cons, exists_eq_or_imp, true_and]
        constructor
        · rintro (h1 | h1)
          · exact Or.inr (Or.inl h1)
          · exact Or.inr (Or.inr h1)
        · rintro (h1 | h1 | h1)
          · exact Or.inl (by omega)
          · exact Or.inl h1
          · exact Or.inr h1
      · simp only [h, hv, if_true, if_false, List.mem_cons, exists_eq_or_imp, true_and]
        constructor
        · rintro (h1 | h1)
          · exact Or.inl h1
          · exact Or.inr (Or.inr h1)
        · rintro (h1 | h1 | h1)
          · exact Or.inl h1
          · exact Or.inl (by omega)
          · exact Or.inr h1
    · simp only [h, if_false, List.mem_cons, exists_eq_or_imp, false_and, false_or]

theorem maxOver_le_iff (b : Board) (v : Fin 9 → Int) (l : List (Fin 9)) (init t : Int) :
    maxOver b v l init ≤ t ↔ init ≤ t ∧ ∀ i ∈ l, b i = sentinel i → v i ≤ t := by
  have h := le_maxOver_iff b v l init (t + 1)
  constructor
  · intro hle
    refine ⟨?_, ?_⟩
    · by_contra hc
      have := h.mpr (Or.inl (by omega))
      omega
    · intro i hi he
      by_contra hc
      have := h.mpr (Or.inr ⟨i, hi, he, by omega⟩)
      omega
  · rintro ⟨h1, h2⟩
    by_contra hc
    rcases h.mp (by omega) with h3 | ⟨i, hi, he, h3⟩
    · omega
    · have := h2 i hi he
      omega

theorem minOver_le_iff (b : Board) (v : Fin 9 → Int) (l : List (Fin 9)) (init t : Int) :
    minOver b v l init ≤ t ↔ init ≤ t ∨ ∃ i ∈ l, b i = sentinel i ∧ v i ≤ t := by
  induction l generalizing init with
  | nil => simp [minOver]
  | cons a l ih =>
    have hstep : minOver b v (a :: l) init =
        minOver b v l (if b a = sentinel a then (if v a < init then v a else init) else init) := rfl
    rw [hstep, ih]
    by_cases h : b a = sentinel a
    · by_cases hv : v a < init
      · simp only [h, hv, if_true, List.mem_cons, exists_eq_or_imp, true_and]
        constructor
        · rintro (h1 | h1)
          · exact Or.inr (Or.inl h1)
          · exact Or.inr (Or.inr h1)
        · rintro (h1 | h1 | h1)
          · exact Or.inl (by omega)
          · exact Or.inl h1
          · exact Or.inr h1
      · simp only [h, hv, if_true, if_false, List.mem_cons, exists_eq_or_imp, true_and]
        constructor
        · rintro (h1 | h1)
          · exact Or.inl h1
          · exact Or.inr (Or.inr h1)
        · rintro (h1 | h1 | h1)
          · exact Or.inl h1
          · exact Or.inl (by omega)
          · exact Or.inr h1
    · simp only [h, if_false, List.mem_cons, exists_eq_or_imp, false_and, false_or]

theorem le_minOver_iff (b : Board) (v : Fin 9 → Int) (l : List (Fin 9)) (init t : Int) :
    t ≤ minOver b v l init ↔ t ≤ init ∧ ∀ i ∈ l, b i = sentinel i → t ≤ v i := by
  have h := minOver_le_iff b v l init (t - 1)
  constructor
  · intro hle
    refine ⟨?_, ?_⟩
    · by_contra hc
      have := h.mpr (Or.inl (by omega))
      omega
    · intro i hi he
      by_contra hc
      have := h.mpr (Or.inr ⟨i, hi, he, by omega⟩)
      omega
  · rintro ⟨h1, h2⟩
    by_contra hc
    rcases h.mp (by omega) with h3 | ⟨i, hi, he, h3⟩
    · omega
    · have := h2 i hi he
      omega

theorem int_eq_of_le_iff (x y : Int) (h : ∀ t, t ≤ x ↔ t ≤ y) : x = y :=
  le_antisymm ((h x).mp le_rfl) ((h y).mpr le_rfl)

theorem maxOver_congr (b : Board) (v w : Fin 9 → Int) (l : List (Fin 9)) (init : Int)
    (h : ∀ i, b i = sentinel i → v i = w i) : maxOver b v l init = maxOver b w l init := by
  apply int_eq_of_le_iff
  intro t
  rw [le_maxOver_iff, le_maxOver_iff]
  constructor
  · rintro (h1 | ⟨i, hi, he, h1⟩)
    · exact Or.inl h1
    · exact Or.inr ⟨i, hi, he, by rw [← h i he]; exact h1⟩
  · rintro (h1 | ⟨i, hi, he, h1⟩)
    · exact Or.inl h1
    · exact Or.inr ⟨i, hi, he, by rw [h i he]; exact h1⟩

theorem minOver_congr (b : Board) (v w : Fin 9 → Int) (l : List (Fin 9)) (init : Int)
    (h : ∀ i, b i = sentinel i → v i = w i) : minOver b v l init = minOver b w l init := by
  apply int_eq_of_le_iff
  intro t
  rw [le_minOver_iff, le_minOver_iff]
  constructor
  · rintro ⟨h1, h2⟩
    exact ⟨h1, fun i hi he => by rw [← h i he]; exact h2 i hi he⟩
  · rintro ⟨h1, h2⟩
    exact ⟨h1, fun i hi he => by rw [h i he]; exact h2 i hi he⟩

/-! ## Fuel: ten levels are never used up -/

theorem mm_fuel (f1 f2 : Nat) (b : Board) (d : Int) (m : Bool)
    (h1 : countEmpty b < f1) (h2 : countEmpty b < f2) : mm f1 b d m = mm f2 b d m := by
  induction f1 generalizing f2 b d m with
  | zero => omega
  | succ f1 ih =>
    cases f2 with
    | zero => omega
    | succ f2 =>
      unfold mm
      by_cases c1 : check_win b > 0
      · rw [if_pos c1, if_pos c1]
      · rw [if_neg c1, if_neg c1]
        by_cases c2 : check_win b < 0
        · rw [if_pos c2, if_pos c2]
        · rw [if_neg c2, if_neg c2]
          by_cases c3 : check_draw b = true
          · rw [if_pos c3, if_pos c3]
          · rw [if_neg c3, if_neg c3]
            cases m with
            | true =>
              rw [if_pos rfl, if_pos rfl]
              apply maxOver_congr
              intro i hi
              have := countEmpty_update b i P1_MARK hi (sentinel_ne_P1 i)
              exact ih f2 _ _ _ (by omega) (by omega)
            | false =>
              rw [if_neg Bool.false_ne_true, if_neg Bool.false_ne_true]
              apply minOver_congr
              intro i hi
              have := countEmpty_update b i P2_MARK hi (sentinel_ne_P2 i)
              exact ih f2 _ _ _ (by omega) (by omega)

/-! ## Unfolding the search one level -/

theorem mm_win (fuel : Nat) (b : Board) (d : Int) (m : Bool) (h : check_win b = 10) :
    mm (fuel + 1) b d m = 10 - d := by
  unfold mm
  rw [if_pos (by omega), h]

theorem mm_loss (fuel : Nat) (b : Board) (d : Int) (m : Bool) (h : check_win b = -10) :
    mm (fuel + 1) b d m = -10 + d := by
  unfold mm
  rw [if_neg (by omega), if_pos (by omega), h]

theorem mm_draw (fuel : Nat) (b : Board) (d : Int) (m : Bool) (h : check_win b = 0)
    (hd : check_draw b = true) : mm (fuel + 1) b d m = 0 := by
  unfold mm
  rw [if_neg (by omega), if_neg (by omega), if_pos hd]

theorem mm_max (fuel : Nat) (b : Board) (d : Int) (h : check_win b = 0)
    (hd : check_draw b = false) :
    mm (fuel + 1) b d true =
      maxOver b (fun i => mm fuel (Function.update b i P1_MARK) (d + 1) false) cells
        INT32_MIN := by
  rw [mm, if_neg (by omega), if_neg (by omega), if_neg (by simp [hd]), if_pos rfl]

theorem mm_min (fuel : Nat) (b : Board) (d : Int) (h : check_win b = 0)
    (hd : check_draw b = false) :
    mm (fuel + 1) b d false =
      minOver b (fun i => mm fuel (Function.update b i P2_MARK) (d + 1) true) cells
        INT16_MAX := by
  rw [mm, if_neg (by omega), if_neg (by omega), if_neg (by simp [hd]),
    if_neg Bool.false_ne_true]

theorem geZ_max (fuel : Nat) (b : Board) (h : check_win b = 0) (hd : check_draw b = false) :
    geZ (fuel + 1) b true = tryOrder.any (fun i =>
        decide (b i = sentinel i) && geZ fuel (Function.update b i P1_MARK) false) := by
  rw [geZ, if_neg (by omega), if_neg (by omega), if_neg (by simp [hd]), if_pos rfl]

theorem geZ_min (fuel : Nat) (b : Board) (h : check_win b = 0) (hd : check_draw b = false) :
    geZ (fuel + 1) b false = tryOrder.all (fun i =>
        decide (b i ≠ sentinel i) || geZ fuel (Function.update b i P2_MARK) true) := by
  rw [geZ, if_neg (by omega), if_neg (by omega), if_neg (by simp [hd]),
    if_neg Bool.false_ne_true]

theorem leZ_max (fuel : Nat) (b : Board) (h : check_win b = 0) (hd : check_draw b = false) :
    leZ (fuel + 1) b true = tryOrder.all (fun i =>
        decide (b i ≠ sentinel i) || leZ fuel (Function.update b i P1_MARK) false) := by
  rw [leZ, if_neg (by omega), if_neg (by omega), if_neg (by simp [hd]), if_pos rfl]

theorem leZ_min (fuel : Nat) (b : Board) (h : check_win b = 0) (hd : check_draw b = false) :
    leZ (fuel + 1) b false = tryOrder.any (fun i =>
        decide (b i = sentinel i) && leZ fuel (Function.update b i P2_MARK) true) := by
  rw [leZ, if_neg (by omega), if_neg (by omega), if_neg (by simp [hd]),
    if_neg Bool.false_ne_true]

/-! ## Range of the scores -/

theorem mm_bounds (fuel : Nat) (b : Board) (d : Int) (m : Bool) (hd : 0 ≤ d)
    (hde : d + countEmpty b ≤ 10) : -10 + d ≤ mm fuel b d m ∧ mm fuel b d m ≤ 10 - d := by
  induction fuel generalizing b d m with
  | zero =>
    unfold mm
    omega
  | succ fuel ih =>
    rcases check_win_cases b with hw | hw | hw
    · rw [mm_win fuel b d m hw]; omega
    · rw [mm_loss fuel b d m hw]; omega
    · cases c3 : check_draw b with
      | true => rw [mm_draw fuel b d m hw c3]; omega
      | false =>
        obtain ⟨j, hj⟩ := (check_draw_eq_false b).mp c3
        cases m with
        | true =>
          rw [mm_max fuel b d hw c3]
          have hc := countEmpty_update b j P1_MARK hj (sentinel_ne_P1 j)
          constructor
          · rw [le_maxOver_iff]
            exact Or.inr ⟨j, mem_cells j, hj, by
              have := (ih (Function.update b j P1_MARK) (d + 1) false (by omega) (by omega)).1
              omega⟩
          · rw [maxOver_le_iff]
            refine ⟨by simp only [INT32_MIN]; omega, fun i _ hi => ?_⟩
            have hci := countEmpty_update b i P1_MARK hi (sentinel_ne_P1 i)
            have := (ih (Function.update b i P1_MARK) (d + 1) false (by omega) (by omega)).2
            omega
        | false =>
          rw [mm_min fuel b d hw c3]
          have hc := countEmpty_update b j P2_MARK hj (sentinel_ne_P2 j)
          constructor
          · rw [le_minOver_iff]
            refine ⟨by simp only [INT16_MAX]; omega, fun i _ hi => ?_⟩
            have hci := countEmpty_update b i P2_MARK hi (sentinel_ne_P2 i)
            have := (ih (Function.update b i P2_MARK) (d + 1) true (by omega) (by omega)).1
            omega
          · rw [minOver_le_iff]
            exact Or.inr ⟨j, mem_cells j, hj, by
              have := (ih (Function.update b j P2_MARK) (d + 1) true (by omega) (by omega)).2
              omega⟩

/-! ## The sign tests decide the sign of the score -/

theorem geZ_iff (f1 f2 : Nat) (b : Board) (d : Int) (m : Bool)
    (h1 : countEmpty b < f1) (h2 : countEmpty b < f2) (hd : 0 ≤ d)
    (hde : d + countEmpty b ≤ 9) : geZ f1 b m = true ↔ 0 ≤ mm f2 b d m := by
  induction f1 generalizing f2 b d m with
  | zero => omega
  | succ f1 ih =>
    cases f2 with
    | zero => omega
    | succ f2 =>
      rcases check_win_cases b with hw | hw | hw
      · rw [mm_win f2 b d m hw, geZ, if_pos (by omega)]
        simp only [true_iff]; omega
      · rw [mm_loss f2 b d m hw, geZ, if_neg (by omega), if_pos (by omega)]
        simp only [Bool.false_eq_true, false_iff]; omega
      · cases c3 : check_draw b with
        | true =>
          rw [mm_draw f2 b d m hw c3, geZ, if_neg (by omega), if_neg (by omega), if_pos c3]
          simp
        | false =>
          cases m with
          | true =>
            rw [mm_max f2 b d hw c3, geZ_max f1 b hw c3, le_maxOver_iff, List.any_eq_true]
            constructor
            · rintro ⟨i, _, hi⟩
              simp only [Bool.and_eq_true, decide_eq_true_eq] at hi
              have hc := countEmpty_update b i P1_MARK hi.1 (sentinel_ne_P1 i)
              exact Or.inr ⟨i, mem_cells i, hi.1,
                (ih f2 _ (d + 1) false (by omega) (by omega) (by omega) (by omega)).mp hi.2⟩
            · rintro (h | ⟨i, _, hi, hv⟩)
              · simp only [INT32_MIN] at h; omega
              · have hc := countEmpty_update b i P1_MARK hi (sentinel_ne_P1 i)
                refine ⟨i, mem_tryOrder i, ?_⟩
                simp only [Bool.and_eq_true, decide_eq_true_eq]
                exact ⟨hi,
                  (ih f2 _ (d + 1) false (by omega) (by omega) (by omega) (by omega)).mpr hv⟩
          | false =>
            rw [mm_min f2 b d hw c3, geZ_min f1 b hw c3, le_minOver_iff, List.all_eq_true]
            constructor
            · intro h
              refine ⟨by simp only [INT16_MAX]; omega, fun i _ hi => ?_⟩
              have hc := countEmpty_update b i P2_MARK hi (sentinel_ne_P2 i)
              have := h i (mem_tryOrder i)
              simp only [Bool.or_eq_true, decide_eq_true_eq] at this
              rcases this with h3 | h3
              · exact absurd hi h3
              · exact (ih f2 _ (d + 1) true (by omega) (by omega) (by omega) (by omega)).mp h3
            · rintro ⟨_, h⟩ i _
              simp only [Bool.or_eq_true, decide_eq_true_eq]
              by_cases hi : b i = sentinel i
              · have hc := countEmpty_update b i P2_MARK hi (sentinel_ne_P2 i)
                exact Or.inr ((ih f2 _ (d + 1) true (by omega) (by omega) (by omega)
                  (by omega)).mpr (h i (mem_cells i) hi))
              · exact Or.inl hi

theorem leZ_iff (f1 f2 : Nat) (b : Board) (d : Int) (m : Bool)
    (h1 : countEmpty b < f1) (h2 : countEmpty b < f2) (hd : 0 ≤ d)
    (hde : d + countEmpty b ≤ 9) : leZ f1 b m = true ↔ mm f2 b d m ≤ 0 := by
  induction f1 generalizing f2 b d m with
  | zero => omega
  | succ f1 ih =>
    cases f2 with
    | zero => omega
    | succ f2 =>
      rcases check_win_cases b with hw | hw | hw
      · rw [mm_win f2 b d m hw, leZ, if_pos (by omega)]
        simp only [Bool.false_eq_true, false_iff]; omega
      · rw [mm_loss f2 b d m hw, leZ, if_neg (by omega), if_pos (by omega)]
        simp only [true_iff]; omega
      · cases c3 : check_draw b with
        | true =>
          rw [mm_draw f2 b d m hw c3, leZ, if_neg (by omega), if_neg (by omega), if_pos c3]
          simp
        | false =>
          cases m with
          | true =>
            rw [mm_max f2 b d hw c3, leZ_max f1 b hw c3, maxOver_le_iff, List.all_eq_true]
            constructor
            · intro h
              refine ⟨by simp only [INT32_MIN]; omega, fun i _ hi => ?_⟩
              have hc := countEmpty_update b i P1_MARK hi (sentinel_ne_P1 i)
              have := h i (mem_tryOrder i)
              simp only [Bool.or_eq_true, decide_eq_true_eq] at this
              rcases this with h3 | h3
              · exact absurd hi h3
              · exact (ih f2 _ (d + 1) false (by omega) (by omega) (by omega) (by omega)).mp h3
            · rintro ⟨_, h⟩ i _
              simp only [Bool.or_eq_true, decide_eq_true_eq]
              by_cases hi : b i = sentinel i
              · have hc := countEmpty_update b i P1_MARK hi (sentinel_ne_P1 i)
                exact Or.inr ((ih f2 _ (d + 1) false (by omega) (by omega) (by omega)
                  (by omega)).mpr (h i (mem_cells i) hi))
              · exact Or.inl hi
          | false =>
            rw [mm_min f2 b d hw c3, leZ_min f1 b hw c3, minOver_le_iff, List.any_eq_true]
            constructor
            · rintro ⟨i, _, hi⟩
              simp only [Bool.and_eq_true, decide_eq_true_eq] at hi
              have hc := countEmpty_update b i P2_MARK hi.1 (sentinel_ne_P2 i)
              exact Or.inr ⟨i, mem_cells i, hi.1,
                (ih f2 _ (d + 1) true (by omega) (by omega) (by omega) (by omega)).mp hi.2⟩
            · rintro (h | ⟨i, _, hi, hv⟩)
              · simp only [INT16_MAX] at h; omega
              · have hc := countEmpty_update b i P2_MARK hi (sentinel_ne_P2 i)
                refine ⟨i, mem_tryOrder i, ?_⟩
                simp only [Bool.and_eq_true, decide_eq_true_eq]
                exact ⟨hi,
                  (ih f2 _ (d + 1) true (by omega) (by omega) (by omega) (by omega)).mpr hv⟩

/-! ## The loop of `find_best_move` -/

theorem bestLoop_eq (b : Board) (l : List (Fin 9)) (init : Int × Int) :
    l.foldl (fun (st : Int × Int × Board) i =>
        if st.2.2 i = sentinel i then
          if (minimax (Function.update st.2.2 i P1_MARK) 0 false).1 > st.2.1 then
            ((i.val : Int) + 1, (minimax (Function.update st.2.2 i P1_MARK) 0 false).1,
              Function.update (minimax (Function.update st.2.2 i P1_MARK) 0 false).2 i
                (sentinel i))
          else (st.1, st.2.1,
              Function.update (minimax (Function.update st.2.2 i P1_MARK) 0 false).2 i
                (sentinel i))
        else st) (init.1, init.2, b) =
      ((bestOver b (moveScore b) l init).1, (bestOver b (moveScore b) l init).2, b) := by
  induction l generalizing init with
  | nil => rfl
  | cons i l ih =>
    simp only [List.foldl_cons, bestOver]
    by_cases h : b i = sentinel i
    · have hb : Function.update (minimax (Function.update b i P1_MARK) 0 false).2 i
          (sentinel i) = b := by
        rw [minimax_eq]; exact update_restore b i P1_MARK h
      by_cases hv : (minimax (Function.update b i P1_MARK) 0 false).1 > init.2
      · simp only [h, if_true, hv, hb]
        have := ih ((i.val : Int) + 1, (minimax (Function.update b i P1_MARK) 0 false).1)
        simp only at this
        rw [this]
        simp [bestOver, moveScore, h, hv]
      · simp only [h, if_true, hv, if_false, hb]
        rw [ih]
        simp [bestOver, moveScore, h, hv]
    · simp only [h, if_false]
      rw [ih]
      simp [bestOver, h]

theorem find_best_move_eq (b : Board) :
    find_best_move b = ((bestOver b (moveScore b) cells (-1, INT32_MIN)).1, b) := by
  unfold find_best_move
  simp only []
  have := bestLoop_eq b cells (-1, INT32_MIN)
  simp only at this
  rw [this]

theorem bestOver_snoc (b : Board) (v : Fin 9 → Int) (l : List (Fin 9)) (a : Fin 9)
    (init : Int × Int) :
    bestOver b v (l ++ [a]) init =
      if b a = sentinel a then
        (if v a > (bestOver b v l init).2 then ((a.val : Int) + 1, v a) else bestOver b v l init)
      else bestOver b v l init := by
  simp [bestOver, List.foldl_append]

theorem bestOver_spec (b : Board) (v : Fin 9 → Int)
    (hv : ∀ i, b i = sentinel i → INT32_MIN < v i) (l : List (Fin 9))
    (hl : l.Pairwise (· < ·)) :
    ((∀ i ∈ l, b i ≠ sentinel i) ∧ bestOver b v l (-1, INT32_MIN) = (-1, INT32_MIN)) ∨
    (∃ p ∈ l, b p = sentinel p ∧ bestOver b v l (-1, INT32_MIN) = ((p.val : Int) + 1, v p) ∧
      (∀ q ∈ l, b q = sentinel q → v q ≤ v p) ∧
      (∀ q ∈ l, b q = sentinel q → q < p → v q < v p)) := by
  induction l using List.reverseRecOn with
  | nil => exact Or.inl ⟨by simp, rfl⟩
  | append_singleton l a ih =>
    rw [List.pairwise_append] at hl
    obtain ⟨hl1, _, hl3⟩ := hl
    have hlt : ∀ q ∈ l, q < a := fun q hq => hl3 q hq a (by simp)
    rw [bestOver_snoc]
    by_cases ha : b a = sentinel a
    · rw [if_pos ha]
      rcases ih hl1 with ⟨hnone, hst⟩ | ⟨p, hp, hpe, hst, hmax, hfirst⟩
      · right
        refine ⟨a, by simp, ha, ?_, ?_, ?_⟩
        · rw [hst, if_pos (hv a ha)]
        · intro q hq hqe
          rcases List.mem_append.mp hq with h1 | h1
          · exact absurd hqe (hnone q h1)
          · simp only [List.mem_singleton] at h1; rw [h1]
        · intro q hq hqe hqa
          rcases List.mem_append.mp hq with h1 | h1
          · exact absurd hqe (hnone q h1)
          · simp only [List.mem_singleton] at h1; rw [h1] at hqa; exact absurd hqa (lt_irrefl _)
      · right
        rw [hst]
        by_cases hgt : v a > v p
        · rw [if_pos hgt]
          refine ⟨a, by simp, ha, rfl, ?_, ?_⟩
          · intro q hq hqe
            rcases List.mem_append.mp hq with h1 | h1
            · have := hmax q h1 hqe; omega
            · simp only [List.mem_singleton] at h1; rw [h1]
          · intro q hq hqe hqa
            rcases List.mem_append.mp hq with h1 | h1
            · have := hmax q h1 hqe; omega
            · simp only [List.mem_singleton] at h1; rw [h1] at hqa
              exact absurd hqa (lt_irrefl _)
        · rw [if_neg hgt]
          refine ⟨p, by simp [hp], hpe, rfl, ?_, ?_⟩
          · intro q hq hqe
            rcases List.mem_append.mp hq with h1 | h1
            · exact hmax q h1 hqe
            · simp only [List.mem_singleton] at h1; rw [h1]; omega
          · intro q hq hqe hqp
            rcases List.mem_append.mp hq with h1 | h1
            · exact hfirst q h1 hqe hqp
            · simp only [List.mem_singleton] at h1; rw [h1] at hqp
              exact absurd (hlt p hp) (not_lt.mpr (le_of_lt hqp))
    · rw [if_neg ha]
      rcases ih hl1 with ⟨hnone, hst⟩ | ⟨p, hp, hpe, hst, hmax, hfirst⟩
      · left
        refine ⟨?_, hst⟩
        intro q hq
        rcases List.mem_append.mp hq with h1 | h1
        · exact hnone q h1
        · simp only [List.mem_singleton] at h1; rw [h1]; exact ha
      · right
        refine ⟨p, by simp [hp], hpe, hst, ?_, ?_⟩
        · intro q hq hqe
          rcases List.mem_append.mp hq with h1 | h1
          · exact hmax q h1 hqe
          · simp only [List.mem_singleton] at h1; rw [h1] at hqe; exact absurd hqe ha
        · intro q hq hqe hqp
          rcases List.mem_append.mp hq with h1 | h1
          · exact hfirst q h1 hqe hqp
          · simp only [List.mem_singleton] at h1; rw [h1] at hqe; exact absurd hqe ha

theorem cells_sorted : cells.Pairwise (· < ·) := by
  unfold cells
  decide

theorem moveScore_eq (b : Board) (i : Fin 9) :
    moveScore b i = mm 10 (Function.update b i P1_MARK) 0 false := by
  rw [moveScore, minimax_eq]

theorem moveScore_bounds (b : Board) (i : Fin 9) (h : b i = sentinel i) :
    -10 ≤ moveScore b i ∧ moveScore b i ≤ 10 := by
  have hc := countEmpty_update b i P1_MARK h (sentinel_ne_P1 i)
  have hle := countEmpty_le b
  have := mm_bounds 10 (Function.update b i P1_MARK) 0 false le_rfl (by omega)
  rw [moveScore_eq]
  omega

/-- The result of `find_best_move` on a board with an empty cell: the first empty cell
among those of greatest score. -/
theorem find_best_move_spec (b : Board) (h : ∃ i, b i = sentinel i) :
    ∃ p : Fin 9, (find_best_move b).1 = (p.val : Int) + 1 ∧ b p = sentinel p ∧
      (∀ q, b q = sentinel q → moveScore b q ≤ moveScore b p) ∧
      (∀ q, b q = sentinel q → q < p → moveScore b q < moveScore b p) := by
  have hv : ∀ i, b i = sentinel i → INT32_MIN < moveScore b i := by
    intro i hi
    have := (moveScore_bounds b i hi).1
    simp only [INT32_MIN]; omega
  rw [find_best_move_eq]
  rcases bestOver_spec b (moveScore b) hv cells cells_sorted with
    ⟨hnone, _⟩ | ⟨p, _, hpe, hst, hmax, hfirst⟩
  · obtain ⟨i, hi⟩ := h
    exact absurd hi (hnone i (mem_cells i))
  · exact ⟨p, by rw [hst], hpe, fun q hq => hmax q (mem_cells q) hq,
      fun q hq hqp => hfirst q (mem_cells q) hq hqp⟩

theorem find_best_move_board (b : Board) : (find_best_move b).2 = b := by
  rw [find_best_move_eq]

/-! ## Lines of the board -/

theorem init_shared_state_board (g : TTT_Game) : (init_shared_state g).board = initBoard := by
  funext i
  simp only [init_shared_state, cells, List.foldl, initBoard]
  fin_cases i <;> simp [Function.update_apply]

theorem hasLine_iff (b : Board) (m : Int) :
    hasLine b m ↔
      (b 0 = m ∧ b 1 = m ∧ b 2 = m) ∨ (b 3 = m ∧ b 4 = m ∧ b 5 = m) ∨
      (b 6 = m ∧ b 7 = m ∧ b 8 = m) ∨ (b 0 = m ∧ b 3 = m ∧ b 6 = m) ∨
      (b 1 = m ∧ b 4 = m ∧ b 7 = m) ∨ (b 2 = m ∧ b 5 = m ∧ b 8 = m) ∨
      (b 0 = m ∧ b 4 = m ∧ b 8 = m) ∨ (b 2 = m ∧ b 4 = m ∧ b 6 = m) := by
  simp only [hasLine, boardLines, List.mem_cons, List.mem_singleton, exists_eq_or_imp,
    List.not_mem_nil, false_and, exists_false, or_false, exists_eq_left]

theorem firstLine_eq_zero_iff (l : List (Int × Int × Int)) :
    firstLine l = 0 ↔ ∀ t ∈ l, ¬(t.1 = t.2.1 ∧ t.2.1 = t.2.2) := by
  induction l with
  | nil => simp [firstLine]
  | cons t l ih =>
    obtain ⟨x, y, z⟩ := t
    simp only [firstLine, List.mem_cons, forall_eq_or_imp]
    by_cases h : x = y ∧ y = z
    · rw [if_pos h]
      constructor
      · intro h1
        split_ifs at h1
        all_goals omega
      · intro h1
        exact absurd h h1.1
    · rw [if_neg h, ih]
      exact ⟨fun h1 => ⟨h, h1⟩, fun h1 => h1.2⟩

theorem firstLine_of_all (l : List (Int × Int × Int)) (m : Int)
    (h : ∀ t ∈ l, (t.1 = t.2.1 ∧ t.2.1 = t.2.2) → t.1 = m) :
    firstLine l = 0 ∨ firstLine l = (if m = P1_MARK then 10 else -10) := by
  induction l with
  | nil => exact Or.inl rfl
  | cons t l ih =>
    obtain ⟨x, y, z⟩ := t
    simp only [firstLine]
    by_cases hx : x = y ∧ y = z
    · rw [if_pos hx]
      have : x = m := h (x, y, z) (by simp) hx
      rw [this]
      exact Or.inr rfl
    · rw [if_neg hx]
      exact ih (fun t ht => h t (List.mem_cons_of_mem _ ht))

theorem boardLines_distinct :
    ∀ l ∈ boardLines, l.1 ≠ l.2.1 ∧ l.2.1 ≠ l.2.2 ∧ l.1 ≠ l.2.2 := by
  intro l hl
  simp only [boardLines, List.mem_cons, List.mem_singleton, List.not_mem_nil, or_false] at hl
  rcases hl with rfl | rfl | rfl | rfl | rfl | rfl | rfl | rfl <;> decide

theorem line_update (b : Board) (p : Fin 9) (m : Int) (i j k : Fin 9)
    (hij : i ≠ j) (hjk : j ≠ k) (hik : i ≠ k)
    (h0 : ¬(b i = b j ∧ b j = b k))
    (h : Function.update b p m i = Function.update b p m j ∧
      Function.update b p m j = Function.update b p m k) :
    Function.update b p m i = m ∧
      ((p = i ∧ b j = m ∧ b k = m) ∨ (p = j ∧ b i = m ∧ b k = m) ∨
        (p = k ∧ b i = m ∧ b j = m)) := by
  simp only [Function.update_apply] at h ⊢
  by_cases hi : i = p
  · subst hi
    have hj : ¬ j = i := fun e => hij e.symm
    have hk : ¬ k = i := fun e => hik e.symm
    simp only [hj, hk, if_true, if_false] at h ⊢
    exact ⟨trivial, Or.inl ⟨trivial, h.1.symm, by rw [← h.2, ← h.1]⟩⟩
  · by_cases hj : j = p
    · subst hj
      have hk : ¬ k = j := fun e => hjk e.symm
      simp only [hi, hk, if_true, if_false] at h ⊢
      exact ⟨h.1, Or.inr (Or.inl ⟨trivial, h.1, h.2.symm⟩)⟩
    · by_cases hk : k = p
      · subst hk
        simp only [hi, hj, if_true, if_false] at h ⊢
        exact ⟨by rw [h.1, h.2], Or.inr (Or.inr ⟨trivial, by rw [h.1, h.2], h.2⟩)⟩
      · simp only [hi, hj, hk, if_false] at h
        exact absurd h h0

theorem check_win_update_cases (b : Board) (p : Fin 9) (m : Int) (h0 : check_win b = 0) :
    check_win (Function.update b p m) = 0 ∨
      check_win (Function.update b p m) = (if m = P1_MARK then 10 else -10) := by
  rw [check_win_eq, firstLine_eq_zero_iff] at h0
  rw [check_win_eq]
  apply firstLine_of_all
  intro t ht hm
  simp only [lineCells, List.mem_map] at ht h0
  obtain ⟨l, hl, rfl⟩ := ht
  obtain ⟨d1, d2, d3⟩ := boardLines_distinct l hl
  exact (line_update b p m l.1 l.2.1 l.2.2 d1 d2 d3
    (h0 _ ⟨l, hl, rfl⟩) hm).1

theorem check_win_update_ne_zero (b : Board) (p : Fin 9) (m : Int) (h0 : check_win b = 0) :
    check_win (Function.update b p m) ≠ 0 ↔ completesLine b m p := by
  rw [check_win_eq, firstLine_eq_zero_iff] at h0
  rw [check_win_eq, Ne, firstLine_eq_zero_iff]
  simp only [lineCells, List.mem_map] at h0 ⊢
  push_neg
  constructor
  · rintro ⟨t, ⟨l, hl, rfl⟩, hm⟩
    obtain ⟨d1, d2, d3⟩ := boardLines_distinct l hl
    have := (line_update b p m l.1 l.2.1 l.2.2 d1 d2 d3
      (h0 _ ⟨l, hl, rfl⟩) ⟨hm.1, hm.2⟩).2
    exact ⟨l, hl, this⟩
  · rintro ⟨l, hl, hc⟩
    obtain ⟨d1, d2, d3⟩ := boardLines_distinct l hl
    refine ⟨_, ⟨l, hl, rfl⟩, ?_⟩
    simp only [Function.update_apply]
    rcases hc with ⟨rfl, h1, h2⟩ | ⟨rfl, h1, h2⟩ | ⟨rfl, h1, h2⟩
    · simp [d1.symm, d3.symm, h1, h2]
    · simp [d1, d2.symm, h1, h2]
    · simp [d2, d3, h1, h2]

/-! The search functions are evaluated only through the lemmas above. -/

attribute [irreducible] minimaxAux minimax find_best_move mm geZ leZ

theorem sentinel_inj (i j : Fin 9) (h : sentinel i = sentinel j) : i = j := by
  simp only [sentinel] at h
  exact Fin.ext (by omega)

theorem check_win_zero_of_valid (b : Board) (hv : validBoard b) (h1 : ¬hasLine b P1_MARK)
    (h2 : ¬hasLine b P2_MARK) : check_win b = 0 := by
  rw [check_win_eq, firstLine_eq_zero_iff]
  intro t ht hm
  simp only [lineCells, List.mem_map] at ht
  obtain ⟨l, hl, rfl⟩ := ht
  obtain ⟨d1, _, _⟩ := boardLines_distinct l hl
  simp only at hm
  rcases hv l.1 with h | h | h
  · rcases hv l.2.1 with h3 | h3 | h3
    · exact d1 (sentinel_inj _ _ (by rw [← h, ← h3, hm.1]))
    · exact sentinel_ne_P1 l.1 (by rw [← h, ← h3, hm.1])
    · exact sentinel_ne_P2 l.1 (by rw [← h, ← h3, hm.1])
  · exact h1 ⟨l, hl, h, by rw [← hm.1, h], by rw [← hm.2, ← hm.1, h]⟩
  · exact h2 ⟨l, hl, h, by rw [← hm.1, h], by rw [← hm.2, ← hm.1, h]⟩

theorem setAt_cell (b : Board) (p : Fin 9) (v : Int) :
    setAt b ((p.val : Int) + 1 - 1) v = Function.update b p v := by
  have hp := p.isLt
  have h : (0 : Int) ≤ (p.val : Int) + 1 - 1 ∧ (p.val : Int) + 1 - 1 < 9 := by omega
  have e : (⟨((p.val : Int) + 1 - 1).toNat, by omega⟩ : Fin 9) = p := Fin.ext (by simp)
  unfold setAt
  rw [dif_pos h, e]

theorem cellAt_cell (b : Board) (p : Fin 9) : cellAt b ((p.val : Int) + 1 - 1) = b p := by
  have hp := p.isLt
  have h : (0 : Int) ≤ (p.val : Int) + 1 - 1 ∧ (p.val : Int) + 1 - 1 < 9 := by omega
  have e : (⟨((p.val : Int) + 1 - 1).toNat, by omega⟩ : Fin 9) = p := Fin.ext (by simp)
  unfold cellAt
  rw [dif_pos h, e]

/-! ## The opening position -/

set_option maxRecDepth 1000000 in
theorem opening_geZ : geZ 10 (Function.update initBoard 0 P1_MARK) false = true := by
  decide!

set_option maxRecDepth 1000000 in
theorem opening_leZ :
    cells.all (fun q => leZ 10 (Function.update initBoard q P1_MARK) false) = true := by
  decide!

theorem moveScore_sign (b : Board) (q : Fin 9) (h : b q = sentinel q) :
    (geZ 10 (Function.update b q P1_MARK) false = true ↔ 0 ≤ moveScore b q) ∧
    (leZ 10 (Function.update b q P1_MARK) false = true ↔ moveScore b q ≤ 0) := by
  have hc := countEmpty_update b q P1_MARK h (sentinel_ne_P1 q)
  have hle := countEmpty_le b
  rw [moveScore_eq]
  exact ⟨geZ_iff 10 10 _ 0 false (by omega) (by omega) le_rfl (by omega),
    leZ_iff 10 10 _ 0 false (by omega) (by omega) le_rfl (by omega)⟩

theorem opening_score (q : Fin 9) : moveScore initBoard q ≤ 0 ∧ 0 ≤ moveScore initBoard 0 := by
  constructor
  · have h := List.all_eq_true.mp opening_leZ q (mem_cells q)
    exact (moveScore_sign initBoard q rfl).2.mp h
  · exact (moveScore_sign initBoard 0 rfl).1.mp opening_geZ

/-- Claim C2. On a board of digits and marks with an empty cell, `find_best_move` returns
the position `p + 1` of an empty cell `p` whose score is the greatest of the scores of all
empty cells, and every empty cell before `p` scores strictly less: `p` is the first cell
of greatest score, so a later cell of equal score never replaces it. -/
theorem C2_find_best_move_first_maximum (b : Board) (_hvalid : validBoard b)
    (hempty : ∃ i, b i = sentinel i) :
    ∃ p : Fin 9, (find_best_move b).1 = (p.val : Int) + 1 ∧ b p = sentinel p ∧
      (∀ q, b q = sentinel q → moveScore b q ≤ moveScore b p) ∧
      (∀ q, b q = sentinel q → q < p → moveScore b q < moveScore b p) :=
  find_best_move_spec b hempty

theorem C2_witness :
    validBoard initBoard ∧ (∃ i, initBoard i = sentinel i) ∧
    ∃ p : Fin 9, (find_best_move initBoard).1 = (p.val : Int) + 1 ∧
      initBoard p = sentinel p ∧
      (∀ q, initBoard q = sentinel q → moveScore initBoard q ≤ moveScore initBoard p) ∧
      (∀ q, initBoard q = sentinel q → q < p →
        moveScore initBoard q < moveScore initBoard p) :=
  ⟨fun _ => Or.inl rfl, ⟨0, rfl⟩,
    C2_find_best_move_first_maximum initBoard (fun _ => Or.inl rfl) ⟨0, rfl⟩⟩

theorem hasLine_of_completesLine (b : Board) (m : Int) (p : Fin 9)
    (h : completesLine b m p) : hasLine (Function.update b p m) m := by
  obtain ⟨l, hl, hc⟩ := h
  obtain ⟨d1, d2, d3⟩ := boardLines_distinct l hl
  refine ⟨l, hl, ?_⟩
  simp only [Function.update_apply]
  rcases hc with ⟨rfl, h1, h2⟩ | ⟨rfl, h1, h2⟩ | ⟨rfl, h1, h2⟩
  · simp [d1.symm, d3.symm, h1, h2]
  · simp [d1, d2.symm, h1, h2]
  · simp [d2, d3, h1, h2]

theorem check_win_complete_P1 (b : Board) (q : Fin 9) (h0 : check_win b = 0)
    (hc : completesLine b P1_MARK q) : check_win (Function.update b q P1_MARK) = 10 := by
  rcases check_win_update_cases b q P1_MARK h0 with h | h
  · exact absurd h ((check_win_update_ne_zero b q P1_MARK h0).mpr hc)
  · rw [h, if_pos rfl]

theorem moveScore_lt_ten (b : Board) (p : Fin 9)
    (hw : check_win (Function.update b p P1_MARK) ≠ 10) : moveScore b p < 10 := by
  rw [moveScore_eq]
  rcases check_win_cases (Function.update b p P1_MARK) with h | h | h
  · exact absurd h hw
  · rw [mm_loss 9 _ 0 false h]; omega
  · cases c3 : check_draw (Function.update b p P1_MARK) with
    | true => rw [mm_draw 9 _ 0 false h c3]; omega
    | false =>
      obtain ⟨j, hj⟩ := (check_draw_eq_false _).mp c3
      have hc := countEmpty_update _ j P2_MARK hj (sentinel_ne_P2 j)
      have hle := countEmpty_le (Function.update b p P1_MARK)
      have hb := (mm_bounds 9 (Function.update (Function.update b p P1_MARK) j P2_MARK) (0 + 1)
        true (by omega) (by omega)).2
      have : mm (9 + 1) (Function.update b p P1_MARK) 0 false ≤ 9 := by
        rw [mm_min 9 _ 0 h c3, minOver_le_iff]
        exact Or.inr ⟨j, mem_cells j, hj, by omega⟩
      have e : mm 10 (Function.update b p P1_MARK) 0 false =
          mm (9 + 1) (Function.update b p P1_MARK) 0 false := rfl
      omega

/-- Claim C3. On a board of digits and marks without a completed line, with as many marks
of player 1 as of player 2, on which some empty cell lies on a line whose two other cells
hold the mark of player 1, `find_best_move` returns the position `p + 1` of an empty cell
`p` that lies on such a line: marking it completes three in a row for player 1, and the
score of that move is 10. -/
theorem C3_find_best_move_takes_win (b : Board) (hvalid : validBoard b)
    (hno1 : ¬hasLine b P1_MARK) (hno2 : ¬hasLine b P2_MARK)
    (_hturn : countMark b P1_MARK = countMark b P2_MARK)
    (hpair : ∃ q, b q = sentinel q ∧ completesLine b P1_MARK q) :
    ∃ p : Fin 9, (find_best_move b).1 = (p.val : Int) + 1 ∧ b p = sentinel p ∧
      completesLine b P1_MARK p ∧ hasLine (Function.update b p P1_MARK) P1_MARK ∧
      (minimax (Function.update b p P1_MARK) 0 false).1 = 10 := by
  have h0 := check_win_zero_of_valid b hvalid hno1 hno2
  obtain ⟨q, hq, hcq⟩ := hpair
  have hwq := check_win_complete_P1 b q h0 hcq
  have hsq : moveScore b q = 10 := by
    rw [moveScore_eq, mm_win 9 _ 0 false hwq]; norm_num
  obtain ⟨p, hp, hpe, hmax, _⟩ := find_best_move_spec b ⟨q, hq⟩
  have h1 := hmax q hq
  have h2 := (moveScore_bounds b p hpe).2
  have hsp : moveScore b p = 10 := by omega
  have hwp : check_win (Function.update b p P1_MARK) = 10 := by
    by_contra hne
    have := moveScore_lt_ten b p hne
    omega
  have hcp : completesLine b P1_MARK p :=
    (check_win_update_ne_zero b p P1_MARK h0).mp (by rw [hwp]; norm_num)
  exact ⟨p, hp, hpe, hcp, hasLine_of_completesLine b P1_MARK p hcp, hsp⟩

theorem C3_witness :
    validBoard winnableBoard ∧ ¬hasLine winnableBoard P1_MARK ∧
    ¬hasLine winnableBoard P2_MARK ∧
    countMark winnableBoard P1_MARK = countMark winnableBoard P2_MARK ∧
    (∃ q, winnableBoard q = sentinel q ∧ completesLine winnableBoard P1_MARK q) ∧
    ∃ p : Fin 9, (find_best_move winnableBoard).1 = (p.val : Int) + 1 ∧
      winnableBoard p = sentinel p ∧ completesLine winnableBoard P1_MARK p ∧
      hasLine (Function.update winnableBoard p P1_MARK) P1_MARK ∧
      (minimax (Function.update winnableBoard p P1_MARK) 0 false).1 = 10 :=
  have hv : validBoard winnableBoard := by unfold validBoard; decide
  have h1 : ¬hasLine winnableBoard P1_MARK := by unfold hasLine; decide
  have h2 : ¬hasLine winnableBoard P2_MARK := by unfold hasLine; decide
  have hc : countMark winnableBoard P1_MARK = countMark winnableBoard P2_MARK := by
    unfold countMark; decide
  have hq : ∃ q, winnableBoard q = sentinel q ∧ completesLine winnableBoard P1_MARK q :=
    ⟨2, by decide, by unfold completesLine; decide⟩
  ⟨hv, h1, h2, hc, hq, C3_find_best_move_takes_win winnableBoard hv h1 h2 hc hq⟩

/-! ## Handlers -/

theorem toChar_small (x : Int) (h1 : -128 ≤ x) (h2 : x ≤ 127) : toChar x = x := by
  unfold toChar
  omega

theorem validate_move_iff (choice : Int) (b : Board) :
    validate_move choice b = true ↔
      ∃ p : Fin 9, choice = (p.val : Int) + 1 ∧ b p = sentinel p := by
  unfold validate_move
  by_cases hr : choice < 1 ∨ choice > 9
  · rw [if_pos hr]
    constructor
    · intro h; exact absurd h Bool.false_ne_true
    · rintro ⟨p, hp, _⟩
      have := p.isLt
      omega
  · rw [if_neg hr]
    have hlt : (choice - 1).toNat < 9 := by omega
    have hc : choice = (((⟨(choice - 1).toNat, hlt⟩ : Fin 9).val : Int)) + 1 := by
      simp only
      omega
    constructor
    · intro h
      refine ⟨⟨(choice - 1).toNat, hlt⟩, hc, ?_⟩
      by_contra hne
      rw [if_pos] at h
      · exact absurd h Bool.false_ne_true
      · intro he
        apply hne
        have h2 := cellAt_cell b ⟨(choice - 1).toNat, hlt⟩
        rw [← hc] at h2
        rw [← h2, he, sentinel]
        simp only
        omega
    · rintro ⟨p, hp, hpe⟩
      rw [if_neg]
      intro hne
      apply hne
      rw [hp, cellAt_cell, hpe, sentinel]

theorem free_game_eq (g : TTT_Game) :
    free_game g =
      { gameNum := g.gameNum, timeout := TIMEOUT, p2Address := blankAddr, player := 0,
        board := initBoard } := by
  have h := init_shared_state_board
    { g with timeout := TIMEOUT, p2Address := blankAddr, player := 0 }
  unfold free_game
  rw [← h]
  rfl

theorem init_shared_state_eq (g : TTT_Game) :
    init_shared_state g =
      { gameNum := g.gameNum, timeout := g.timeout, p2Address := g.p2Address,
        player := g.player, board := initBoard } := by
  have h := init_shared_state_board g
  rw [← h]
  rfl

theorem same_address_eq_true_iff (a1 a2 : sockaddr_in) :
    same_address a1 a2 = true ↔ a1.sin_addr = a2.sin_addr ∧ a1.sin_port = a2.sin_port := by
  unfold same_address
  by_cases h1 : a1.sin_addr = a2.sin_addr
  · by_cases h2 : a1.sin_port = a2.sin_port
    · simp [h1, h2]
    · simp [h1, h2]
  · simp [h1]

theorem p1_move_loop_valid (fuel : Nat) (b : Board) (mv : Int)
    (h : validate_move mv b = true) : p1_move_loop (fuel + 1) b mv = some (mv, b) := by
  rw [p1_move_loop, if_pos h]

theorem send_p1_move_eq (fuel : Nat) (g : TTT_Game) (sendOk : Bool) (p : Fin 9)
    (hp : (find_best_move g.board).1 = (p.val : Int) + 1) (hpe : g.board p = sentinel p) :
    send_p1_move (fuel + 1) g sendOk =
      some (if sendOk then (p.val : Int) + 1 else ERROR_CODE, g,
        [Event.sendto ⟨3, 1, (p.val : Int) + 49, toChar g.gameNum⟩ g.p2Address]) := by
  have hv : validate_move ((p.val : Int) + 1) g.board = true :=
    (validate_move_iff _ _).mpr ⟨p, rfl, hpe⟩
  have hlt := p.isLt
  have h1 : toChar VERSION = 3 := by rw [VERSION, toChar_small] <;> omega
  have h2 : toChar MOVE = 1 := by rw [MOVE, toChar_small] <;> omega
  have h3 : toChar ((p.val : Int) + 1 + 48) = (p.val : Int) + 49 := by
    rw [toChar_small] <;> omega
  unfold send_p1_move
  rw [find_best_move_board, hp, p1_move_loop_valid fuel _ _ hv]
  simp only [h1, h2, h3]
  cases sendOk with
  | true =>
    simp only [if_true]
    congr 2
    omega
  | false => simp

theorem game_over_win (g : TTT_Game) (h : check_win g.board ≠ 0) :
    game_over g = (true, free_game g, [Event.wins g.player g.board]) := by
  rw [game_over, if_pos h]

theorem game_over_draw (g : TTT_Game) (h : check_win g.board = 0)
    (hd : check_draw g.board = true) :
    game_over g = (true, free_game g, [Event.draw g.board]) := by
  rw [game_over, if_neg (by simp [h]), if_pos hd]

theorem game_over_continue (g : TTT_Game) (h : check_win g.board = 0)
    (hd : check_draw g.board = false) : game_over g = (false, g, []) := by
  rw [game_over, if_neg (by simp [h]), if_neg (by simp [hd])]

/-- The handler `new_game` on a game: the player is bound, the board is reset, the move
of `find_best_move` is sent and, when the send succeeds, marked. -/
theorem new_game_eq (fuel : Nat) (A : sockaddr_in) (d : Buffer) (g : TTT_Game)
    (sendOk : Bool) :
    ∃ p : Fin 9, (find_best_move initBoard).1 = (p.val : Int) + 1 ∧
      new_game (fuel + 1) A d (some g) sendOk =
        some (some (if sendOk then
            { gameNum := g.gameNum, timeout := g.timeout, p2Address := A, player := 2,
              board := Function.update initBoard p P1_MARK }
          else free_game g),
          [Event.sendto ⟨3, 1, (p.val : Int) + 49, toChar g.gameNum⟩ A]) := by
  obtain ⟨p, hp, hpe, _, _⟩ := find_best_move_spec initBoard ⟨0, rfl⟩
  refine ⟨p, hp, ?_⟩
  have hs := send_p1_move_eq fuel
    { gameNum := g.gameNum, timeout := g.timeout, p2Address := A, player := g.player,
      board := initBoard } sendOk p hp hpe
  have hlt := p.isLt
  rw [new_game]
  simp only [init_shared_state_eq, hs]
  cases sendOk with
  | true =>
    have hne : ¬((p.val : Int) + 1 = ERROR_CODE) := by simp only [ERROR_CODE]; omega
    simp only [if_true, if_neg hne, setAt_cell]
  | false =>
    simp only [Bool.false_eq_true, if_false, if_true, free_game_eq]

/-- The handler `move` on a move that passes `validate_move`, case by case. -/
theorem move_valid (fuel : Nat) (A : sockaddr_in) (d : Buffer) (g : TTT_Game) (sendOk : Bool)
    (hsame : same_address A g.p2Address = true) (m : Fin 9)
    (hm : d.data - 48 = (m.val : Int) + 1) (hme : g.board m = sentinel m) :
    move (fuel + 1) A d g sendOk =
      if check_win (Function.update g.board m P2_MARK) ≠ 0 then
        some (free_game g, [Event.wins g.player (Function.update g.board m P2_MARK)])
      else if check_draw (Function.update g.board m P2_MARK) = true then
        some (free_game g, [Event.draw (Function.update g.board m P2_MARK)])
      else if sendOk = true then
        if check_win (setAt (Function.update g.board m P2_MARK)
            ((find_best_move (Function.update g.board m P2_MARK)).1 - 1) P1_MARK) ≠ 0 then
          some (free_game g,
            [Event.sendto ⟨3, 1, (find_best_move (Function.update g.board m P2_MARK)).1 + 48,
                toChar g.gameNum⟩ g.p2Address,
              Event.wins 1 (setAt (Function.update g.board m P2_MARK)
                ((find_best_move (Function.update g.board m P2_MARK)).1 - 1) P1_MARK)])
        else if check_draw (setAt (Function.update g.board m P2_MARK)
            ((find_best_move (Function.update g.board m P2_MARK)).1 - 1) P1_MARK) = true then
          some (free_game g,
            [Event.sendto ⟨3, 1, (find_best_move (Function.update g.board m P2_MARK)).1 + 48,
                toChar g.gameNum⟩ g.p2Address,
              Event.draw (setAt (Function.update g.board m P2_MARK)
                ((find_best_move (Function.update g.board m P2_MARK)).1 - 1) P1_MARK)])
        else
          some ({ g with
              board := setAt (Function.update g.board m P2_MARK)
                ((find_best_move (Function.update g.board m P2_MARK)).1 - 1) P1_MARK,
              player := 2 },
            [Event.sendto ⟨3, 1, (find_best_move (Function.update g.board m P2_MARK)).1 + 48,
                toChar g.gameNum⟩ g.p2Address])
      else
        some (free_game g,
          [Event.sendto ⟨3, 1, (find_best_move (Function.update g.board m P2_MARK)).1 + 48,
              toChar g.gameNum⟩ g.p2Address]) := by
  have hv : validate_move (d.data - 48) g.board = true :=
    (validate_move_iff _ _).mpr ⟨m, hm, hme⟩
  have hset : setAt g.board (d.data - 48 - 1) P2_MARK = Function.update g.board m P2_MARK := by
    rw [hm, setAt_cell]
  rw [move]
  simp only [hsame, hv, if_true, hset]
  by_cases hw : check_win (Function.update g.board m P2_MARK) ≠ 0
  · rw [if_pos (by rw [game_over_win _ hw]), if_pos hw, game_over_win _ hw]
    simp only [free_game_eq]
  · rw [if_neg hw]
    have hw0 : check_win (Function.update g.board m P2_MARK) = 0 := not_not.mp hw
    cases hd : check_draw (Function.update g.board m P2_MARK) with
    | true =>
      rw [if_pos (by rw [game_over_draw _ hw0 hd]), if_pos rfl, game_over_draw _ hw0 hd]
      simp only [free_game_eq]
    | false =>
      rw [if_neg Bool.false_ne_true, if_neg (by rw [game_over_continue _ hw0 hd]; simp),
        game_over_continue _ hw0 hd]
      obtain ⟨p, hp, hpe, _, _⟩ :=
        find_best_move_spec (Function.update g.board m P2_MARK) ((check_draw_eq_false _).mp hd)
      have hs := send_p1_move_eq fuel
        { gameNum := g.gameNum, timeout := g.timeout, p2Address := g.p2Address, player := 1,
          board := Function.update g.board m P2_MARK } sendOk p hp hpe
      have hlt := p.isLt
      have e49 : (p.val : Int) + 1 + 48 = (p.val : Int) + 49 := by omega
      simp only [hs, hp, e49, List.nil_append]
      cases sendOk with
      | true =>
        have hne : ¬((p.val : Int) + 1 = ERROR_CODE) := by simp only [ERROR_CODE]; omega
        simp only [if_true, if_neg hne]
        by_cases hw2 : check_win (setAt (Function.update g.board m P2_MARK)
            ((p.val : Int) + 1 - 1) P1_MARK) ≠ 0
        · rw [if_pos (by rw [game_over_win _ hw2]), if_pos hw2, game_over_win _ hw2]
          simp only [free_game_eq, List.singleton_append]
        · rw [if_neg hw2]
          have hw20 := not_not.mp hw2
          cases hd2 : check_draw (setAt (Function.update g.board m P2_MARK)
              ((p.val : Int) + 1 - 1) P1_MARK) with
          | true =>
            rw [if_pos (by rw [game_over_draw _ hw20 hd2]), if_pos rfl,
              game_over_draw _ hw20 hd2]
            simp only [free_game_eq, List.singleton_append]
          | false =>
            rw [if_neg Bool.false_ne_true,
              if_neg (by rw [game_over_continue _ hw20 hd2]; simp),
              game_over_continue _ hw20 hd2]
            simp only [List.append_nil]
      | false =>
        simp only [Bool.false_eq_true, if_false, if_true, free_game_eq]

/-! ## Datagram validation -/

theorem get_command_pos (r : Received) (hpos : 0 < r.rv) :
    (acceptable r.datagram → get_command r = r.rv) ∧
    (¬acceptable r.datagram → get_command r = ERROR_CODE) := by
  unfold acceptable get_command
  simp only [VERSION, NEW_GAME, MOVE, MAX_GAMES, ERROR_CODE]
  constructor
  · intro h
    rw [if_neg (by omega), if_neg (by omega), if_neg (by omega), if_neg (by omega)]
  · intro h
    rw [if_neg (by omega)]
    split_ifs <;> first | rfl | omega

/-- Claim C5. A received datagram of positive length is accepted by `get_command`, which
then returns the positive byte count, exactly when its version is 3, its command is 0
or 1 and, unless the command is 0, its game number lies in 1..10; in every other case
the result is `ERROR_CODE`, that is -1.  Changing the data byte never changes the
result, and changing the game number of a `NEW_GAME` datagram does not either. -/
theorem C5_get_command_acceptance (r : Received) (hpos : 0 < r.rv) :
    (get_command r = r.rv ↔
      (r.datagram.version = 3 ∧ (r.datagram.command = 0 ∨ r.datagram.command = 1) ∧
        (r.datagram.command = 0 ∨ (1 ≤ r.datagram.gameNum ∧ r.datagram.gameNum ≤ 10)))) ∧
    (get_command r ≠ r.rv → get_command r = -1) ∧
    (∀ x : Int, get_command { r with datagram := { r.datagram with data := x } } =
      get_command r) ∧
    (r.datagram.command = NEW_GAME →
      ∀ n : Int, get_command { r with datagram := { r.datagram with gameNum := n } } =
        get_command r) := by
  have h := get_command_pos r hpos
  have hE : ERROR_CODE = -1 := rfl
  refine ⟨⟨fun he => ?_, fun ha => h.1 ha⟩, fun hne => ?_, fun x => ?_, fun hc n => ?_⟩
  · by_contra hna
    have := h.2 hna
    omega
  · by_cases ha : acceptable r.datagram
    · exact absurd (h.1 ha) hne
    · rw [h.2 ha]; rfl
  · rfl
  · have h2 := get_command_pos { r with datagram := { r.datagram with gameNum := n } } hpos
    simp only [NEW_GAME] at hc
    by_cases ha : acceptable r.datagram
    · rw [h.1 ha]
      exact h2.1 ⟨ha.1, ha.2.1, Or.inl hc⟩
    · rw [h.2 ha]
      exact h2.2 (fun hb => ha ⟨hb.1, hb.2.1, Or.inl hc⟩)

theorem C5_witness :
    (0 : Int) < (⟨4, false, blankAddr, ⟨3, 1, 53, 2⟩⟩ : Received).rv ∧
    ((get_command ⟨4, false, blankAddr, ⟨3, 1, 53, 2⟩⟩ = 4 ↔
      ((3 : Int) = 3 ∧ ((1 : Int) = 0 ∨ (1 : Int) = 1) ∧
        ((1 : Int) = 0 ∨ ((1 : Int) ≤ 2 ∧ (2 : Int) ≤ 10)))) ∧
    (get_command ⟨4, false, blankAddr, ⟨3, 1, 53, 2⟩⟩ ≠ 4 →
      get_command ⟨4, false, blankAddr, ⟨3, 1, 53, 2⟩⟩ = -1) ∧
    (∀ x : Int, get_command ⟨4, false, blankAddr, ⟨3, 1, x, 2⟩⟩ =
      get_command ⟨4, false, blankAddr, ⟨3, 1, 53, 2⟩⟩) ∧
    ((1 : Int) = NEW_GAME →
      ∀ n : Int, get_command ⟨4, false, blankAddr, ⟨3, 1, 53, n⟩⟩ =
        get_command ⟨4, false, blankAddr, ⟨3, 1, 53, 2⟩⟩)) :=
  ⟨by decide, C5_get_command_acceptance ⟨4, false, blankAddr, ⟨3, 1, 53, 2⟩⟩ (by decide)⟩

/-! ## The roster -/

theorem slots_sorted : slots.Pairwise (· < ·) := by
  unfold slots
  decide

theorem mem_slots (i : Fin 10) : i ∈ slots := by
  revert i
  decide

theorem find?_sorted (p : Fin 10 → Bool) (l : List (Fin 10)) (hl : l.Pairwise (· < ·)) :
    (∃ i ∈ l, l.find? p = some i ∧ p i = true ∧ ∀ j ∈ l, j < i → p j = false) ∨
    (l.find? p = none ∧ ∀ j ∈ l, p j = false) := by
  induction l with
  | nil => exact Or.inr ⟨rfl, by simp⟩
  | cons a l ih =>
    rw [List.pairwise_cons] at hl
    cases hpa : p a with
    | true =>
      left
      refine ⟨a, by simp, by simp [List.find?, hpa], hpa, ?_⟩
      intro j hj hja
      rcases List.mem_cons.mp hj with h | h
      · rw [h] at hja; exact absurd hja (lt_irrefl _)
      · exact absurd (hl.1 j h) (not_lt.mpr (le_of_lt hja))
    | false =>
      rcases ih hl.2 with ⟨i, hi, hf, hpi, hlow⟩ | ⟨hf, hall⟩
      · left
        refine ⟨i, by simp [hi], by simp [List.find?, hpa, hf], hpi, ?_⟩
        intro j hj hji
        rcases List.mem_cons.mp hj with h | h
        · rw [h]; exact hpa
        · exact hlow j h hji
      · right
        refine ⟨by simp [List.find?, hpa, hf], ?_⟩
        intro j hj
        rcases List.mem_cons.mp hj with h | h
        · rw [h]; exact hpa
        · exact hall j h

/-- The result of `find_open_game`: the lowest index of a game with `player == 0`, or
`ERROR_CODE` when there is none. -/
theorem find_open_game_spec (roster : Roster) :
    (∃ i : Fin 10, find_open_game roster = (i.val : Int) ∧ (roster i).player = 0 ∧
      ∀ j, j < i → (roster j).player ≠ 0) ∨
    (find_open_game roster = ERROR_CODE ∧ ∀ i, (roster i).player ≠ 0) := by
  unfold find_open_game
  rcases find?_sorted (fun i => decide ((roster i).player = 0)) slots slots_sorted with
    ⟨i, _, hf, hpi, hlow⟩ | ⟨hf, hall⟩
  · left
    refine ⟨i, by rw [hf], by simpa using hpi, ?_⟩
    intro j hj
    simpa using hlow j (mem_slots j) hj
  · right
    refine ⟨by rw [hf], ?_⟩
    intro i
    simpa using hall i (mem_slots i)

/-! ## The handler `move`: rejected and forfeited moves -/

theorem move_mismatch (fuel : Nat) (A : sockaddr_in) (d : Buffer) (g : TTT_Game)
    (sendOk : Bool) (h : same_address A g.p2Address = false) :
    move fuel A d g sendOk = some (g, []) := by
  rw [move]
  simp only [h, Bool.false_eq_true, if_false]

theorem move_invalid (fuel : Nat) (A : sockaddr_in) (d : Buffer) (g : TTT_Game)
    (sendOk : Bool) (h : same_address A g.p2Address = true)
    (hv : validate_move (d.data - 48) g.board = false) :
    move fuel A d g sendOk = some (free_game g, []) := by
  rw [move]
  simp only [h, hv, Bool.false_eq_true, if_false, if_true]

theorem move_over_after_p2 (fuel : Nat) (A : sockaddr_in) (d : Buffer) (g : TTT_Game)
    (sendOk : Bool) (hsame : same_address A g.p2Address = true) (m : Fin 9)
    (hm : d.data - 48 = (m.val : Int) + 1) (hme : g.board m = sentinel m)
    (hover : check_win (Function.update g.board m P2_MARK) ≠ 0 ∨
      check_draw (Function.update g.board m P2_MARK) = true) :
    move fuel A d g sendOk =
      some (free_game g,
        if check_win (Function.update g.board m P2_MARK) ≠ 0 then
          [Event.wins g.player (Function.update g.board m P2_MARK)]
        else [Event.draw (Function.update g.board m P2_MARK)]) := by
  have hv : validate_move (d.data - 48) g.board = true :=
    (validate_move_iff _ _).mpr ⟨m, hm, hme⟩
  have hset : setAt g.board (d.data - 48 - 1) P2_MARK = Function.update g.board m P2_MARK := by
    rw [hm, setAt_cell]
  rw [move]
  simp only [hsame, hv, if_true, hset]
  by_cases hw : check_win (Function.update g.board m P2_MARK) ≠ 0
  · rw [if_pos (by rw [game_over_win _ hw]), if_pos hw, game_over_win _ hw]
    simp only [free_game_eq]
  · have hw0 : check_win (Function.update g.board m P2_MARK) = 0 := not_not.mp hw
    have hd : check_draw (Function.update g.board m P2_MARK) = true := by
      rcases hover with h | h
      · exact absurd h hw
      · exact h
    rw [if_pos (by rw [game_over_draw _ hw0 hd]), if_neg hw, game_over_draw _ hw0 hd]
    simp only [free_game_eq]

/-- Claim C6. When the sender differs from the address stored in the session in its IP
address or in its port, the handler `move` returns the session exactly as it was (every
field, all nine cells of the board included) and its list of events is empty, so nothing
is handed to `sendto`; this holds for every session, Free or in play, every data byte
and either outcome of a send. -/
theorem C6_move_from_other_address (fuel : Nat) (A : sockaddr_in) (d : Buffer)
    (g : TTT_Game) (sendOk : Bool)
    (hdiff : A.sin_addr ≠ g.p2Address.sin_addr ∨ A.sin_port ≠ g.p2Address.sin_port) :
    move fuel A d g sendOk = some (g, []) := by
  refine move_mismatch fuel A d g sendOk ?_
  rw [← Bool.not_eq_true, same_address_eq_true_iff]
  rcases hdiff with h | h
  · exact fun hc => h hc.1
  · exact fun hc => h hc.2

theorem C6_witness :
    ((⟨2, 5000, 7⟩ : sockaddr_in).sin_addr ≠
        (⟨1, 30, ⟨2, 4000, 7⟩, 2, winnableBoard⟩ : TTT_Game).p2Address.sin_addr ∨
      (⟨2, 5000, 7⟩ : sockaddr_in).sin_port ≠
        (⟨1, 30, ⟨2, 4000, 7⟩, 2, winnableBoard⟩ : TTT_Game).p2Address.sin_port) ∧
    move 1 ⟨2, 5000, 7⟩ ⟨3, 1, 51, 1⟩ ⟨1, 30, ⟨2, 4000, 7⟩, 2, winnableBoard⟩ true =
      some (⟨1, 30, ⟨2, 4000, 7⟩, 2, winnableBoard⟩, []) :=
  ⟨Or.inr (by decide),
    C6_move_from_other_address 1 ⟨2, 5000, 7⟩ ⟨3, 1, 51, 1⟩
      ⟨1, 30, ⟨2, 4000, 7⟩, 2, winnableBoard⟩ true (Or.inr (by decide))⟩

/-- Claim C7. A move from the bound peer whose position, the data byte minus 48, is
outside 1..9 or names a cell that no longer holds its digit is answered by no datagram
and resets the session: `player` is 0, the address is blank, the timeout is `TIMEOUT`,
the board is the initial one and `gameNum` is unchanged.  With that session in slot `k`
of a roster, `find_open_game` does not return `ERROR_CODE`, its result is an index of a
free slot not above `k`, and it is `k` unless a slot before `k` is free as well. -/
theorem C7_invalid_move_forfeits (fuel : Nat) (A : sockaddr_in) (d : Buffer) (g : TTT_Game)
    (sendOk : Bool) (roster : Roster) (k : Fin 10)
    (hip : A.sin_addr = g.p2Address.sin_addr) (hport : A.sin_port = g.p2Address.sin_port)
    (hbad : d.data - 48 < 1 ∨ d.data - 48 > 9 ∨
      ∃ p : Fin 9, d.data - 48 = (p.val : Int) + 1 ∧ g.board p ≠ sentinel p) :
    ∃ g1 : TTT_Game, move fuel A d g sendOk = some (g1, []) ∧
      g1.player = 0 ∧ g1.p2Address = blankAddr ∧ g1.timeout = TIMEOUT ∧
      g1.board = initBoard ∧ g1.gameNum = g.gameNum ∧
      find_open_game (Function.update roster k g1) ≠ ERROR_CODE ∧
      (∃ i : Fin 10, i ≤ k ∧ find_open_game (Function.update roster k g1) = (i.val : Int) ∧
        (Function.update roster k g1 i).player = 0) ∧
      ((∀ j, j < k → (roster j).player ≠ 0) →
        find_open_game (Function.update roster k g1) = (k.val : Int)) := by
  have hsame : same_address A g.p2Address = true :=
    (same_address_eq_true_iff _ _).mpr ⟨hip, hport⟩
  have hv : validate_move (d.data - 48) g.board = false := by
    rw [← Bool.not_eq_true, validate_move_iff]
    rintro ⟨p, hp, hpe⟩
    have := p.isLt
    rcases hbad with h | h | ⟨q, hq, hqe⟩
    · omega
    · omega
    · have : q = p := Fin.ext (by omega)
      rw [this] at hqe
      exact hqe hpe
  refine ⟨free_game g, move_invalid fuel A d g sendOk hsame hv, ?_⟩
  rw [free_game_eq]
  refine ⟨rfl, rfl, rfl, rfl, rfl, ?_⟩
  have hk : (Function.update roster k
      { gameNum := g.gameNum, timeout := TIMEOUT, p2Address := blankAddr, player := 0,
        board := initBoard } k).player = 0 := by
    rw [Function.update_same]
  rcases find_open_game_spec (Function.update roster k
      { gameNum := g.gameNum, timeout := TIMEOUT, p2Address := blankAddr, player := 0,
        board := initBoard }) with ⟨i, hi, hfree, hlow⟩ | ⟨_, hnone⟩
  · have hik : i ≤ k := by
      by_contra hc
      exact hlow k (not_le.mp hc) hk
    have hlt := i.isLt
    refine ⟨by rw [hi]; simp only [ERROR_CODE]; omega, ⟨i, hik, hi, hfree⟩, ?_⟩
    intro hbefore
    rcases lt_or_eq_of_le hik with h | h
    · have := hbefore i h
      rw [Function.update_noteq (ne_of_lt h)] at hfree
      exact absurd hfree this
    · rw [hi, h]
  · exact absurd hk (hnone k)

theorem C7_witness :
    (samplePeer.sin_addr = (⟨3, 12, samplePeer, 2, winnableBoard⟩ : TTT_Game).p2Address.sin_addr ∧
      samplePeer.sin_port = (⟨3, 12, samplePeer, 2, winnableBoard⟩ : TTT_Game).p2Address.sin_port ∧
      ((⟨3, 1, 49, 3⟩ : Buffer).data - 48 < 1 ∨ (⟨3, 1, 49, 3⟩ : Buffer).data - 48 > 9 ∨
        ∃ p : Fin 9, (⟨3, 1, 49, 3⟩ : Buffer).data - 48 = (p.val : Int) + 1 ∧
          (⟨3, 12, samplePeer, 2, winnableBoard⟩ : TTT_Game).board p ≠ sentinel p)) ∧
    ∃ g1 : TTT_Game,
      move 1 samplePeer ⟨3, 1, 49, 3⟩ ⟨3, 12, samplePeer, 2, winnableBoard⟩ true =
        some (g1, []) ∧
      g1.player = 0 ∧ g1.p2Address = blankAddr ∧ g1.timeout = TIMEOUT ∧
      g1.board = initBoard ∧
      g1.gameNum = (⟨3, 12, samplePeer, 2, winnableBoard⟩ : TTT_Game).gameNum ∧
      find_open_game (Function.update busyRoster 2 g1) ≠ ERROR_CODE ∧
      (∃ i : Fin 10, i ≤ 2 ∧ find_open_game (Function.update busyRoster 2 g1) = (i.val : Int) ∧
        (Function.update busyRoster 2 g1 i).player = 0) ∧
      ((∀ j, j < (2 : Fin 10) → (busyRoster j).player ≠ 0) →
        find_open_game (Function.update busyRoster 2 g1) = (((2 : Fin 10)).val : Int)) :=
  ⟨⟨rfl, rfl, Or.inr (Or.inr ⟨0, by decide, by decide⟩)⟩,
    C7_invalid_move_forfeits 1 samplePeer ⟨3, 1, 49, 3⟩ ⟨3, 12, samplePeer, 2, winnableBoard⟩
      true busyRoster 2 rfl rfl (Or.inr (Or.inr ⟨0, by decide, by decide⟩))⟩

/-! ## The handler `move`: a move that is played -/

/-- Claim C9. For a session in play (a roster session, so with `gameNum` in 1..10) and a
move from the bound peer that names an empty cell `m`: when the board with the mark of
player 2 at `m` is neither won nor full and, with `r` the result of `find_best_move` on
that board, the board with the mark of player 1 also at position `r` is neither won nor
full, and the send succeeds, then `move` returns the session with `player` 2, the same
address, `gameNum` and timeout, and the old board with exactly those two marks added;
`r` is a position 1..9 whose cell was still empty; and the only event is one call of
`sendto`, to the bound peer, of the datagram with version 3, command `MOVE`, data the
digit of `r` and the `gameNum` of the session. -/
theorem C9_move_exchange (fuel : Nat) (A : sockaddr_in) (d : Buffer) (g : TTT_Game)
    (m : Fin 9) (_hplay : g.player ≠ 0) (hnum : 1 ≤ g.gameNum ∧ g.gameNum ≤ MAX_GAMES)
    (hip : A.sin_addr = g.p2Address.sin_addr) (hport : A.sin_port = g.p2Address.sin_port)
    (hm : d.data - 48 = (m.val : Int) + 1) (hme : g.board m = sentinel m)
    (h1w : check_win (Function.update g.board m P2_MARK) = 0)
    (h1d : check_draw (Function.update g.board m P2_MARK) = false)
    (h2w : check_win (setAt (Function.update g.board m P2_MARK)
      ((find_best_move (Function.update g.board m P2_MARK)).1 - 1) P1_MARK) = 0)
    (h2d : check_draw (setAt (Function.update g.board m P2_MARK)
      ((find_best_move (Function.update g.board m P2_MARK)).1 - 1) P1_MARK) = false) :
    move (fuel + 1) A d g true =
      some ({ gameNum := g.gameNum, timeout := g.timeout, p2Address := g.p2Address,
              player := 2,
              board := setAt (Function.update g.board m P2_MARK)
                ((find_best_move (Function.update g.board m P2_MARK)).1 - 1) P1_MARK },
        [Event.sendto
          ⟨VERSION, MOVE, (find_best_move (Function.update g.board m P2_MARK)).1 + 48,
            g.gameNum⟩ g.p2Address]) ∧
    validate_move (find_best_move (Function.update g.board m P2_MARK)).1
      (Function.update g.board m P2_MARK) = true := by
  have hsame : same_address A g.p2Address = true :=
    (same_address_eq_true_iff _ _).mpr ⟨hip, hport⟩
  have hg : toChar g.gameNum = g.gameNum := by
    simp only [MAX_GAMES] at hnum
    exact toChar_small _ (by omega) (by omega)
  constructor
  · rw [move_valid fuel A d g true hsame m hm hme, if_neg (by simp [h1w]),
      if_neg (by simp [h1d]), if_pos rfl, if_neg (by simp [h2w]), if_neg (by simp [h2d]), hg]
    rfl
  · obtain ⟨p, hp, hpe, _, _⟩ :=
      find_best_move_spec (Function.update g.board m P2_MARK) ((check_draw_eq_false _).mp h1d)
    exact (validate_move_iff _ _).mpr ⟨p, hp, hpe⟩

set_option maxRecDepth 100000 in
theorem C9_witness :
    (exchangeGame.player ≠ 0 ∧ (1 ≤ exchangeGame.gameNum ∧ exchangeGame.gameNum ≤ MAX_GAMES) ∧
      samplePeer.sin_addr = exchangeGame.p2Address.sin_addr ∧
      samplePeer.sin_port = exchangeGame.p2Address.sin_port ∧
      (⟨3, 1, 52, 1⟩ : Buffer).data - 48 = (((3 : Fin 9)).val : Int) + 1 ∧
      exchangeGame.board 3 = sentinel 3 ∧
      check_win (Function.update exchangeGame.board 3 P2_MARK) = 0 ∧
      check_draw (Function.update exchangeGame.board 3 P2_MARK) = false ∧
      check_win (setAt (Function.update exchangeGame.board 3 P2_MARK)
        ((find_best_move (Function.update exchangeGame.board 3 P2_MARK)).1 - 1) P1_MARK) = 0 ∧
      check_draw (setAt (Function.update exchangeGame.board 3 P2_MARK)
        ((find_best_move (Function.update exchangeGame.board 3 P2_MARK)).1 - 1) P1_MARK) =
          false) ∧
    (move 1 samplePeer ⟨3, 1, 52, 1⟩ exchangeGame true =
      some ({ gameNum := exchangeGame.gameNum, timeout := exchangeGame.timeout,
              p2Address := exchangeGame.p2Address, player := 2,
              board := setAt (Function.update exchangeGame.board 3 P2_MARK)
                ((find_best_move (Function.update exchangeGame.board 3 P2_MARK)).1 - 1)
                P1_MARK },
        [Event.sendto
          ⟨VERSION, MOVE, (find_best_move (Function.update exchangeGame.board 3 P2_MARK)).1 + 48,
            exchangeGame.gameNum⟩ exchangeGame.p2Address]) ∧
    validate_move (find_best_move (Function.update exchangeGame.board 3 P2_MARK)).1
      (Function.update exchangeGame.board 3 P2_MARK) = true) :=
  have h1 : exchangeGame.player ≠ 0 := by decide
  have h2 : 1 ≤ exchangeGame.gameNum ∧ exchangeGame.gameNum ≤ MAX_GAMES := by decide
  have h3 : (⟨3, 1, 52, 1⟩ : Buffer).data - 48 = (((3 : Fin 9)).val : Int) + 1 := by decide
  have h4 : exchangeGame.board 3 = sentinel 3 := by decide
  have h5 : check_win (Function.update exchangeGame.board 3 P2_MARK) = 0 := by decide
  have h6 : check_draw (Function.update exchangeGame.board 3 P2_MARK) = false := by decide
  have h7 : check_win (setAt (Function.update exchangeGame.board 3 P2_MARK)
      ((find_best_move (Function.update exchangeGame.board 3 P2_MARK)).1 - 1) P1_MARK) = 0 := by
    decide!
  have h8 : check_draw (setAt (Function.update exchangeGame.board 3 P2_MARK)
      ((find_best_move (Function.update exchangeGame.board 3 P2_MARK)).1 - 1) P1_MARK) =
        false := by
    decide!
  ⟨⟨h1, h2, rfl, rfl, h3, h4, h5, h6, h7, h8⟩,
    C9_move_exchange 0 samplePeer ⟨3, 1, 52, 1⟩ exchangeGame 3 h1 h2 rfl rfl h3 h4 h5 h6 h7 h8⟩

/-! ## The handler `move`: a move that ends the game -/

/-- Claim C10. A move from the bound peer that names an empty cell `m` and makes the board
terminal ends the game.  When the board is won or full right after the mark of player 2,
`move` hands nothing to `sendto` and returns the session reset to Free.  When it is
not, and the board is won or full after the mark of player 1 at the position `r` found
by `find_best_move`, with the send succeeding, the reply (version 3, command `MOVE`,
the digit of `r`, the game number) is handed to `sendto` for the bound peer and the
session is returned reset to Free.  In both cases the session has `player` 0, the blank
address, the timeout `TIMEOUT`, the initial board and its old `gameNum`. -/
theorem C10_terminal_move_resets (fuel : Nat) (A : sockaddr_in) (d : Buffer) (g : TTT_Game)
    (sendOk : Bool) (m : Fin 9)
    (hip : A.sin_addr = g.p2Address.sin_addr) (hport : A.sin_port = g.p2Address.sin_port)
    (hm : d.data - 48 = (m.val : Int) + 1) (hme : g.board m = sentinel m) :
    ((check_win (Function.update g.board m P2_MARK) ≠ 0 ∨
        check_draw (Function.update g.board m P2_MARK) = true) →
      ∃ ev, move fuel A d g sendOk =
          some ({ gameNum := g.gameNum, timeout := TIMEOUT, p2Address := blankAddr,
                  player := 0, board := initBoard }, ev) ∧
        sends ev = []) ∧
    (check_win (Function.update g.board m P2_MARK) = 0 →
      check_draw (Function.update g.board m P2_MARK) = false →
      (check_win (setAt (Function.update g.board m P2_MARK)
          ((find_best_move (Function.update g.board m P2_MARK)).1 - 1) P1_MARK) ≠ 0 ∨
        check_draw (setAt (Function.update g.board m P2_MARK)
          ((find_best_move (Function.update g.board m P2_MARK)).1 - 1) P1_MARK) = true) →
      ∃ ev, move (fuel + 1) A d g true =
          some ({ gameNum := g.gameNum, timeout := TIMEOUT, p2Address := blankAddr,
                  player := 0, board := initBoard }, ev) ∧
        sends ev =
          [(⟨VERSION, MOVE, (find_best_move (Function.update g.board m P2_MARK)).1 + 48,
              toChar g.gameNum⟩, g.p2Address)]) := by
  have hsame : same_address A g.p2Address = true :=
    (same_address_eq_true_iff _ _).mpr ⟨hip, hport⟩
  constructor
  · intro hover
    rw [move_over_after_p2 fuel A d g sendOk hsame m hm hme hover, free_game_eq]
    refine ⟨_, rfl, ?_⟩
    split_ifs <;> rfl
  · intro h1w h1d hover
    rw [move_valid fuel A d g true hsame m hm hme, if_neg (by simp [h1w]),
      if_neg (by simp [h1d]), if_pos rfl, free_game_eq]
    by_cases hw : check_win (setAt (Function.update g.board m P2_MARK)
        ((find_best_move (Function.update g.board m P2_MARK)).1 - 1) P1_MARK) ≠ 0
    · rw [if_pos hw]
      exact ⟨_, rfl, rfl⟩
    · have hd : check_draw (setAt (Function.update g.board m P2_MARK)
          ((find_best_move (Function.update g.board m P2_MARK)).1 - 1) P1_MARK) = true := by
        rcases hover with h | h
        · exact absurd h hw
        · exact h
      rw [if_neg hw, if_pos hd]
      exact ⟨_, rfl, rfl⟩

set_option maxRecDepth 100000 in
theorem C10_witness :
    (samplePeer.sin_addr = losingGame.p2Address.sin_addr ∧
      samplePeer.sin_port = losingGame.p2Address.sin_port ∧
      (⟨3, 1, 54, 1⟩ : Buffer).data - 48 = (((5 : Fin 9)).val : Int) + 1 ∧
      losingGame.board 5 = sentinel 5 ∧
      (check_win (Function.update losingGame.board 5 P2_MARK) ≠ 0 ∨
        check_draw (Function.update losingGame.board 5 P2_MARK) = true)) ∧
    (∃ ev, move 1 samplePeer ⟨3, 1, 54, 1⟩ losingGame true =
        some ({ gameNum := losingGame.gameNum, timeout := TIMEOUT, p2Address := blankAddr,
                player := 0, board := initBoard }, ev) ∧
      sends ev = []) ∧
    (samplePeer.sin_addr = earlyGame.p2Address.sin_addr ∧
      samplePeer.sin_port = earlyGame.p2Address.sin_port ∧
      (⟨3, 1, 53, 1⟩ : Buffer).data - 48 = (((4 : Fin 9)).val : Int) + 1 ∧
      earlyGame.board 4 = sentinel 4 ∧
      check_win (Function.update earlyGame.board 4 P2_MARK) = 0 ∧
      check_draw (Function.update earlyGame.board 4 P2_MARK) = false ∧
      (check_win (setAt (Function.update earlyGame.board 4 P2_MARK)
          ((find_best_move (Function.update earlyGame.board 4 P2_MARK)).1 - 1) P1_MARK) ≠ 0 ∨
        check_draw (setAt (Function.update earlyGame.board 4 P2_MARK)
          ((find_best_move (Function.update earlyGame.board 4 P2_MARK)).1 - 1) P1_MARK) =
            true)) ∧
    (∃ ev, move 1 samplePeer ⟨3, 1, 53, 1⟩ earlyGame true =
        some ({ gameNum := earlyGame.gameNum, timeout := TIMEOUT, p2Address := blankAddr,
                player := 0, board := initBoard }, ev) ∧
      sends ev =
        [(⟨VERSION, MOVE, (find_best_move (Function.update earlyGame.board 4 P2_MARK)).1 + 48,
            toChar earlyGame.gameNum⟩, earlyGame.p2Address)]) :=
  have a3 : (⟨3, 1, 54, 1⟩ : Buffer).data - 48 = (((5 : Fin 9)).val : Int) + 1 := by decide
  have a4 : losingGame.board 5 = sentinel 5 := by decide
  have a5 : check_win (Function.update losingGame.board 5 P2_MARK) ≠ 0 ∨
      check_draw (Function.update losingGame.board 5 P2_MARK) = true := Or.inl (by decide)
  have b3 : (⟨3, 1, 53, 1⟩ : Buffer).data - 48 = (((4 : Fin 9)).val : Int) + 1 := by decide
  have b4 : earlyGame.board 4 = sentinel 4 := by decide
  have b5 : check_win (Function.update earlyGame.board 4 P2_MARK) = 0 := by decide
  have b6 : check_draw (Function.update earlyGame.board 4 P2_MARK) = false := by decide
  have b7 : check_win (setAt (Function.update earlyGame.board 4 P2_MARK)
        ((find_best_move (Function.update earlyGame.board 4 P2_MARK)).1 - 1) P1_MARK) ≠ 0 ∨
      check_draw (setAt (Function.update earlyGame.board 4 P2_MARK)
        ((find_best_move (Function.update earlyGame.board 4 P2_MARK)).1 - 1) P1_MARK) =
          true :=
    Or.inl (by decide!)
  ⟨⟨rfl, rfl, a3, a4, a5⟩,
    (C10_terminal_move_resets 1 samplePeer ⟨3, 1, 54, 1⟩ losingGame true 5 rfl rfl a3 a4).1 a5,
    ⟨rfl, rfl, b3, b4, b5, b6, b7⟩,
    (C10_terminal_move_resets 0 samplePeer ⟨3, 1, 53, 1⟩ earlyGame true 4 rfl rfl b3 b4).2
      b5 b6 b7⟩

/-! ## Loops over the roster -/

theorem foldl_update_apply (f : Fin 10 → TTT_Game → TTT_Game) (l : List (Fin 10))
    (hl : l.Nodup) (r : Roster) (j : Fin 10) :
    (l.foldl (fun r i => Function.update r i (f i (r i))) r) j =
      if j ∈ l then f j (r j) else r j := by
  induction l generalizing r with
  | nil => simp
  | cons a l ih =>
    rw [List.nodup_cons] at hl
    rw [List.foldl_cons, ih hl.2]
    by_cases hj : j ∈ l
    · have hne : j ≠ a := fun h => hl.1 (h ▸ hj)
      rw [if_pos hj, if_pos (List.mem_cons_of_mem _ hj), Function.update_noteq hne]
    · rw [if_neg hj]
      by_cases hja : j = a
      · rw [hja, Function.update_same, if_pos (List.mem_cons_self _ _)]
      · rw [Function.update_noteq hja, if_neg (by simp [hja, hj])]

theorem slots_nodup : slots.Nodup := by
  unfold slots
  decide

theorem check_timeout_apply (roster : Roster) (j : Fin 10) :
    check_timeout roster j =
      if (roster j).timeout ≤ 0 then free_game (roster j) else roster j := by
  have hstep : (fun (r : Roster) (i : Fin 10) =>
      if (r i).timeout ≤ 0 then Function.update r i (free_game (r i)) else r) =
      (fun r i => Function.update r i
        (if (r i).timeout ≤ 0 then free_game (r i) else r i)) := by
    funext r i
    by_cases h : (r i).timeout ≤ 0
    · rw [if_pos h, if_pos h]
    · rw [if_neg h, if_neg h, Function.update_eq_self]
  rw [check_timeout, hstep]
  exact (foldl_update_apply (fun _ g => if g.timeout ≤ 0 then free_game g else g) slots
    slots_nodup roster j).trans (if_pos (mem_slots j))

theorem update_timeouts_apply (roster : Roster) (k elapsed : Int) (j : Fin 10) :
    update_timeouts roster k elapsed j =
      if (j.val : Int) = k then
        { gameNum := (roster j).gameNum, timeout := TIMEOUT, p2Address := (roster j).p2Address,
          player := (roster j).player, board := (roster j).board }
      else if (roster j).player ≠ 0 then
        { gameNum := (roster j).gameNum, timeout := (roster j).timeout - elapsed,
          p2Address := (roster j).p2Address, player := (roster j).player,
          board := (roster j).board }
      else roster j := by
  have hstep : (fun (r : Roster) (i : Fin 10) =>
      let r1 := if (r i).player ≠ 0
        then Function.update r i { r i with timeout := (r i).timeout - elapsed } else r
      if (i.val : Int) = k then Function.update r1 i { r1 i with timeout := TIMEOUT }
      else r1) =
      (fun r i => Function.update r i
        (if (i.val : Int) = k then { r i with timeout := TIMEOUT }
          else if (r i).player ≠ 0 then { r i with timeout := (r i).timeout - elapsed }
          else r i)) := by
    funext r i
    dsimp only
    by_cases hp : (r i).player ≠ 0
    · by_cases hk : (i.val : Int) = k
      · rw [if_pos hp, if_pos hk, if_pos hk, Function.update_same, Function.update_idem]
      · rw [if_pos hp, if_neg hk, if_neg hk, if_pos hp]
    · by_cases hk : (i.val : Int) = k
      · rw [if_neg hp, if_pos hk, if_pos hk]
      · rw [if_neg hp, if_neg hk, if_neg hk, if_neg hp, Function.update_eq_self]
  rw [update_timeouts, hstep]
  exact (foldl_update_apply (fun (i : Fin 10) (g : TTT_Game) =>
      if (i.val : Int) = k then { g with timeout := TIMEOUT }
      else if g.player ≠ 0 then { g with timeout := g.timeout - elapsed } else g) slots
    slots_nodup roster j).trans (if_pos (mem_slots j))

/-! ## One iteration of the server loop: a new game -/

theorem find_open_game_first (roster : Roster) (h : (roster 0).player = 0) :
    find_open_game roster = 0 := by
  rcases find_open_game_spec roster with ⟨i, hi, _, hlow⟩ | ⟨_, hnone⟩
  · by_cases h0 : i = 0
    · rw [hi, h0]; rfl
    · exact absurd h (hlow 0 (Fin.pos_iff_ne_zero.mpr h0))
  · exact absurd h (hnone 0)

theorem dispatch_new_game (fuel : Nat) (roster : Roster) (r : Received) (sendOk : Bool)
    (i : Fin 10) (hcmd : r.datagram.command = NEW_GAME)
    (hopen : find_open_game roster = (i.val : Int)) :
    ∃ p : Fin 9, (find_best_move initBoard).1 = (p.val : Int) + 1 ∧
      dispatch (fuel + 1) roster r sendOk =
        some (Function.update roster i
            (if sendOk then
              { gameNum := (roster i).gameNum, timeout := (roster i).timeout,
                p2Address := r.playerAddr, player := 2,
                board := Function.update initBoard p P1_MARK }
            else free_game (roster i)),
          [Event.sendto ⟨3, 1, (p.val : Int) + 49, toChar (roster i).gameNum⟩
            r.playerAddr]) := by
  obtain ⟨p, hp, hng⟩ := new_game_eq fuel r.playerAddr r.datagram (roster i) sendOk
  refine ⟨p, hp, ?_⟩
  have hk : gameIndx roster r.datagram = (i.val : Int) := by
    rw [gameIndx, if_pos hcmd, hopen]
  have hc0 : r.datagram.command = 0 := hcmd
  have hlt := i.isLt
  have hr : 0 ≤ gameIndx roster r.datagram ∧ gameIndx roster r.datagram < 10 := by
    rw [hk]; omega
  have hi : ∀ h : (gameIndx roster r.datagram).toNat < 10,
      (⟨(gameIndx roster r.datagram).toNat, h⟩ : Fin 10) = i := by
    intro h
    apply Fin.ext
    simp only [hk]
    simp
  rw [dispatch, if_pos hc0, dif_pos hr]
  simp only [hi]
  rw [hng]

/-- Claim C8. When every slot is Free (default content, `gameNum` its index plus one) and
an accepted `NEW_GAME` datagram arrives from peer `A`, with the send succeeding, one
iteration of the server loop returns a roster whose slot 1 (index 0) is in play with
`player` 2, address `A` and timeout `TIMEOUT`; its only event is one call of `sendto`,
to `A`, of the datagram with version 3, command `MOVE`, game number 1 and data the
digit of a position `p + 1` in 1..9; the board of slot 1 holds the mark of player 1 in
cell `p` and the digit in every other cell; every other slot is unchanged. -/
theorem C8_new_game_on_idle_roster (fuel : Nat) (roster : Roster) (r : Received)
    (elapsed : Int)
    (hfree : ∀ i : Fin 10, isFree (roster i) ∧ (roster i).gameNum = (i.val : Int) + 1)
    (hacc : 0 < get_command r) (hcmd : r.datagram.command = NEW_GAME) :
    ∃ (p : Fin 9) (roster1 : Roster),
      tictactoe_step (fuel + 1) roster r elapsed true =
        some (roster1,
          [Event.sendto ⟨VERSION, MOVE, 48 + ((p.val : Int) + 1), 1⟩ r.playerAddr]) ∧
      (roster1 0).player = 2 ∧ (roster1 0).p2Address = r.playerAddr ∧
      (roster1 0).timeout = TIMEOUT ∧ (roster1 0).gameNum = 1 ∧
      (roster1 0).board p = P1_MARK ∧
      (∀ q, q ≠ p → (roster1 0).board q = sentinel q) ∧
      (∀ i, i ≠ 0 → roster1 i = roster i) := by
  have h0 := hfree 0
  have hopen0 := find_open_game_first roster h0.1.1
  have hopen : find_open_game roster = (((0 : Fin 10)).val : Int) := by
    rw [hopen0]; rfl
  obtain ⟨p, _, hdisp⟩ := dispatch_new_game fuel roster r true 0 hcmd hopen
  have hk : gameIndx roster r.datagram = 0 := by
    rw [gameIndx, if_pos hcmd, hopen0]
  have hg : toChar (roster 0).gameNum = 1 := by
    rw [h0.2]; rfl
  have hT : ¬(TIMEOUT ≤ 0) := by simp only [TIMEOUT]; omega
  refine ⟨p, check_timeout (update_timeouts (Function.update roster 0
      { gameNum := (roster 0).gameNum, timeout := (roster 0).timeout,
        p2Address := r.playerAddr, player := 2,
        board := Function.update initBoard p P1_MARK }) 0 elapsed), ?_, ?_⟩
  · rw [tictactoe_step, if_pos hacc, hdisp, hk, hg]
    simp only [if_true, VERSION, MOVE]
    have e : (p.val : Int) + 49 = 48 + ((p.val : Int) + 1) := by omega
    rw [e]
  · have hslot : check_timeout (update_timeouts (Function.update roster 0
        { gameNum := (roster 0).gameNum, timeout := (roster 0).timeout,
          p2Address := r.playerAddr, player := 2,
          board := Function.update initBoard p P1_MARK }) 0 elapsed) 0 =
        { gameNum := (roster 0).gameNum, timeout := TIMEOUT,
          p2Address := r.playerAddr, player := 2,
          board := Function.update initBoard p P1_MARK } := by
      have hz : (((0 : Fin 10)).val : Int) = 0 := rfl
      rw [check_timeout_apply, update_timeouts_apply, if_pos hz, Function.update_same,
        if_neg hT]
    rw [hslot]
    refine ⟨rfl, rfl, rfl, ?_, ?_, ?_, ?_⟩
    · rw [h0.2]; rfl
    · simp only [Function.update_same]
    · intro q hq
      simp only [Function.update_noteq hq, initBoard]
    · intro i hi
      have hne : ¬((i.val : Int) = 0) := by
        intro h
        exact hi (Fin.ext (by simpa using h))
      have hp0 : ¬((Function.update roster 0
          ({ gameNum := (roster 0).gameNum, timeout := (roster 0).timeout,
             p2Address := r.playerAddr, player := 2,
             board := Function.update initBoard p P1_MARK } : TTT_Game) i).player ≠ 0) := by
        rw [Function.update_noteq hi]
        exact not_not.mpr (hfree i).1.1
      rw [check_timeout_apply, update_timeouts_apply, if_neg hne, if_neg hp0,
        Function.update_noteq hi, if_neg (by rw [(hfree i).1.2.2.1]; exact hT)]

theorem C8_witness :
    ((∀ i : Fin 10, isFree (idleRoster i) ∧ (idleRoster i).gameNum = (i.val : Int) + 1) ∧
      0 < get_command newGameReceived ∧ newGameReceived.datagram.command = NEW_GAME) ∧
    ∃ (p : Fin 9) (roster1 : Roster),
      tictactoe_step 1 idleRoster newGameReceived 7 true =
        some (roster1,
          [Event.sendto ⟨VERSION, MOVE, 48 + ((p.val : Int) + 1), 1⟩
            newGameReceived.playerAddr]) ∧
      (roster1 0).player = 2 ∧ (roster1 0).p2Address = newGameReceived.playerAddr ∧
      (roster1 0).timeout = TIMEOUT ∧ (roster1 0).gameNum = 1 ∧
      (roster1 0).board p = P1_MARK ∧
      (∀ q, q ≠ p → (roster1 0).board q = sentinel q) ∧
      (∀ i, i ≠ 0 → roster1 i = idleRoster i) :=
  have h1 : ∀ i : Fin 10, isFree (idleRoster i) ∧ (idleRoster i).gameNum = (i.val : Int) + 1 :=
    fun _ => ⟨⟨rfl, rfl, rfl, rfl⟩, rfl⟩
  have h2 : 0 < get_command newGameReceived := by decide
  ⟨⟨h1, h2, rfl⟩, C8_new_game_on_idle_roster 0 idleRoster newGameReceived 7 h1 h2 rfl⟩

/-! ## The server never loses -/

theorem not_hasLine_of_check_win_zero (b : Board) (m : Int) (h : check_win b = 0) :
    ¬hasLine b m := by
  rw [check_win_eq, firstLine_eq_zero_iff] at h
  rintro ⟨l, hl, h1, h2, h3⟩
  refine h (b l.1, b l.2.1, b l.2.2) ?_ ⟨by rw [h1, h2], by rw [h2, h3]⟩
  simp only [lineCells, List.mem_map]
  exact ⟨l, hl, rfl⟩

theorem hasLine_update_other (b : Board) (p : Fin 9) (x m : Int) (hx : x ≠ m)
    (h : hasLine (Function.update b p x) m) : hasLine b m := by
  obtain ⟨l, hl, h1, h2, h3⟩ := h
  have hne : ∀ i, Function.update b p x i = m → b i = m := by
    intro i hi
    by_cases hip : i = p
    · rw [hip, Function.update_same] at hi
      exact absurd hi hx
    · rwa [Function.update_noteq hip] at hi
  exact ⟨l, hl, hne _ h1, hne _ h2, hne _ h3⟩

theorem P1_ne_P2 : P1_MARK ≠ P2_MARK := by decide

theorem safe_after_p2 (b : Board) (m : Fin 9) (hw : check_win b = 0)
    (hge : 0 ≤ mm 10 b 0 false) (hm : b m = sentinel m) :
    check_win (Function.update b m P2_MARK) = 0 ∧
      0 ≤ mm 9 (Function.update b m P2_MARK) 1 true := by
  have hd : check_draw b = false := (check_draw_eq_false b).mpr ⟨m, hm⟩
  have e : mm 10 b 0 false = mm (9 + 1) b 0 false := rfl
  rw [e, mm_min 9 b 0 hw hd, le_minOver_iff] at hge
  have h1 : 0 ≤ mm 9 (Function.update b m P2_MARK) 1 true := hge.2 m (mem_cells m) hm
  refine ⟨?_, h1⟩
  rcases check_win_update_cases b m P2_MARK hw with h | h
  · exact h
  · rw [if_neg (fun hc => P1_ne_P2 hc.symm)] at h
    have e2 : mm 9 (Function.update b m P2_MARK) 1 true =
        mm (8 + 1) (Function.update b m P2_MARK) 1 true := rfl
    rw [e2, mm_loss 8 _ 1 true h] at h1
    omega

theorem safe_after_p1 (b : Board) (hc : countEmpty b ≤ 8) (hw : check_win b = 0)
    (hd : check_draw b = false) (hge : 0 ≤ mm 9 b 1 true) (p : Fin 9)
    (hmax : ∀ q, b q = sentinel q → moveScore b q ≤ moveScore b p) :
    0 ≤ moveScore b p := by
  have e : mm 9 b 1 true = mm (8 + 1) b 1 true := rfl
  rw [e, mm_max 8 b 1 hw hd, le_maxOver_iff] at hge
  rcases hge with h | ⟨j, _, hj, hv⟩
  · simp only [INT32_MIN] at h; omega
  · have hcj := countEmpty_update b j P1_MARK hj (sentinel_ne_P1 j)
    have h1 : geZ 10 (Function.update b j P1_MARK) false = true :=
      (geZ_iff 10 8 _ (1 + 1) false (by omega) (by omega) (by omega) (by omega)).mpr hv
    have h2 := (moveScore_sign b j hj).1.mp h1
    have := hmax j hj
    omega

theorem initBoard_update_P2 (m : Fin 9) :
    check_win (Function.update initBoard m P2_MARK) = 0 := by
  have h0 : check_win initBoard = 0 := by decide
  by_contra hne
  obtain ⟨l, _, hc⟩ := (check_win_update_ne_zero initBoard m P2_MARK h0).mp hne
  have hs : ∀ i, initBoard i ≠ P2_MARK := fun i h => sentinel_ne_P2 i h.symm
  rcases hc with ⟨_, h1, _⟩ | ⟨_, h1, _⟩ | ⟨_, h1, _⟩
  · exact hs _ h1
  · exact hs _ h1
  · exact hs _ h1

theorem initBoard_update_P1 (p : Fin 9) :
    check_win (Function.update initBoard p P1_MARK) = 0 := by
  have h0 : check_win initBoard = 0 := by decide
  by_contra hne
  obtain ⟨l, _, hc⟩ := (check_win_update_ne_zero initBoard p P1_MARK h0).mp hne
  have hs : ∀ i, initBoard i ≠ P1_MARK := fun i h => sentinel_ne_P1 i h.symm
  rcases hc with ⟨_, h1, _⟩ | ⟨_, h1, _⟩ | ⟨_, h1, _⟩
  · exact hs _ h1
  · exact hs _ h1
  · exact hs _ h1

theorem sessionSafe_free (A : sockaddr_in) (g : TTT_Game) : sessionSafe A (free_game g) := by
  rw [free_game_eq]
  exact Or.inl ⟨rfl, rfl⟩

theorem move_step_safe (fuel : Nat) (A : sockaddr_in) (d : Buffer) (g : TTT_Game)
    (hA : g.p2Address = A) (hw : check_win g.board = 0)
    (hge : 0 ≤ (minimax g.board 0 false).1) :
    ∃ g1 ev, move (fuel + 1) A d g true = some (g1, ev) ∧ sessionSafe A g1 ∧
      ∀ e ∈ ev, noLoss e := by
  have hge1 : 0 ≤ mm 10 g.board 0 false := by
    rw [minimax_eq] at hge
    exact hge
  have hsame : same_address A g.p2Address = true := by
    rw [hA]
    exact (same_address_eq_true_iff _ _).mpr ⟨rfl, rfl⟩
  cases hv : validate_move (d.data - 48) g.board with
  | false =>
    exact ⟨free_game g, [], move_invalid (fuel + 1) A d g true hsame hv,
      sessionSafe_free A g, by simp⟩
  | true =>
    obtain ⟨m, hm, hme⟩ := (validate_move_iff _ _).mp hv
    obtain ⟨hw1, hv1⟩ := safe_after_p2 g.board m hw hge1 hme
    have hno1 : ¬hasLine (Function.update g.board m P2_MARK) P2_MARK :=
      not_hasLine_of_check_win_zero _ _ hw1
    have hmv := move_valid fuel A d g true hsame m hm hme
    rw [if_neg (by simp [hw1])] at hmv
    cases hd1 : check_draw (Function.update g.board m P2_MARK) with
    | true =>
      rw [if_pos hd1] at hmv
      refine ⟨_, _, hmv, sessionSafe_free A g, ?_⟩
      intro e he
      simp only [List.mem_singleton] at he
      rw [he]
      exact ⟨by rw [hw1]; decide, hno1⟩
    | false =>
      rw [if_neg (by simp [hd1]), if_pos rfl] at hmv
      obtain ⟨p, hp, hpe, hmax, _⟩ :=
        find_best_move_spec (Function.update g.board m P2_MARK)
          ((check_draw_eq_false _).mp hd1)
      rw [hp, setAt_cell] at hmv
      have hc := countEmpty_update g.board m P2_MARK hme (sentinel_ne_P2 m)
      have hle := countEmpty_le g.board
      have hscore : 0 ≤ moveScore (Function.update g.board m P2_MARK) p :=
        safe_after_p1 _ (by omega) hw1 hd1 hv1 p hmax
      have hno2 : ¬hasLine (Function.update (Function.update g.board m P2_MARK) p P1_MARK)
          P2_MARK :=
        fun h => hno1 (hasLine_update_other _ p P1_MARK P2_MARK P1_ne_P2 h)
      rcases check_win_update_cases (Function.update g.board m P2_MARK) p P1_MARK hw1 with
        hw2 | hw2
      · rw [if_neg (by simp [hw2])] at hmv
        cases hd2 : check_draw
            (Function.update (Function.update g.board m P2_MARK) p P1_MARK) with
        | true =>
          rw [if_pos hd2] at hmv
          refine ⟨_, _, hmv, sessionSafe_free A g, ?_⟩
          intro e he
          simp only [List.mem_cons, List.mem_singleton, List.not_mem_nil, or_false] at he
          rcases he with he | he
          · rw [he]; trivial
          · rw [he]
            exact ⟨by rw [hw2]; decide, hno2⟩
        | false =>
          rw [if_neg (by simp [hd2])] at hmv
          refine ⟨_, _, hmv, Or.inr ⟨rfl, hA, hw2, ?_⟩, ?_⟩
          · rw [minimax_eq]
            rw [moveScore_eq] at hscore
            exact hscore
          · intro e he
            simp only [List.mem_singleton] at he
            rw [he]; trivial
      · rw [if_pos rfl] at hw2
        rw [if_pos (by rw [hw2]; decide)] at hmv
        refine ⟨_, _, hmv, sessionSafe_free A g, ?_⟩
        intro e he
        simp only [List.mem_cons, List.mem_singleton, List.not_mem_nil, or_false] at he
        rcases he with he | he
        · rw [he]; trivial
        · rw [he]
          exact ⟨rfl, by rw [hw2]; decide, hno2⟩

theorem play_moves_safe (fuel : Nat) (A : sockaddr_in) (ds : List Buffer) (g : TTT_Game)
    (hg : sessionSafe A g) :
    ∃ gs evs, play_moves (fuel + 1) A g ds = some (gs, evs) ∧
      (∀ g1 ∈ gs, sessionSafe A g1) ∧ ∀ e ∈ evs, noLoss e := by
  induction ds generalizing g with
  | nil => exact ⟨[], [], by rw [play_moves], by simp, by simp⟩
  | cons d ds ih =>
    by_cases hpl : g.player = 0
    · exact ⟨[], [], by rw [play_moves, if_pos hpl], by simp, by simp⟩
    · rcases hg with ⟨h0, _⟩ | ⟨_, hA, hw, hge⟩
      · exact absurd h0 hpl
      · obtain ⟨g1, ev, hmv, hs1, hev⟩ := move_step_safe fuel A d g hA hw hge
        obtain ⟨gs, evs, hrec, hgs, hevs⟩ := ih g1 hs1
        refine ⟨g1 :: gs, ev ++ evs, ?_, ?_, ?_⟩
        · rw [play_moves, if_neg hpl, hmv]
          simp only [hrec]
        · intro g2 hg2
          rcases List.mem_cons.mp hg2 with h | h
          · rw [h]; exact hs1
          · exact hgs g2 h
        · intro e he
          rcases List.mem_append.mp he with h | h
          · exact hev e h
          · exact hevs e h

theorem sessionSafe_boards (A : sockaddr_in) (g : TTT_Game) (h : sessionSafe A g) :
    check_win g.board = 0 ∧
      ∀ m : Fin 9, g.board m = sentinel m →
        check_win (Function.update g.board m P2_MARK) = 0 := by
  rcases h with ⟨_, hb⟩ | ⟨_, _, hw, hge⟩
  · rw [hb]
    exact ⟨by decide, fun m _ => initBoard_update_P2 m⟩
  · refine ⟨hw, fun m hm => ?_⟩
    rw [minimax_eq] at hge
    exact (safe_after_p2 g.board m hw hge hm).1

/-- Claim C1. The server never loses.  For every game, started by `new_game` for a peer
on a slot and continued by any sequence of moves of that peer while the game lasts, with
every send succeeding: all handler calls return; on the board of every session reached
`check_win` is 0 and there is no line of three marks of player 2, and whatever empty cell
player 2 marks next, `check_win` is again 0 on the resulting board, which has no such
line either, so `game_over` never sees the score -10; every announcement names player 1
as the winner or is a draw, on a board without a line of player 2, and none names
player 2. -/
theorem C1_server_never_loses (fuel : Nat) (A : sockaddr_in) (d0 : Buffer) (g0 : TTT_Game)
    (ds : List Buffer) :
    ∃ gs evs, play_game (fuel + 1) A d0 g0 ds = some (gs, evs) ∧
      (∀ g ∈ gs, check_win g.board = 0 ∧ ¬hasLine g.board P2_MARK ∧
        ∀ m : Fin 9, g.board m = sentinel m →
          check_win (Function.update g.board m P2_MARK) = 0 ∧
          ¬hasLine (Function.update g.board m P2_MARK) P2_MARK) ∧
      (∀ e ∈ evs, noLoss e) ∧
      (∀ e ∈ evs, ∀ b, e ≠ Event.wins 2 b) := by
  obtain ⟨p, hp, hng⟩ := new_game_eq fuel A d0 g0 true
  rw [if_pos rfl] at hng
  obtain ⟨q, hq, _, hmax, _⟩ := find_best_move_spec initBoard ⟨0, rfl⟩
  have hpq : p = q := Fin.ext (by omega)
  have hs1 : sessionSafe A
      { gameNum := g0.gameNum, timeout := g0.timeout, p2Address := A, player := 2,
        board := Function.update initBoard p P1_MARK } := by
    refine Or.inr ⟨rfl, rfl, initBoard_update_P1 p, ?_⟩
    have h1 := (opening_score 0).2
    have h2 := hmax 0 rfl
    rw [minimax_eq, ← moveScore_eq, hpq]
    omega
  obtain ⟨gs, evs, hrec, hgs, hevs⟩ := play_moves_safe fuel A ds _ hs1
  have hall : ∀ e ∈ [Event.sendto ⟨3, 1, (p.val : Int) + 49, toChar g0.gameNum⟩ A] ++ evs,
      noLoss e := by
    intro e he
    rcases List.mem_append.mp he with h | h
    · simp only [List.mem_singleton] at h
      rw [h]; trivial
    · exact hevs e h
  refine ⟨(⟨g0.gameNum, g0.timeout, A, 2, Function.update initBoard p P1_MARK⟩ : TTT_Game) :: gs,
    [Event.sendto ⟨3, 1, (p.val : Int) + 49, toChar g0.gameNum⟩ A] ++ evs, ?_, ?_, hall, ?_⟩
  · rw [play_game, hng]
    simp only [hrec]
  · intro g hg
    have hsafe : sessionSafe A g := by
      rcases List.mem_cons.mp hg with h | h
      · rw [h]; exact hs1
      · exact hgs g h
    have hb := sessionSafe_boards A g hsafe
    exact ⟨hb.1, not_hasLine_of_check_win_zero _ _ hb.1,
      fun m hm => ⟨hb.2 m hm, not_hasLine_of_check_win_zero _ _ (hb.2 m hm)⟩⟩
  · intro e he b hb
    have := hall e he
    rw [hb] at this
    exact absurd this.1 (by decide)

/-! ## Send failures, a full roster, the sweep and the receive timeout -/

theorem init_game_roster_apply (roster : Roster) (j : Fin 10) :
    init_game_roster roster j =
      { gameNum := (j.val : Int) + 1, timeout := TIMEOUT, p2Address := blankAddr, player := 0,
        board := initBoard } := by
  rw [init_game_roster]
  refine ((foldl_update_apply (fun (i : Fin 10) (g : TTT_Game) =>
      init_shared_state
        { g with timeout := TIMEOUT, p2Address := blankAddr,
                 gameNum := (i.val : Int) + 1, player := 0 }) slots
    slots_nodup roster j).trans (if_pos (mem_slots j))).trans ?_
  exact init_shared_state_eq _

theorem count_foldl (p : Fin 10 → Prop) [DecidablePred p] (l : List (Fin 10)) (c : Int) :
    l.foldl (fun count i => if p i then count + 1 else count) c =
      c + ((l.filter (fun i => decide (p i))).length : Int) := by
  induction l generalizing c with
  | nil => simp
  | cons a l ih =>
    rw [List.foldl_cons, ih]
    by_cases h : p a
    · rw [if_pos h, List.filter_cons_of_pos (by simpa using h), List.length_cons]
      push_cast
      ring
    · rw [if_neg h, List.filter_cons_of_neg (by simpa using h)]

theorem games_in_progress_eq (roster : Roster) :
    games_in_progress roster =
      ((slots.filter (fun i => decide ((roster i).player ≠ 0))).length : Int) := by
  rw [games_in_progress, count_foldl (fun i => (roster i).player ≠ 0) slots 0, zero_add]

theorem games_in_progress_pos (roster : Roster) :
    0 < games_in_progress roster ↔ ∃ i, (roster i).player ≠ 0 := by
  rw [games_in_progress_eq]
  constructor
  · intro h
    have h1 : 0 < (slots.filter (fun i => decide ((roster i).player ≠ 0))).length := by
      exact_mod_cast h
    obtain ⟨i, hi⟩ := List.exists_mem_of_length_pos h1
    exact ⟨i, by simpa using (List.mem_filter.mp hi).2⟩
  · rintro ⟨i, hi⟩
    have hmem : i ∈ slots.filter (fun i => decide ((roster i).player ≠ 0)) :=
      List.mem_filter.mpr ⟨mem_slots i, by simpa using hi⟩
    have := List.length_pos_of_mem hmem
    exact_mod_cast this

theorem new_game_none (fuel : Nat) (A : sockaddr_in) (d : Buffer) (sendOk : Bool) :
    new_game fuel A d none sendOk = some (none, []) := by
  rw [new_game]

theorem dispatch_no_slot (fuel : Nat) (roster : Roster) (r : Received) (sendOk : Bool)
    (hcmd : r.datagram.command = NEW_GAME) (hnone : find_open_game roster = ERROR_CODE) :
    dispatch fuel roster r sendOk = some (roster, []) := by
  have hk : gameIndx roster r.datagram = -1 := by
    rw [gameIndx, if_pos hcmd, hnone]; rfl
  have hc0 : r.datagram.command = 0 := hcmd
  rw [dispatch, if_pos hc0, dif_neg (by rw [hk]; omega), if_pos (by rw [hk]; omega)]
  simp only [new_game_none]

/-- Claim C11. When the send inside `send_p1_move` fails, both handlers leave the session
in the default Free state with its `gameNum` unchanged.  `new_game`, called on any session,
returns it with `player` 0, the blank address, `timeout = TIMEOUT` and the board of digits:
the address it had bound is gone.  `move`, for a move of the bound peer on an empty cell `m`
after which the game goes on, returns the same Free state: the mark of player 2 at `m` is
gone.  In both cases the board is the initial one, so the move computed for player 1 is
not on it, and the only event is the failed call of `sendto`. -/
theorem C11_send_failure_frees (fuel : Nat) (A : sockaddr_in) (d : Buffer) (g : TTT_Game) :
    (∃ p : Fin 9, (find_best_move initBoard).1 = (p.val : Int) + 1 ∧
      new_game (fuel + 1) A d (some g) false =
        some (some { gameNum := g.gameNum, timeout := TIMEOUT, p2Address := blankAddr,
                     player := 0, board := initBoard },
          [Event.sendto ⟨3, 1, (p.val : Int) + 49, toChar g.gameNum⟩ A])) ∧
    (∀ m : Fin 9, same_address A g.p2Address = true → d.data - 48 = (m.val : Int) + 1 →
      g.board m = sentinel m → check_win (Function.update g.board m P2_MARK) = 0 →
      check_draw (Function.update g.board m P2_MARK) = false →
      move (fuel + 1) A d g false =
        some ({ gameNum := g.gameNum, timeout := TIMEOUT, p2Address := blankAddr,
                player := 0, board := initBoard },
          [Event.sendto ⟨3, 1, (find_best_move (Function.update g.board m P2_MARK)).1 + 48,
            toChar g.gameNum⟩ g.p2Address])) := by
  constructor
  · obtain ⟨p, hp, h⟩ := new_game_eq fuel A d g false
    refine ⟨p, hp, ?_⟩
    rw [h, if_neg (by decide), free_game_eq]
  · intro m hsame hm hme h1w h1d
    rw [move_valid fuel A d g false hsame m hm hme, if_neg (by simp [h1w]),
      if_neg (by simp [h1d]), if_neg (by decide), free_game_eq]

set_option maxRecDepth 100000 in
theorem C11_witness :
    (same_address samplePeer exchangeGame.p2Address = true ∧
      (⟨3, 1, 52, 1⟩ : Buffer).data - 48 = (((3 : Fin 9)).val : Int) + 1 ∧
      exchangeGame.board 3 = sentinel 3 ∧
      check_win (Function.update exchangeGame.board 3 P2_MARK) = 0 ∧
      check_draw (Function.update exchangeGame.board 3 P2_MARK) = false) ∧
    move 1 samplePeer ⟨3, 1, 52, 1⟩ exchangeGame false =
      some ({ gameNum := exchangeGame.gameNum, timeout := TIMEOUT, p2Address := blankAddr,
              player := 0, board := initBoard },
        [Event.sendto
          ⟨3, 1, (find_best_move (Function.update exchangeGame.board 3 P2_MARK)).1 + 48,
            toChar exchangeGame.gameNum⟩ exchangeGame.p2Address]) :=
  ⟨⟨by decide, by decide, by decide, by decide, by decide⟩,
    (C11_send_failure_frees 0 samplePeer ⟨3, 1, 52, 1⟩ exchangeGame).2 3 (by decide)
      (by decide) (by decide) (by decide) (by decide)⟩

/-- Claim C12. When every one of the 10 slots has `player` different from 0 and the
command is `NEW_GAME`: `find_open_game` returns the error code, so the index `gameIndx`
is negative and the handler `new_game` is called without a game; it returns without a
session and without an event, and the dispatch leaves the roster as it was and records no
call of `sendto`. -/
theorem C12_new_game_on_full_roster (fuel : Nat) (roster : Roster) (r : Received)
    (sendOk : Bool) (hfull : ∀ i, (roster i).player ≠ 0)
    (hcmd : r.datagram.command = NEW_GAME) :
    find_open_game roster = ERROR_CODE ∧ gameIndx roster r.datagram < 0 ∧
    new_game fuel r.playerAddr r.datagram none sendOk = some (none, []) ∧
    dispatch fuel roster r sendOk = some (roster, []) := by
  have hnone : find_open_game roster = ERROR_CODE := by
    rcases find_open_game_spec roster with ⟨i, _, hi, _⟩ | ⟨h, _⟩
    · exact absurd hi (hfull i)
    · exact h
  refine ⟨hnone, ?_, new_game_none _ _ _ _, dispatch_no_slot fuel roster r sendOk hcmd hnone⟩
  rw [gameIndx, if_pos hcmd, hnone]
  decide

theorem C12_witness :
    ((∀ i, (busyRoster i).player ≠ 0) ∧ newGameReceived.datagram.command = NEW_GAME) ∧
    dispatch 1 busyRoster newGameReceived true = some (busyRoster, []) :=
  ⟨⟨fun _ => (by decide : (2 : Int) ≠ 0), by decide⟩,
    (C12_new_game_on_full_roster 1 busyRoster newGameReceived true
      (fun _ => (by decide : (2 : Int) ≠ 0)) (by decide)).2.2.2⟩

/-- Claim C13. The sweep `check_timeout` resets exactly the slots whose timeout is at most
0: such a slot ends with `player` 0, the blank address, `timeout = TIMEOUT` and the board
of digits, its `gameNum` unchanged; a slot whose timeout is positive is left unchanged in
every field. -/
theorem C13_check_timeout_sweep (roster : Roster) (i : Fin 10) :
    ((roster i).timeout ≤ 0 →
      check_timeout roster i =
        { gameNum := (roster i).gameNum, timeout := TIMEOUT, p2Address := blankAddr,
          player := 0, board := initBoard }) ∧
    (0 < (roster i).timeout → check_timeout roster i = roster i) := by
  constructor
  · intro h
    rw [check_timeout_apply, if_pos h, free_game_eq]
  · intro h
    rw [check_timeout_apply, if_neg (by omega)]

/-- Claim C14. When the receive times out (`get_command` returns 0): if
`games_in_progress` is greater than 0, which is the case exactly when some slot has
`player` different from 0, the iteration ends with every slot `i` holding `player` 0, the
blank address, `timeout = TIMEOUT`, the board of digits and `gameNum = i + 1`, whatever
the slot held before; if no game is in progress the roster is unchanged.  No datagram is
sent in either case. -/
theorem C14_receive_timeout (fuel : Nat) (roster : Roster) (r : Received) (elapsed : Int)
    (sendOk : Bool) (hto : get_command r = 0) :
    (0 < games_in_progress roster ↔ ∃ i, (roster i).player ≠ 0) ∧
    (0 < games_in_progress roster →
      ∃ roster1, tictactoe_step fuel roster r elapsed sendOk = some (roster1, []) ∧
        ∀ i : Fin 10, roster1 i =
          { gameNum := (i.val : Int) + 1, timeout := TIMEOUT, p2Address := blankAddr,
            player := 0, board := initBoard }) ∧
    (¬0 < games_in_progress roster →
      tictactoe_step fuel roster r elapsed sendOk = some (roster, [])) := by
  refine ⟨games_in_progress_pos roster, ?_, ?_⟩
  · intro h
    refine ⟨init_game_roster roster, ?_, init_game_roster_apply roster⟩
    rw [tictactoe_step, if_neg (by rw [hto]; decide), if_pos hto, if_pos h]
  · intro h
    rw [tictactoe_step, if_neg (by rw [hto]; decide), if_pos hto, if_neg h]

theorem C14_witness :
    get_command timeoutReceived = 0 ∧
    ∃ roster1, tictactoe_step 1 busyRoster timeoutReceived 30 true = some (roster1, []) ∧
      ∀ i : Fin 10, roster1 i =
        { gameNum := (i.val : Int) + 1, timeout := TIMEOUT, p2Address := blankAddr,
          player := 0, board := initBoard } :=
  ⟨by decide,
    (C14_receive_timeout 1 busyRoster timeoutReceived 30 true (by decide)).2.1
      ((games_in_progress_pos busyRoster).mpr ⟨0, (by decide : (2 : Int) ≠ 0)⟩)⟩

/-! ## The handlers return, and what they return -/

theorem get_command_accepts (r : Received) (h : 0 < get_command r) :
    0 < r.rv ∧ acceptable r.datagram := by
  by_cases hrv : 0 < r.rv
  · by_cases hacc : acceptable r.datagram
    · exact ⟨hrv, hacc⟩
    · rw [(get_command_pos r hrv).2 hacc] at h
      exact absurd h (by decide)
  · exfalso
    rw [get_command, if_pos (by omega)] at h
    simp only [ERROR_CODE] at h
    split_ifs at h <;> omega

theorem send_p1_move_zero (g : TTT_Game) (sendOk : Bool) : send_p1_move 0 g sendOk = none := by
  rw [send_p1_move, p1_move_loop]

theorem new_game_zero (A : sockaddr_in) (d : Buffer) (g : TTT_Game) (sendOk : Bool) :
    new_game 0 A d (some g) sendOk = none := by
  rw [new_game]
  simp only [send_p1_move_zero]

theorem move_zero (A : sockaddr_in) (d : Buffer) (g : TTT_Game) (sendOk : Bool)
    (hsame : same_address A g.p2Address = true) (m : Fin 9)
    (hm : d.data - 48 = (m.val : Int) + 1) (hme : g.board m = sentinel m)
    (hw0 : check_win (Function.update g.board m P2_MARK) = 0)
    (hd : check_draw (Function.update g.board m P2_MARK) = false) :
    move 0 A d g sendOk = none := by
  have hv : validate_move (d.data - 48) g.board = true :=
    (validate_move_iff _ _).mpr ⟨m, hm, hme⟩
  have hset : setAt g.board (d.data - 48 - 1) P2_MARK = Function.update g.board m P2_MARK := by
    rw [hm, setAt_cell]
  rw [move]
  simp only [hsame, hv, if_true, hset]
  rw [if_neg (by rw [game_over_continue _ hw0 hd]; simp), game_over_continue _ hw0 hd]
  simp only [send_p1_move_zero]

/-- Whatever `move` returns is the session unchanged, the session freed, or the session
in play with `player` 2 and a board that holds a mark of player 1. -/
theorem move_result (fuel : Nat) (A : sockaddr_in) (d : Buffer) (g : TTT_Game)
    (sendOk : Bool) (g1 : TTT_Game) (ev : List Event)
    (h : move fuel A d g sendOk = some (g1, ev)) :
    g1 = g ∨ g1 = free_game g ∨
      ∃ b : Board, (∃ p, b p = P1_MARK) ∧
        g1 = { gameNum := g.gameNum, timeout := g.timeout, p2Address := g.p2Address,
               player := 2, board := b } := by
  cases hsame : same_address A g.p2Address with
  | false =>
    rw [move_mismatch fuel A d g sendOk hsame] at h
    simp only [Option.some.injEq, Prod.mk.injEq] at h
    exact Or.inl h.1.symm
  | true =>
    cases hv : validate_move (d.data - 48) g.board with
    | false =>
      rw [move_invalid fuel A d g sendOk hsame hv] at h
      simp only [Option.some.injEq, Prod.mk.injEq] at h
      exact Or.inr (Or.inl h.1.symm)
    | true =>
      obtain ⟨m, hm, hme⟩ := (validate_move_iff _ _).mp hv
      by_cases hover : check_win (Function.update g.board m P2_MARK) ≠ 0 ∨
          check_draw (Function.update g.board m P2_MARK) = true
      · rw [move_over_after_p2 fuel A d g sendOk hsame m hm hme hover] at h
        simp only [Option.some.injEq, Prod.mk.injEq] at h
        exact Or.inr (Or.inl h.1.symm)
      · have hw0 : check_win (Function.update g.board m P2_MARK) = 0 :=
          not_not.mp (fun hne => hover (Or.inl hne))
        have hd : check_draw (Function.update g.board m P2_MARK) = false :=
          Bool.eq_false_iff.mpr (fun ht => hover (Or.inr ht))
        cases fuel with
        | zero =>
          rw [move_zero A d g sendOk hsame m hm hme hw0 hd] at h
          exact absurd h (by simp)
        | succ n =>
          obtain ⟨p, hp, _, _, _⟩ :=
            find_best_move_spec (Function.update g.board m P2_MARK)
              ((check_draw_eq_false _).mp hd)
          rw [move_valid n A d g sendOk hsame m hm hme, if_neg (by simp [hw0]),
            if_neg (by simp [hd])] at h
          split_ifs at h
          all_goals simp only [Option.some.injEq, Prod.mk.injEq] at h
          · exact Or.inr (Or.inl h.1.symm)
          · exact Or.inr (Or.inl h.1.symm)
          · refine Or.inr (Or.inr ⟨_, ⟨p, ?_⟩, h.1.symm⟩)
            rw [hp, setAt_cell, Function.update_same]
          · exact Or.inr (Or.inl h.1.symm)

/-- With fuel for one test of its loop, `move` returns. -/
theorem move_total (fuel : Nat) (A : sockaddr_in) (d : Buffer) (g : TTT_Game)
    (sendOk : Bool) : ∃ g1 ev, move (fuel + 1) A d g sendOk = some (g1, ev) := by
  cases hsame : same_address A g.p2Address with
  | false => exact ⟨_, _, move_mismatch _ A d g sendOk hsame⟩
  | true =>
    cases hv : validate_move (d.data - 48) g.board with
    | false => exact ⟨_, _, move_invalid _ A d g sendOk hsame hv⟩
    | true =>
      obtain ⟨m, hm, hme⟩ := (validate_move_iff _ _).mp hv
      rw [move_valid fuel A d g sendOk hsame m hm hme]
      split_ifs <;> exact ⟨_, _, rfl⟩

/-- Whatever `new_game` returns for a session is the session freed, or the session bound
to the sender with `player` 2 and the mark of player 1 in one cell of the fresh board. -/
theorem new_game_result (fuel : Nat) (A : sockaddr_in) (d : Buffer) (g : TTT_Game)
    (sendOk : Bool) (x : Option TTT_Game) (ev : List Event)
    (h : new_game fuel A d (some g) sendOk = some (x, ev)) :
    x = some (free_game g) ∨
      ∃ p : Fin 9, x =
        some { gameNum := g.gameNum, timeout := g.timeout, p2Address := A, player := 2,
               board := Function.update initBoard p P1_MARK } := by
  cases fuel with
  | zero =>
    rw [new_game_zero] at h
    exact absurd h (by simp)
  | succ n =>
    obtain ⟨p, _, hn⟩ := new_game_eq n A d g sendOk
    rw [hn] at h
    simp only [Option.some.injEq, Prod.mk.injEq] at h
    cases sendOk with
    | true => exact Or.inr ⟨p, by rw [← h.1, if_pos rfl]⟩
    | false => exact Or.inl (by rw [← h.1, if_neg (by decide)])

/-- What `dispatch` returns: the roster as it was, or the roster with the slot of index
`gameIndx` replaced by the session the handler returned for it. -/
theorem dispatch_result (fuel : Nat) (roster : Roster) (r : Received) (sendOk : Bool)
    (roster1 : Roster) (ev : List Event)
    (h : dispatch fuel roster r sendOk = some (roster1, ev)) :
    roster1 = roster ∨
      ∃ (i : Fin 10) (g1 : TTT_Game), (i.val : Int) = gameIndx roster r.datagram ∧
        roster1 = Function.update roster i g1 ∧
        ((r.datagram.command = NEW_GAME ∧
            new_game fuel r.playerAddr r.datagram (some (roster i)) sendOk =
              some (some g1, ev)) ∨
          (r.datagram.command = MOVE ∧
            move fuel r.playerAddr r.datagram (roster i) sendOk = some (g1, ev))) := by
  rw [dispatch] at h
  by_cases hc0 : r.datagram.command = 0
  · rw [if_pos hc0] at h
    by_cases hr : 0 ≤ gameIndx roster r.datagram ∧ gameIndx roster r.datagram < 10
    · rw [dif_pos hr] at h
      generalize hidx : (⟨(gameIndx roster r.datagram).toNat, by omega⟩ : Fin 10) = i at h
      have hiv : (i.val : Int) = gameIndx roster r.datagram := by
        rw [← hidx]
        exact Int.toNat_of_nonneg hr.1
      generalize hx : new_game fuel r.playerAddr r.datagram (some (roster i)) sendOk = x at h
      match x, h with
      | none, h => exact absurd h (by simp)
      | some (none, ev1), h =>
        simp only [Option.some.injEq, Prod.mk.injEq] at h
        exact Or.inl h.1.symm
      | some (some g1, ev1), h =>
        simp only [Option.some.injEq, Prod.mk.injEq] at h
        refine Or.inr ⟨i, g1, hiv, h.1.symm, Or.inl ⟨hc0, ?_⟩⟩
        rw [← h.2]
        exact hx
    · rw [dif_neg hr] at h
      by_cases hneg : gameIndx roster r.datagram < 0
      · rw [if_pos hneg] at h
        simp only [new_game_none, Option.some.injEq, Prod.mk.injEq] at h
        exact Or.inl h.1.symm
      · rw [if_neg hneg] at h
        exact absurd h (by simp)
  · rw [if_neg hc0] at h
    by_cases hc1 : r.datagram.command = 1
    · rw [if_pos hc1] at h
      by_cases hr : 0 ≤ gameIndx roster r.datagram ∧ gameIndx roster r.datagram < 10
      · rw [dif_pos hr] at h
        generalize hidx : (⟨(gameIndx roster r.datagram).toNat, by omega⟩ : Fin 10) = i at h
        have hiv : (i.val : Int) = gameIndx roster r.datagram := by
          rw [← hidx]
          exact Int.toNat_of_nonneg hr.1
        generalize hx : move fuel r.playerAddr r.datagram (roster i) sendOk = x at h
        match x, h with
        | none, h => exact absurd h (by simp)
        | some (g1, ev1), h =>
          simp only [Option.some.injEq, Prod.mk.injEq] at h
          refine Or.inr ⟨i, g1, hiv, h.1.symm, Or.inr ⟨hc1, ?_⟩⟩
          rw [← h.2]
          exact hx
      · rw [dif_neg hr] at h
        exact absurd h (by simp)
    · rw [if_neg hc1] at h
      exact absurd h (by simp)

/-- The dispatch changes no slot other than the one of index `gameIndx`. -/
theorem dispatch_frame (fuel : Nat) (roster : Roster) (r : Received) (sendOk : Bool)
    (roster1 : Roster) (ev : List Event)
    (h : dispatch fuel roster r sendOk = some (roster1, ev)) (j : Fin 10)
    (hj : (j.val : Int) ≠ gameIndx roster r.datagram) : roster1 j = roster j := by
  rcases dispatch_result fuel roster r sendOk roster1 ev h with h1 | ⟨i, g1, hi, h1, _⟩
  · rw [h1]
  · rw [h1, Function.update_noteq (fun hji => hj (by rw [hji, hi]))]

/-- For an accepted datagram, and with fuel for one test of the loop of
`send_p1_move`, the dispatch returns. -/
theorem dispatch_total (fuel : Nat) (roster : Roster) (r : Received) (sendOk : Bool)
    (hacc : acceptable r.datagram) :
    ∃ roster1 ev, dispatch (fuel + 1) roster r sendOk = some (roster1, ev) := by
  obtain ⟨_, hcmd, hnum⟩ := hacc
  by_cases hc0 : r.datagram.command = 0
  · rcases find_open_game_spec roster with ⟨i, hi, _, _⟩ | ⟨hnone, _⟩
    · obtain ⟨p, _, hd⟩ := dispatch_new_game fuel roster r sendOk i hc0 hi
      exact ⟨_, _, hd⟩
    · exact ⟨_, _, dispatch_no_slot (fuel + 1) roster r sendOk hc0 hnone⟩
  · have hc1 : r.datagram.command = 1 := hcmd.resolve_left hc0
    have hn := hnum.resolve_left hc0
    have hk : gameIndx roster r.datagram = r.datagram.gameNum - 1 := by
      rw [gameIndx, if_neg (show ¬r.datagram.command = NEW_GAME from hc0)]
    have hr : 0 ≤ gameIndx roster r.datagram ∧ gameIndx roster r.datagram < 10 := by
      rw [hk]; omega
    rw [dispatch, if_neg hc0, if_pos hc1, dif_pos hr]
    generalize (⟨(gameIndx roster r.datagram).toNat, by omega⟩ : Fin 10) = i
    obtain ⟨g1, ev, hmv⟩ := move_total fuel r.playerAddr r.datagram (roster i) sendOk
    rw [hmv]
    exact ⟨_, _, rfl⟩

/-- Claim C15. One iteration of the server loop that handles an accepted command
(`get_command` positive) after an elapsed time `elapsed`.  The handler returns a roster
`roster1` that differs from the old one at most in the slot of index `gameIndx`, which is
the result of `find_open_game` for `NEW_GAME` and `gameNum - 1` for `MOVE`.  Before the
sweep `check_timeout`, the bookkeeping loop has set the timeout of the targeted slot to
`TIMEOUT`, has reduced by exactly `elapsed` the timeout of every other slot whose `player`
is not 0 after the handler, and has kept the timeout of every other slot whose `player` is
0; it changes no other field.  When `get_command` returns the error code for a rejected
datagram, the iteration leaves the whole roster, so every timeout, as it was. -/
theorem C15_timeout_bookkeeping (fuel : Nat) (roster : Roster) (r : Received)
    (elapsed : Int) (sendOk : Bool) :
    (0 < get_command r →
      ∃ roster1 ev, dispatch (fuel + 1) roster r sendOk = some (roster1, ev) ∧
        tictactoe_step (fuel + 1) roster r elapsed sendOk =
          some (check_timeout
            (update_timeouts roster1 (gameIndx roster r.datagram) elapsed), ev) ∧
        (r.datagram.command = NEW_GAME →
          gameIndx roster r.datagram = find_open_game roster) ∧
        (r.datagram.command = MOVE → gameIndx roster r.datagram = r.datagram.gameNum - 1) ∧
        ∀ j : Fin 10,
          ((j.val : Int) = gameIndx roster r.datagram →
            (update_timeouts roster1 (gameIndx roster r.datagram) elapsed j).timeout =
              TIMEOUT) ∧
          ((j.val : Int) ≠ gameIndx roster r.datagram →
            roster1 j = roster j ∧
            ((roster1 j).player ≠ 0 →
              (update_timeouts roster1 (gameIndx roster r.datagram) elapsed j).timeout =
                (roster1 j).timeout - elapsed) ∧
            ((roster1 j).player = 0 →
              (update_timeouts roster1 (gameIndx roster r.datagram) elapsed j).timeout =
                (roster1 j).timeout)) ∧
          (update_timeouts roster1 (gameIndx roster r.datagram) elapsed j).gameNum =
            (roster1 j).gameNum ∧
          (update_timeouts roster1 (gameIndx roster r.datagram) elapsed j).p2Address =
            (roster1 j).p2Address ∧
          (update_timeouts roster1 (gameIndx roster r.datagram) elapsed j).player =
            (roster1 j).player ∧
          (update_timeouts roster1 (gameIndx roster r.datagram) elapsed j).board =
            (roster1 j).board) ∧
    (get_command r = ERROR_CODE →
      tictactoe_step fuel roster r elapsed sendOk = some (roster, [])) := by
  constructor
  · intro hpos
    obtain ⟨roster1, ev, hd⟩ :=
      dispatch_total fuel roster r sendOk (get_command_accepts r hpos).2
    refine ⟨roster1, ev, hd, ?_, ?_, ?_, ?_⟩
    · rw [tictactoe_step, if_pos hpos, hd]
    · intro hc
      rw [gameIndx, if_pos hc]
    · intro hc
      rw [gameIndx, if_neg (by rw [hc]; decide)]
    · intro j
      refine ⟨?_, ?_, ?_, ?_, ?_, ?_⟩
      · intro hj
        rw [update_timeouts_apply, if_pos hj]
      · intro hj
        refine ⟨dispatch_frame _ roster r sendOk roster1 ev hd j hj, ?_, ?_⟩
        · intro hp
          rw [update_timeouts_apply, if_neg hj, if_pos hp]
        · intro hp
          rw [update_timeouts_apply, if_neg hj, if_neg (not_not.mpr hp)]
      all_goals
        rw [update_timeouts_apply]
        split_ifs <;> rfl
  · intro hrej
    rw [tictactoe_step, if_neg (by rw [hrej]; decide), if_neg (by rw [hrej]; decide)]

theorem C15_witness :
    0 < get_command newGameReceived ∧
    ∃ roster1 ev, dispatch 1 idleRoster newGameReceived true = some (roster1, ev) ∧
      tictactoe_step 1 idleRoster newGameReceived 7 true =
        some (check_timeout
          (update_timeouts roster1 (gameIndx idleRoster newGameReceived.datagram) 7), ev) := by
  obtain ⟨roster1, ev, h1, h2, _⟩ :=
    (C15_timeout_bookkeeping 0 idleRoster newGameReceived 7 true).1 (by decide)
  exact ⟨by decide, roster1, ev, h1, h2⟩

/-! ## The results of `check_win` and `check_draw` -/

theorem firstLine_pos (l : List (Int × Int × Int)) (h : firstLine l = 10) :
    ∃ t ∈ l, (t.1 = t.2.1 ∧ t.2.1 = t.2.2) ∧ t.1 = P1_MARK := by
  induction l with
  | nil => exact absurd h (by decide)
  | cons t l ih =>
    obtain ⟨x, y, z⟩ := t
    rw [firstLine] at h
    by_cases hm : x = y ∧ y = z
    · rw [if_pos hm] at h
      by_cases hx : x = P1_MARK
      · exact ⟨(x, y, z), List.mem_cons_self _ _, hm, hx⟩
      · rw [if_neg hx] at h
        exact absurd h (by decide)
    · rw [if_neg hm] at h
      obtain ⟨t, ht, h1, h2⟩ := ih h
      exact ⟨t, List.mem_cons_of_mem _ ht, h1, h2⟩

theorem firstLine_neg (l : List (Int × Int × Int)) (h : firstLine l = -10) :
    ∃ t ∈ l, (t.1 = t.2.1 ∧ t.2.1 = t.2.2) ∧ t.1 ≠ P1_MARK := by
  induction l with
  | nil => exact absurd h (by decide)
  | cons t l ih =>
    obtain ⟨x, y, z⟩ := t
    rw [firstLine] at h
    by_cases hm : x = y ∧ y = z
    · rw [if_pos hm] at h
      by_cases hx : x = P1_MARK
      · rw [if_pos hx] at h
        exact absurd h (by decide)
      · exact ⟨(x, y, z), List.mem_cons_self _ _, hm, hx⟩
    · rw [if_neg hm] at h
      obtain ⟨t, ht, h1, h2⟩ := ih h
      exact ⟨t, List.mem_cons_of_mem _ ht, h1, h2⟩

theorem hasLine_of_check_win_pos (b : Board) (h : check_win b = 10) : hasLine b P1_MARK := by
  rw [check_win_eq] at h
  obtain ⟨t, ht, hm, hx⟩ := firstLine_pos _ h
  simp only [lineCells, List.mem_map] at ht
  obtain ⟨l, hl, rfl⟩ := ht
  simp only at hm hx
  exact ⟨l, hl, hx, by rw [← hm.1, hx], by rw [← hm.2, ← hm.1, hx]⟩

theorem empty_line_unmatched (b : Board) (l : Fin 9 × Fin 9 × Fin 9) (hl : l ∈ boardLines)
    (h1 : b l.1 = sentinel l.1) (h2 : b l.2.1 = sentinel l.2.1) :
    ¬(b l.1 = b l.2.1 ∧ b l.2.1 = b l.2.2) := by
  intro hm
  obtain ⟨d1, _, _⟩ := boardLines_distinct l hl
  exact d1 (sentinel_inj _ _ (by rw [← h1, ← h2, hm.1]))

theorem hasLine_of_check_win_neg (b : Board) (hv : validBoard b) (h : check_win b = -10) :
    hasLine b P2_MARK := by
  rw [check_win_eq] at h
  obtain ⟨t, ht, hm, hx⟩ := firstLine_neg _ h
  simp only [lineCells, List.mem_map] at ht
  obtain ⟨l, hl, rfl⟩ := ht
  simp only at hm hx
  rcases hv l.1 with h1 | h1 | h1
  · exfalso
    rcases hv l.2.1 with h3 | h3 | h3
    · exact empty_line_unmatched b l hl h1 h3 hm
    · exact sentinel_ne_P1 l.1 (by rw [← h1, ← h3, hm.1])
    · exact sentinel_ne_P2 l.1 (by rw [← h1, ← h3, hm.1])
  · exact absurd h1 hx
  · exact ⟨l, hl, h1, by rw [← hm.1, h1], by rw [← hm.2, ← hm.1, h1]⟩

theorem check_win_only_P1 (b : Board) (hv : validBoard b) (h1 : hasLine b P1_MARK)
    (h2 : ¬hasLine b P2_MARK) : check_win b = 10 := by
  rcases check_win_cases b with h | h | h
  · exact h
  · exact absurd (hasLine_of_check_win_neg b hv h) h2
  · exact absurd h1 (not_hasLine_of_check_win_zero b _ h)

theorem check_win_only_P2 (b : Board) (h1 : hasLine b P2_MARK)
    (h2 : ¬hasLine b P1_MARK) : check_win b = -10 := by
  rcases check_win_cases b with h | h | h
  · exact absurd (hasLine_of_check_win_pos b h) h2
  · exact h
  · exact absurd h1 (not_hasLine_of_check_win_zero b _ h)

/-- Claim C16. For every board whose cells are each their own digit, the mark of player 1
or the mark of player 2: `check_win` returns a non-zero value exactly when one of the 8
lines holds three equal marks; it returns 10 when only player 1 has a complete line and
-10 when only player 2 has one; and a line of three cells that still hold their digits
is never taken for a complete line. -/
theorem C16_check_win_lines (b : Board) (hv : validBoard b) :
    (check_win b ≠ 0 ↔ hasLine b P1_MARK ∨ hasLine b P2_MARK) ∧
    (hasLine b P1_MARK → ¬hasLine b P2_MARK → check_win b = 10) ∧
    (hasLine b P2_MARK → ¬hasLine b P1_MARK → check_win b = -10) ∧
    (∀ l ∈ boardLines, b l.1 = sentinel l.1 → b l.2.1 = sentinel l.2.1 →
      b l.2.2 = sentinel l.2.2 → ¬(b l.1 = b l.2.1 ∧ b l.2.1 = b l.2.2)) := by
  refine ⟨⟨?_, ?_⟩, check_win_only_P1 b hv, check_win_only_P2 b, ?_⟩
  · intro h
    by_contra hno
    push_neg at hno
    exact h (check_win_zero_of_valid b hv hno.1 hno.2)
  · rintro (h | h) h0
    · exact not_hasLine_of_check_win_zero b _ h0 h
    · exact not_hasLine_of_check_win_zero b _ h0 h
  · intro l hl h1 h2 _
    exact empty_line_unmatched b l hl h1 h2

theorem C16_witness :
    validBoard wonBoard ∧ hasLine wonBoard P1_MARK ∧ ¬hasLine wonBoard P2_MARK ∧
    check_win wonBoard = 10 :=
  have hv : validBoard wonBoard := by unfold validBoard; decide
  have h1 : hasLine wonBoard P1_MARK := by unfold hasLine; decide
  have h2 : ¬hasLine wonBoard P2_MARK := by unfold hasLine; decide
  ⟨hv, h1, h2, (C16_check_win_lines wonBoard hv).2.1 h1 h2⟩

/-- Counterexample to claim C17 as stated: `fullWonBoard` is a legal board, with five
marks of player 1 and four of player 2, no line of player 2, and no line at all before
the last mark was set in the centre; every cell is marked, `check_draw` returns true and
`check_win` returns 10, so `check_draw` is true although `check_win` is not 0. -/
theorem C17_counterexample :
    validBoard fullWonBoard ∧
    countMark fullWonBoard P1_MARK = countMark fullWonBoard P2_MARK + 1 ∧
    ¬hasLine fullWonBoard P2_MARK ∧
    check_win (Function.update fullWonBoard 4 (sentinel 4)) = 0 ∧
    (check_win fullWonBoard ≠ 0 ∧ check_draw fullWonBoard = true) ∧
    ¬(check_draw fullWonBoard = true ↔
      ((∀ i, fullWonBoard i ≠ sentinel i) ∧ check_win fullWonBoard = 0)) := by
  have hw : check_win fullWonBoard = 10 := by decide
  have hd : check_draw fullWonBoard = true := by decide
  refine ⟨by unfold validBoard; decide, by unfold countMark; decide,
    by unfold hasLine; decide, by decide, ⟨by rw [hw]; decide, hd⟩, ?_⟩
  intro h
  have h0 := (h.mp hd).2
  rw [hw] at h0
  exact absurd h0 (by decide)

/-- Claim C17, amended. For every board, `check_draw` returns true exactly when every
cell is marked, whatever `check_win` returns.  `game_over` consults `check_draw` only
when `check_win` returned 0, so it reports a draw exactly when every cell is marked and
`check_win` returns 0, and it reports a win exactly when `check_win` is not 0: a win
and a draw are never reported together. -/
theorem C17_check_draw_full_board (g : TTT_Game) :
    (check_draw g.board = true ↔ ∀ i, g.board i ≠ sentinel i) ∧
    ((game_over g).2.2 = [Event.draw g.board] ↔
      ((∀ i, g.board i ≠ sentinel i) ∧ check_win g.board = 0)) ∧
    ((game_over g).2.2 = [Event.wins g.player g.board] ↔ check_win g.board ≠ 0) := by
  refine ⟨check_draw_eq_true _, ?_, ?_⟩
  · by_cases hw : check_win g.board ≠ 0
    · rw [game_over_win g hw]
      constructor
      · intro h
        simp at h
      · intro h
        exact absurd h.2 hw
    · have hw0 : check_win g.board = 0 := not_not.mp hw
      cases hd : check_draw g.board with
      | true =>
        rw [game_over_draw g hw0 hd]
        exact ⟨fun _ => ⟨(check_draw_eq_true _).mp hd, hw0⟩, fun _ => rfl⟩
      | false =>
        rw [game_over_continue g hw0 hd]
        constructor
        · intro h
          simp at h
        · intro h
          rw [(check_draw_eq_true _).mpr h.1] at hd
          exact absurd hd (by decide)
  · by_cases hw : check_win g.board ≠ 0
    · rw [game_over_win g hw]
      exact ⟨fun _ => hw, fun _ => rfl⟩
    · have hw0 : check_win g.board = 0 := not_not.mp hw
      cases hd : check_draw g.board with
      | true =>
        rw [game_over_draw g hw0 hd]
        constructor
        · intro h
          simp at h
        · intro h
          exact absurd h hw
      | false =>
        rw [game_over_continue g hw0 hd]
        constructor
        · intro h
          simp at h
        · intro h
          exact absurd h hw

/-- Claim C19. Terminal scoring of `minimax` on a board whose cells are digits or marks,
for every depth `d` and either value of `isMax`: when player 1 has a complete line (and
player 2 has none) the result is `10 - d`; when player 2 has a complete line (and
player 1 has none) it is `-10 + d`; when all nine cells are marked and nobody has a line
it is 0; the board is returned as it was.  Hence, of two boards won by player 1, the one
evaluated at the smaller depth scores strictly higher. -/
theorem C19_terminal_scoring (b : Board) (d : Int) (isMax : Bool) (hv : validBoard b) :
    (hasLine b P1_MARK → ¬hasLine b P2_MARK → minimax b d isMax = (10 - d, b)) ∧
    (hasLine b P2_MARK → ¬hasLine b P1_MARK → minimax b d isMax = (-10 + d, b)) ∧
    ((∀ i, b i ≠ sentinel i) → ¬hasLine b P1_MARK → ¬hasLine b P2_MARK →
      minimax b d isMax = (0, b)) ∧
    (hasLine b P1_MARK → ¬hasLine b P2_MARK →
      ∀ (b2 : Board) (d2 : Int) (isMax2 : Bool), validBoard b2 → hasLine b2 P1_MARK →
        ¬hasLine b2 P2_MARK → d < d2 →
        (minimax b2 d2 isMax2).1 < (minimax b d isMax).1) := by
  have e : ∀ (c : Board) (k : Int) (m : Bool), minimax c k m = (mm (9 + 1) c k m, c) :=
    fun c k m => minimax_eq c k m
  refine ⟨?_, ?_, ?_, ?_⟩
  · intro h1 h2
    rw [e, mm_win 9 b d isMax (check_win_only_P1 b hv h1 h2)]
  · intro h2 h1
    rw [e, mm_loss 9 b d isMax (check_win_only_P2 b h2 h1)]
  · intro hfull h1 h2
    rw [e, mm_draw 9 b d isMax (check_win_zero_of_valid b hv h1 h2)
      ((check_draw_eq_true b).mpr hfull)]
  · intro h1 h2 b2 d2 m2 hv2 h12 h22 hlt
    rw [e, e, mm_win 9 b d isMax (check_win_only_P1 b hv h1 h2),
      mm_win 9 b2 d2 m2 (check_win_only_P1 b2 hv2 h12 h22)]
    show 10 - d2 < 10 - d
    omega

theorem C19_witness :
    (validBoard wonBoard ∧ hasLine wonBoard P1_MARK ∧ ¬hasLine wonBoard P2_MARK) ∧
    minimax wonBoard 2 true = (10 - 2, wonBoard) ∧
    (validBoard drawnBoard ∧ (∀ i, drawnBoard i ≠ sentinel i) ∧
      ¬hasLine drawnBoard P1_MARK ∧ ¬hasLine drawnBoard P2_MARK) ∧
    minimax drawnBoard 9 false = (0, drawnBoard) :=
  have hv : validBoard wonBoard := by unfold validBoard; decide
  have h1 : hasLine wonBoard P1_MARK := by unfold hasLine; decide
  have h2 : ¬hasLine wonBoard P2_MARK := by unfold hasLine; decide
  have hv3 : validBoard drawnBoard := by unfold validBoard; decide
  have hf : ∀ i, drawnBoard i ≠ sentinel i := by decide
  have h4 : ¬hasLine drawnBoard P1_MARK := by unfold hasLine; decide
  have h5 : ¬hasLine drawnBoard P2_MARK := by unfold hasLine; decide
  ⟨⟨hv, h1, h2⟩, (C19_terminal_scoring wonBoard 2 true hv).1 h1 h2, ⟨hv3, hf, h4, h5⟩,
    (C19_terminal_scoring drawnBoard 9 false hv3).2.2.1 hf h4 h5⟩

/-- Counterexample to claim C20 as stated: `lostBoard` and `lostDiagBoard` are boards won
by player 2; `minimax` gives -10 on the first at depth 0 and -9 on the second at depth 1,
so the score at the smaller depth is not the higher one. -/
theorem C20_counterexample :
    (validBoard lostBoard ∧ hasLine lostBoard P2_MARK ∧ ¬hasLine lostBoard P1_MARK) ∧
    (validBoard lostDiagBoard ∧ hasLine lostDiagBoard P2_MARK ∧
      ¬hasLine lostDiagBoard P1_MARK) ∧
    (minimax lostBoard 0 true).1 = -10 ∧ (minimax lostDiagBoard 1 true).1 = -9 ∧
    ¬((minimax lostDiagBoard 1 true).1 < (minimax lostBoard 0 true).1) := by
  have hw : check_win lostBoard = -10 := by decide
  have hw2 : check_win lostDiagBoard = -10 := by decide
  have e0 : (minimax lostBoard 0 true).1 = -10 := by
    rw [minimax_eq]
    show mm (9 + 1) lostBoard 0 true = -10
    rw [mm_loss 9 lostBoard 0 true hw]
    rfl
  have e1 : (minimax lostDiagBoard 1 true).1 = -9 := by
    rw [minimax_eq]
    show mm (9 + 1) lostDiagBoard 1 true = -9
    rw [mm_loss 9 lostDiagBoard 1 true hw2]
    rfl
  refine ⟨⟨by unfold validBoard; decide, by unfold hasLine; decide,
    by unfold hasLine; decide⟩, ⟨by unfold validBoard; decide, by unfold hasLine; decide,
    by unfold hasLine; decide⟩, e0, e1, ?_⟩
  rw [e0, e1]
  decide

/-- Claim C20, amended. Slower losses score strictly less bad: for two boards each won by
player 2, `minimax` gives `-10 + d1` at depth `d1` on the one and `-10 + d2` at depth `d2`
on the other, so with `d1 < d2` the score at the smaller depth `d1` is strictly lower
(more negative) and the score at the greater depth `d2` strictly higher. -/
theorem C20_slower_losses_score_higher (b1 b2 : Board) (d1 d2 : Int) (m1 m2 : Bool)
    (h1 : hasLine b1 P2_MARK) (h1n : ¬hasLine b1 P1_MARK) (h2 : hasLine b2 P2_MARK)
    (h2n : ¬hasLine b2 P1_MARK) (hlt : d1 < d2) :
    (minimax b1 d1 m1).1 = -10 + d1 ∧ (minimax b2 d2 m2).1 = -10 + d2 ∧
    (minimax b1 d1 m1).1 < (minimax b2 d2 m2).1 := by
  have e1 : (minimax b1 d1 m1).1 = -10 + d1 := by
    rw [minimax_eq]
    show mm (9 + 1) b1 d1 m1 = -10 + d1
    rw [mm_loss 9 b1 d1 m1 (check_win_only_P2 b1 h1 h1n)]
  have e2 : (minimax b2 d2 m2).1 = -10 + d2 := by
    rw [minimax_eq]
    show mm (9 + 1) b2 d2 m2 = -10 + d2
    rw [mm_loss 9 b2 d2 m2 (check_win_only_P2 b2 h2 h2n)]
  refine ⟨e1, e2, ?_⟩
  rw [e1, e2]
  omega

theorem C20_witness :
    (hasLine lostBoard P2_MARK ∧ ¬hasLine lostBoard P1_MARK ∧
      hasLine lostDiagBoard P2_MARK ∧ ¬hasLine lostDiagBoard P1_MARK ∧ (0 : Int) < 1) ∧
    (minimax lostBoard 0 false).1 < (minimax lostDiagBoard 1 true).1 :=
  have h1 : hasLine lostBoard P2_MARK := by unfold hasLine; decide
  have h2 : ¬hasLine lostBoard P1_MARK := by unfold hasLine; decide
  have h3 : hasLine lostDiagBoard P2_MARK := by unfold hasLine; decide
  have h4 : ¬hasLine lostDiagBoard P1_MARK := by unfold hasLine; decide
  ⟨⟨h1, h2, h3, h4, by decide⟩,
    (C20_slower_losses_score_higher lostBoard lostDiagBoard 0 1 false true h1 h2 h3 h4
      (by decide)).2.2⟩

/-! ## The Free state in every reachable roster -/

theorem slotInv_free (n : Int) :
    slotInv { gameNum := n, timeout := TIMEOUT, p2Address := blankAddr, player := 0,
              board := initBoard } :=
  ⟨fun _ => ⟨rfl, rfl, rfl, rfl⟩, fun h => absurd rfl h⟩

theorem slotInv_free_game (g : TTT_Game) : slotInv (free_game g) := by
  rw [free_game_eq]
  exact slotInv_free _

theorem slotInv_marked (n t : Int) (A : sockaddr_in) (b : Board) (h : ∃ p, b p = P1_MARK) :
    slotInv { gameNum := n, timeout := t, p2Address := A, player := 2, board := b } := by
  refine ⟨fun h2 => absurd h2 (by decide : (2 : Int) ≠ 0), fun _ hb => ?_⟩
  obtain ⟨p, hp⟩ := h
  simp only at hb
  rw [hb] at hp
  exact sentinel_ne_P1 p hp.symm

theorem slotInv_dispatch (fuel : Nat) (roster : Roster) (r : Received) (sendOk : Bool)
    (roster1 : Roster) (ev : List Event)
    (h : dispatch fuel roster r sendOk = some (roster1, ev))
    (hinv : ∀ i, slotInv (roster i)) (j : Fin 10) : slotInv (roster1 j) := by
  rcases dispatch_result fuel roster r sendOk roster1 ev h with
    h1 | ⟨i, g1, _, h1, ⟨_, hn⟩ | ⟨_, hm⟩⟩
  · rw [h1]
    exact hinv j
  · rw [h1]
    by_cases hji : j = i
    · rw [hji, Function.update_same]
      rcases new_game_result fuel _ _ _ sendOk _ ev hn with hx | ⟨p, hx⟩
      · rw [Option.some.inj hx]
        exact slotInv_free_game _
      · rw [Option.some.inj hx]
        exact slotInv_marked _ _ _ _ ⟨p, Function.update_same _ _ _⟩
    · rw [Function.update_noteq hji]
      exact hinv j
  · rw [h1]
    by_cases hji : j = i
    · rw [hji, Function.update_same]
      rcases move_result fuel _ _ _ sendOk g1 ev hm with hx | hx | ⟨b, hb, hx⟩
      · rw [hx]
        exact hinv i
      · rw [hx]
        exact slotInv_free_game _
      · rw [hx]
        exact slotInv_marked _ _ _ _ hb
    · rw [Function.update_noteq hji]
      exact hinv j

theorem slotInv_update_timeouts (roster : Roster) (k elapsed : Int)
    (hinv : ∀ i, slotInv (roster i)) (j : Fin 10) :
    slotInv (update_timeouts roster k elapsed j) := by
  obtain ⟨h0, h1⟩ := hinv j
  rw [update_timeouts_apply]
  by_cases hk : (j.val : Int) = k
  · rw [if_pos hk]
    refine ⟨fun hp => ?_, fun hp => h1 hp⟩
    obtain ⟨_, ha, _, hb⟩ := h0 hp
    exact ⟨hp, ha, rfl, hb⟩
  · rw [if_neg hk]
    by_cases hp : (roster j).player ≠ 0
    · rw [if_pos hp]
      exact ⟨fun hp0 => absurd hp0 hp, fun hp1 => h1 hp1⟩
    · rw [if_neg hp]
      exact ⟨h0, h1⟩

theorem slotInv_check_timeout (roster : Roster) (hinv : ∀ i, slotInv (roster i))
    (j : Fin 10) : slotInv (check_timeout roster j) := by
  rw [check_timeout_apply]
  by_cases h : (roster j).timeout ≤ 0
  · rw [if_pos h]
    exact slotInv_free_game _
  · rw [if_neg h]
    exact hinv j

theorem tictactoe_step_accepted (fuel : Nat) (roster : Roster) (r : Received)
    (elapsed : Int) (sendOk : Bool) (roster1 : Roster) (ev : List Event)
    (hpos : 0 < get_command r) (hd : dispatch fuel roster r sendOk = some (roster1, ev)) :
    tictactoe_step fuel roster r elapsed sendOk =
      some (check_timeout (update_timeouts roster1 (gameIndx roster r.datagram) elapsed),
        ev) := by
  rw [tictactoe_step, if_pos hpos, hd]

theorem slotInv_step (fuel : Nat) (roster : Roster) (r : Received) (elapsed : Int)
    (sendOk : Bool) (roster1 : Roster) (ev : List Event)
    (h : tictactoe_step fuel roster r elapsed sendOk = some (roster1, ev))
    (hinv : ∀ i, slotInv (roster i)) (j : Fin 10) : slotInv (roster1 j) := by
  rw [tictactoe_step] at h
  by_cases hpos : get_command r > 0
  · rw [if_pos hpos] at h
    generalize hx : dispatch fuel roster r sendOk = x at h
    match x, h with
    | none, h => exact absurd h (by simp)
    | some (roster2, ev2), h =>
      simp only [Option.some.injEq, Prod.mk.injEq] at h
      rw [← h.1]
      exact slotInv_check_timeout _
        (slotInv_update_timeouts _ _ _
          (slotInv_dispatch fuel roster r sendOk roster2 ev2 hx hinv)) j
  · rw [if_neg hpos] at h
    by_cases hz : get_command r = 0
    · rw [if_pos hz] at h
      by_cases hg : games_in_progress roster > 0
      · rw [if_pos hg] at h
        simp only [Option.some.injEq, Prod.mk.injEq] at h
        rw [← h.1, init_game_roster_apply]
        exact slotInv_free _
      · rw [if_neg hg] at h
        simp only [Option.some.injEq, Prod.mk.injEq] at h
        rw [← h.1]
        exact hinv j
    · rw [if_neg hz] at h
      simp only [Option.some.injEq, Prod.mk.injEq] at h
      rw [← h.1]
      exact hinv j

theorem slotInv_reachable (roster : Roster) (h : Reachable roster) (j : Fin 10) :
    slotInv (roster j) := by
  induction h generalizing j with
  | init roster0 =>
    rw [init_game_roster_apply]
    exact slotInv_free _
  | step fuel roster r elapsed sendOk roster1 ev _ hstep ih =>
    exact slotInv_step fuel roster r elapsed sendOk roster1 ev hstep ih j

/-- Claim C18. In every roster reachable at the top of the server loop (the roster written
by `init_game_roster`, then any sequence of loop iterations: accepted commands, rejected
datagrams, failed sends, receive timeouts), every slot has `player` 0 exactly when its
`p2Address` is blank, its board is the initial board of digits and its timeout is
`TIMEOUT`. -/
theorem C18_free_state_invariant (roster : Roster) (h : Reachable roster) (i : Fin 10) :
    (roster i).player = 0 ↔
      ((roster i).p2Address = blankAddr ∧ (roster i).board = initBoard ∧
        (roster i).timeout = TIMEOUT) := by
  obtain ⟨h0, h1⟩ := slotInv_reachable roster h i
  constructor
  · intro hp
    obtain ⟨_, ha, ht, hb⟩ := h0 hp
    exact ⟨ha, hb, ht⟩
  · intro hd
    by_contra hp
    exact h1 hp hd.2.1

theorem C18_witness :
    ∃ roster ev,
      tictactoe_step 1 (init_game_roster idleRoster) newGameReceived 7 true =
        some (roster, ev) ∧
      ∀ i : Fin 10, (roster i).player = 0 ↔
        ((roster i).p2Address = blankAddr ∧ (roster i).board = initBoard ∧
          (roster i).timeout = TIMEOUT) := by
  obtain ⟨roster1, ev, hd⟩ :=
    dispatch_total 0 (init_game_roster idleRoster) newGameReceived true
      ⟨rfl, Or.inl rfl, Or.inl rfl⟩
  have hs := tictactoe_step_accepted 1 (init_game_roster idleRoster) newGameReceived 7 true
    roster1 ev (by decide) hd
  exact ⟨_, _, hs, fun i =>
    C18_free_state_invariant _
      (Reachable.step 1 (init_game_roster idleRoster) newGameReceived 7 true _ ev
        (Reachable.init idleRoster) hs) i⟩

/-! ## The search, the replies, the roster queries and the dispatch -/

theorem games_in_progress_card (roster : Roster) :
    games_in_progress roster =
      ((Finset.univ.filter (fun i : Fin 10 => (roster i).player ≠ 0)).card : Int) := by
  have e : Finset.univ.filter (fun i : Fin 10 => (roster i).player ≠ 0) =
      (slots.filter (fun i => decide ((roster i).player ≠ 0))).toFinset := by
    ext i
    simp [mem_slots]
  rw [games_in_progress_eq, e, List.toFinset_card_of_nodup (slots_nodup.filter _)]

theorem games_in_progress_full (roster : Roster) :
    games_in_progress roster = MAX_GAMES ↔ ∀ i, (roster i).player ≠ 0 := by
  have hlen : slots.length = 10 := rfl
  rw [games_in_progress_eq]
  constructor
  · intro h i
    have h1 : (slots.filter (fun i => decide ((roster i).player ≠ 0))).length = slots.length := by
      rw [hlen]
      simp only [MAX_GAMES] at h
      exact_mod_cast h
    simpa using (List.filter_length_eq_length.mp h1) i (mem_slots i)
  · intro h
    have h1 : (slots.filter (fun i => decide ((roster i).player ≠ 0))).length = slots.length :=
      List.filter_length_eq_length.mpr (fun i _ => by simpa using h i)
    rw [h1, hlen]
    rfl

theorem dispatch_move (fuel : Nat) (roster : Roster) (r : Received) (sendOk : Bool)
    (i : Fin 10) (g1 : TTT_Game) (ev : List Event) (hcmd : r.datagram.command = MOVE)
    (hnum : r.datagram.gameNum = (i.val : Int) + 1)
    (hmv : move fuel r.playerAddr r.datagram (roster i) sendOk = some (g1, ev)) :
    dispatch fuel roster r sendOk = some (Function.update roster i g1, ev) := by
  have hc1 : r.datagram.command = 1 := hcmd
  have hc0 : ¬r.datagram.command = 0 := by rw [hc1]; decide
  have hk : gameIndx roster r.datagram = (i.val : Int) := by
    rw [gameIndx, if_neg (show ¬r.datagram.command = NEW_GAME from hc0), hnum]
    omega
  have hlt := i.isLt
  have hr : 0 ≤ gameIndx roster r.datagram ∧ gameIndx roster r.datagram < 10 := by
    rw [hk]; omega
  have hi : ∀ h : (gameIndx roster r.datagram).toNat < 10,
      (⟨(gameIndx roster r.datagram).toNat, h⟩ : Fin 10) = i := by
    intro h
    apply Fin.ext
    simp only [hk]
    simp
  rw [dispatch, if_neg hc0, if_pos hc1, dif_pos hr]
  simp only [hi]
  rw [hmv]

/-- Claim C21. The search leaves the board as it found it: for every board, depth and
role, the board that `minimax` returns is the board it was given, and so is the board
that `find_best_move` returns; this holds at every recursion bound, and a bound of 10 or
more is never used up.  A tentative mark is undone by writing the digit of the cell,
which restores the board exactly because only cells holding their digit are marked. -/
theorem C21_search_restores_board (b : Board) (depth : Int) (isMax : Bool) :
    (minimax b depth isMax).2 = b ∧ (find_best_move b).2 = b ∧
    (∀ fuel, (minimaxAux fuel b depth isMax).2 = b) ∧
    (∀ fuel, 10 ≤ fuel → minimaxAux fuel b depth isMax = minimax b depth isMax) ∧
    (∀ (i : Fin 9) (mark : Int), b i = sentinel i →
      Function.update (Function.update b i mark) i (sentinel i) = b) := by
  refine ⟨?_, find_best_move_board b, ?_, ?_, fun i mark h => update_restore b i mark h⟩
  · rw [minimax_eq]
  · intro fuel
    rw [minimaxAux_eq]
  · intro fuel hf
    have hc := countEmpty_le b
    rw [minimaxAux_eq, minimax_eq, mm_fuel fuel 10 b depth isMax (by omega) (by omega)]

/-- Claim C22. Round trip of a server reply.  For a session with `gameNum` in 1..10 whose
board has an empty cell, `send_p1_move` builds the datagram with version 3, command
`MOVE`, data the digit of the chosen position `p + 1` and the `gameNum` of the session,
and leaves the session as it was.  Whenever that datagram is received with a positive
byte count, `get_command` accepts it, and it carries the same four values; its data minus
the digit zero is the chosen position, the result of `find_best_move`, which
`send_p1_move` also returns when the send succeeds. -/
theorem C22_reply_round_trip (fuel : Nat) (g : TTT_Game) (sendOk : Bool)
    (hnum : 1 ≤ g.gameNum ∧ g.gameNum ≤ MAX_GAMES) (hempty : ∃ i, g.board i = sentinel i) :
    ∃ (p : Fin 9) (mv : Int) (dg : Buffer),
      send_p1_move (fuel + 1) g sendOk = some (mv, g, [Event.sendto dg g.p2Address]) ∧
      g.board p = sentinel p ∧ (find_best_move g.board).1 = (p.val : Int) + 1 ∧
      (sendOk = true → mv = (p.val : Int) + 1) ∧
      dg = ⟨VERSION, MOVE, sentinel p, g.gameNum⟩ ∧ dg.data - 48 = (p.val : Int) + 1 ∧
      ∀ r : Received, r.datagram = dg → 0 < r.rv →
        get_command r = r.rv ∧ r.datagram.version = VERSION ∧ r.datagram.command = MOVE ∧
        r.datagram.data = sentinel p ∧ r.datagram.gameNum = g.gameNum ∧
        r.datagram.data - 48 = (find_best_move g.board).1 := by
  obtain ⟨p, hp, hpe, _, _⟩ := find_best_move_spec g.board hempty
  have hg : toChar g.gameNum = g.gameNum := by
    simp only [MAX_GAMES] at hnum
    exact toChar_small _ (by omega) (by omega)
  have hdg : (⟨3, 1, (p.val : Int) + 49, toChar g.gameNum⟩ : Buffer) =
      ⟨VERSION, MOVE, sentinel p, g.gameNum⟩ := by
    rw [hg]
    simp only [VERSION, MOVE, sentinel]
    congr 1
  refine ⟨p, if sendOk then (p.val : Int) + 1 else ERROR_CODE,
    ⟨VERSION, MOVE, sentinel p, g.gameNum⟩, ?_, hpe, hp, fun h => by rw [if_pos h], rfl, ?_, ?_⟩
  · rw [send_p1_move_eq fuel g sendOk p hp hpe, hdg]
  · simp only [sentinel]
    omega
  · intro r hr hpos
    simp only [MAX_GAMES] at hnum
    refine ⟨(get_command_pos r hpos).1 ?_, by rw [hr], by rw [hr], by rw [hr], by rw [hr], ?_⟩
    · rw [hr]
      exact ⟨rfl, Or.inr rfl, Or.inr ⟨hnum.1, hnum.2⟩⟩
    · rw [hr, hp]
      simp only [sentinel]
      omega

theorem C22_witness :
    ((1 ≤ exchangeGame.gameNum ∧ exchangeGame.gameNum ≤ MAX_GAMES) ∧
      exchangeGame.board 3 = sentinel 3) ∧
    ∃ (p : Fin 9) (mv : Int) (dg : Buffer),
      send_p1_move 1 exchangeGame true =
        some (mv, exchangeGame, [Event.sendto dg exchangeGame.p2Address]) ∧
      dg = ⟨VERSION, MOVE, sentinel p, exchangeGame.gameNum⟩ ∧
      ∀ r : Received, r.datagram = dg → 0 < r.rv → get_command r = r.rv := by
  obtain ⟨p, mv, dg, h1, _, _, _, h2, _, h3⟩ :=
    C22_reply_round_trip 0 exchangeGame true ⟨by decide, by decide⟩ ⟨3, by decide⟩
  exact ⟨⟨⟨by decide, by decide⟩, by decide⟩, p, mv, dg, h1, h2,
    fun r hr hpos => (h3 r hr hpos).1⟩

/-- Claim C23. For every roster: when some slot has `player` 0, `find_open_game` returns
the lowest index of such a slot; it returns the error code -1 exactly when no slot has
`player` 0, that is exactly when `games_in_progress`, which is the number of slots with
`player` different from 0, equals `MAX_GAMES`. -/
theorem C23_find_open_game (roster : Roster) :
    ((∃ i, (roster i).player = 0) →
      ∃ i : Fin 10, find_open_game roster = (i.val : Int) ∧ (roster i).player = 0 ∧
        ∀ j, j < i → (roster j).player ≠ 0) ∧
    (find_open_game roster = -1 ↔ ∀ i, (roster i).player ≠ 0) ∧
    (find_open_game roster = -1 ↔ games_in_progress roster = MAX_GAMES) ∧
    games_in_progress roster =
      ((Finset.univ.filter (fun i : Fin 10 => (roster i).player ≠ 0)).card : Int) := by
  have hiff : find_open_game roster = -1 ↔ ∀ i, (roster i).player ≠ 0 := by
    rcases find_open_game_spec roster with ⟨i, hi, hp, _⟩ | ⟨h, hall⟩
    · constructor
      · intro h
        rw [hi] at h
        omega
      · intro h
        exact absurd hp (h i)
    · exact ⟨fun _ => hall, fun _ => h⟩
  refine ⟨?_, hiff, hiff.trans (games_in_progress_full roster).symm,
    games_in_progress_card roster⟩
  rintro ⟨i0, h0⟩
  rcases find_open_game_spec roster with h | ⟨_, hall⟩
  · exact h
  · exact absurd h0 (hall i0)

/-- Claim C25. An accepted `MOVE` for game `i + 1` from a sender whose address differs
from the one stored in that session: the handler `move` returns the session unchanged and
without event, and the iteration of the server loop ends with the slot holding the same
`gameNum`, address, `player` and board, and `timeout = TIMEOUT`, whatever the timeout was
before and whatever time elapsed. -/
theorem C25_foreign_move_refreshes (fuel : Nat) (roster : Roster) (r : Received)
    (elapsed : Int) (sendOk : Bool) (i : Fin 10) (hpos : 0 < get_command r)
    (hcmd : r.datagram.command = MOVE) (hnum : r.datagram.gameNum = (i.val : Int) + 1)
    (hother : same_address r.playerAddr (roster i).p2Address = false) :
    move fuel r.playerAddr r.datagram (roster i) sendOk = some (roster i, []) ∧
    ∃ roster1, tictactoe_step fuel roster r elapsed sendOk = some (roster1, []) ∧
      roster1 i =
        { gameNum := (roster i).gameNum, timeout := TIMEOUT,
          p2Address := (roster i).p2Address, player := (roster i).player,
          board := (roster i).board } := by
  have hmv := move_mismatch fuel r.playerAddr r.datagram (roster i) sendOk hother
  have hd := dispatch_move fuel roster r sendOk i (roster i) [] hcmd hnum hmv
  have hk : (i.val : Int) = gameIndx roster r.datagram := by
    rw [gameIndx, if_neg (by rw [hcmd]; decide), hnum]
    omega
  refine ⟨hmv, _, tictactoe_step_accepted fuel roster r elapsed sendOk _ [] hpos hd, ?_⟩
  have hT : ¬(TIMEOUT ≤ 0) := by decide
  rw [check_timeout_apply, update_timeouts_apply, if_pos hk, if_neg hT,
    Function.update_eq_self]

theorem C25_witness :
    (0 < get_command foreignMoveReceived ∧ foreignMoveReceived.datagram.command = MOVE ∧
      foreignMoveReceived.datagram.gameNum = (((0 : Fin 10)).val : Int) + 1 ∧
      same_address foreignMoveReceived.playerAddr (busyRoster 0).p2Address = false) ∧
    ∃ roster1, tictactoe_step 1 busyRoster foreignMoveReceived 29 true = some (roster1, []) ∧
      roster1 0 =
        { gameNum := (busyRoster 0).gameNum, timeout := TIMEOUT,
          p2Address := (busyRoster 0).p2Address, player := (busyRoster 0).player,
          board := (busyRoster 0).board } :=
  ⟨⟨by decide, by decide, by decide, by decide⟩,
    (C25_foreign_move_refreshes 1 busyRoster foreignMoveReceived 29 true 0 (by decide)
      (by decide) (by decide) (by decide)).2⟩

/-- Claim C27. For every datagram accepted by `get_command`: the command, which indexes
the table of handlers, is 0 or 1; for `MOVE` the roster index is `gameNum - 1` and lies in
0..9; for `NEW_GAME` the roster index lies in 0..9 or is -1.  The index is negative, and
the handler is called without a game, only for `NEW_GAME` with the index -1, and the
dispatch then returns the roster as it was.  So `move` is always given a game, the roster
is never indexed outside 0..9, and the dispatch returns. -/
theorem C27_dispatch_in_bounds (fuel : Nat) (roster : Roster) (r : Received)
    (sendOk : Bool) (hpos : 0 < get_command r) :
    (r.datagram.command = 0 ∨ r.datagram.command = 1) ∧
    (r.datagram.command = MOVE →
      gameIndx roster r.datagram = r.datagram.gameNum - 1 ∧
      0 ≤ gameIndx roster r.datagram ∧ gameIndx roster r.datagram < MAX_GAMES) ∧
    (r.datagram.command = NEW_GAME →
      (0 ≤ gameIndx roster r.datagram ∧ gameIndx roster r.datagram < MAX_GAMES) ∨
        gameIndx roster r.datagram = -1) ∧
    (gameIndx roster r.datagram < 0 →
      r.datagram.command = NEW_GAME ∧ gameIndx roster r.datagram = -1 ∧
      dispatch fuel roster r sendOk = some (roster, [])) ∧
    (∃ roster1 ev, dispatch (fuel + 1) roster r sendOk = some (roster1, ev)) := by
  have hacc := (get_command_accepts r hpos).2
  obtain ⟨_, hcmd, hn⟩ := hacc
  have hmove : r.datagram.command = MOVE →
      gameIndx roster r.datagram = r.datagram.gameNum - 1 ∧
      0 ≤ gameIndx roster r.datagram ∧ gameIndx roster r.datagram < MAX_GAMES := by
    intro hc
    have hk : gameIndx roster r.datagram = r.datagram.gameNum - 1 := by
      rw [gameIndx, if_neg (by rw [hc]; decide)]
    have hn1 := hn.resolve_left (by rw [hc]; decide)
    rw [hk]
    simp only [MAX_GAMES]
    exact ⟨trivial, by omega, by omega⟩
  have hnew : r.datagram.command = NEW_GAME →
      (0 ≤ gameIndx roster r.datagram ∧ gameIndx roster r.datagram < MAX_GAMES) ∨
        gameIndx roster r.datagram = -1 := by
    intro hc
    rw [gameIndx, if_pos hc]
    rcases find_open_game_spec roster with ⟨i, hi, _, _⟩ | ⟨h, _⟩
    · have := i.isLt
      rw [hi]
      simp only [MAX_GAMES]
      exact Or.inl (by omega)
    · exact Or.inr h
  refine ⟨hcmd, hmove, hnew, ?_, dispatch_total fuel roster r sendOk (get_command_accepts r hpos).2⟩
  intro hneg
  have hc : r.datagram.command = NEW_GAME := by
    rcases hcmd with h | h
    · exact h
    · exact absurd (hmove h).2.1 (by omega)
  have hk : gameIndx roster r.datagram = -1 := by
    rcases hnew hc with h | h
    · omega
    · exact h
  refine ⟨hc, hk, dispatch_no_slot fuel roster r sendOk hc ?_⟩
  rw [gameIndx, if_pos hc] at hk
  exact hk

theorem C27_witness :
    0 < get_command foreignMoveReceived ∧
    (foreignMoveReceived.datagram.command = MOVE →
      gameIndx busyRoster foreignMoveReceived.datagram =
        foreignMoveReceived.datagram.gameNum - 1 ∧
      0 ≤ gameIndx busyRoster foreignMoveReceived.datagram ∧
      gameIndx busyRoster foreignMoveReceived.datagram < MAX_GAMES) :=
  ⟨by decide, (C27_dispatch_in_bounds 1 busyRoster foreignMoveReceived true (by decide)).2.1⟩

/-! ## The result of `find_best_move` and the loop of `send_p1_move` -/

theorem find_best_move_full (b : Board) (h : ∀ i, b i ≠ sentinel i) :
    (find_best_move b).1 = -1 := by
  rw [find_best_move_eq]
  rcases bestOver_spec b (moveScore b) (fun i hi => absurd hi (h i)) cells cells_sorted with
    ⟨_, h1⟩ | ⟨p, _, hp, _⟩
  · rw [h1]
  · exact absurd hp (h p)

theorem game_over_false (g : TTT_Game) (h : (game_over g).1 = false) :
    check_win g.board = 0 ∧ check_draw g.board = false := by
  by_cases hw : check_win g.board ≠ 0
  · rw [game_over_win g hw] at h
    exact absurd h (Bool.noConfusion : true = false → False)
  · have hw0 : check_win g.board = 0 := not_not.mp hw
    cases hd : check_draw g.board with
    | true =>
      rw [game_over_draw g hw0 hd] at h
      exact absurd h (Bool.noConfusion : true = false → False)
    | false => exact ⟨hw0, rfl⟩

/-- Claim C24. `find_best_move` returns -1 exactly when no cell of the board holds its
digit.  Every score it compares lies above the initial bound `INT32_MIN`, so on a board
with an empty cell it returns a position `p + 1` in 1..9 whose cell is empty;
`validate_move` accepts that result, and the loop of `send_p1_move` ends at the first
test of its condition, without running its body (a bound of one test suffices).  The
boards on which the handlers call `send_p1_move` have an empty cell: the board written
by `init_shared_state` in `new_game`, and in `move` a board for which `game_over`
returned false; so `send_p1_move` returns there. -/
theorem C24_find_best_move_position (b : Board) :
    ((find_best_move b).1 = -1 ↔ ∀ i, b i ≠ sentinel i) ∧
    (∀ q, b q = sentinel q → INT32_MIN < moveScore b q) ∧
    ((∃ i, b i = sentinel i) →
      ∃ p : Fin 9, (find_best_move b).1 = (p.val : Int) + 1 ∧ b p = sentinel p ∧
        validate_move (find_best_move b).1 b = true ∧
        p1_move_loop 1 (find_best_move b).2 (find_best_move b).1 =
          some ((find_best_move b).1, b)) ∧
    (∀ g : TTT_Game, ∃ i, (init_shared_state g).board i = sentinel i) ∧
    (∀ g : TTT_Game, (game_over g).1 = false → ∃ i, g.board i = sentinel i) ∧
    (∀ (g : TTT_Game) (sendOk : Bool), g.board = b → (∃ i, b i = sentinel i) →
      ∃ x, send_p1_move 1 g sendOk = some x) := by
  refine ⟨⟨?_, find_best_move_full b⟩, ?_, ?_, ?_, ?_, ?_⟩
  · intro h i hi
    obtain ⟨p, hp, _⟩ := find_best_move_spec b ⟨i, hi⟩
    rw [hp] at h
    omega
  · intro q hq
    have := (moveScore_bounds b q hq).1
    simp only [INT32_MIN]
    omega
  · intro h
    obtain ⟨p, hp, hpe, _, _⟩ := find_best_move_spec b h
    have hv : validate_move (find_best_move b).1 b = true :=
      (validate_move_iff _ _).mpr ⟨p, hp, hpe⟩
    refine ⟨p, hp, hpe, hv, ?_⟩
    rw [find_best_move_board]
    exact p1_move_loop_valid 0 b _ hv
  · intro g
    rw [init_shared_state_board]
    exact ⟨0, rfl⟩
  · intro g h
    exact (check_draw_eq_false _).mp (game_over_false g h).2
  · intro g sendOk hg h
    rw [← hg] at h
    obtain ⟨p, hp, hpe, _, _⟩ := find_best_move_spec g.board h
    exact ⟨_, send_p1_move_eq 0 g sendOk p hp hpe⟩

theorem C24_witness :
    (∃ i, exchangeBoard i = sentinel i) ∧
    ∃ p : Fin 9, (find_best_move exchangeBoard).1 = (p.val : Int) + 1 ∧
      exchangeBoard p = sentinel p ∧
      validate_move (find_best_move exchangeBoard).1 exchangeBoard = true ∧
      p1_move_loop 1 (find_best_move exchangeBoard).2 (find_best_move exchangeBoard).1 =
        some ((find_best_move exchangeBoard).1, exchangeBoard) :=
  ⟨⟨3, by decide⟩, (C24_find_best_move_position exchangeBoard).2.2.1 ⟨3, by decide⟩⟩

/-! ## A move on a Free slot from the blank address -/

theorem countMark_update_add (b : Board) (i : Fin 9) (m : Int) (h : b i ≠ m) :
    countMark (Function.update b i m) m = countMark b m + 1 := by
  unfold countMark
  have e : Finset.univ.filter (fun j : Fin 9 => Function.update b i m j = m) =
      insert i (Finset.univ.filter (fun j : Fin 9 => b j = m)) := by
    ext j
    by_cases hj : j = i
    · simp [hj]
    · simp [hj, Function.update_noteq hj]
  rw [e, Finset.card_insert_of_not_mem (by simp [h])]

theorem countMark_update_other (b : Board) (i : Fin 9) (m x : Int) (hx : m ≠ x)
    (h : b i ≠ x) : countMark (Function.update b i m) x = countMark b x := by
  unfold countMark
  congr 1
  ext j
  by_cases hj : j = i
  · simp [hj, hx, h]
  · simp [hj, Function.update_noteq hj]

theorem countMark_initBoard_P1 : countMark initBoard P1_MARK = 0 := by
  unfold countMark
  decide

theorem countMark_initBoard_P2 : countMark initBoard P2_MARK = 0 := by
  unfold countMark
  decide

theorem not_completesLine_of_unmarked (b : Board) (m : Int) (p : Fin 9)
    (h : ∀ i, b i ≠ m) : ¬completesLine b m p := by
  rintro ⟨l, _, ⟨_, h1, _⟩ | ⟨_, h1, _⟩ | ⟨_, h1, _⟩⟩
  · exact h _ h1
  · exact h _ h1
  · exact h _ h1

theorem third_cell : ∀ m p : Fin 9, ∃ i : Fin 9, i ≠ m ∧ i ≠ p := by
  decide

/-- The handler `move` on a session whose board is the initial one, for a sender that
`same_address` takes for the stored address and a move naming cell `m`, with the send
succeeding: the session is returned in play, `player` 2, with the mark of player 2 in
cell `m` and the mark of player 1 in another cell `p`. -/
theorem move_on_initial_board (fuel : Nat) (A : sockaddr_in) (d : Buffer) (g : TTT_Game)
    (m : Fin 9) (hsame : same_address A g.p2Address = true) (hb : g.board = initBoard)
    (hm : d.data - 48 = (m.val : Int) + 1) :
    ∃ (p : Fin 9) (ev : List Event), p ≠ m ∧
      move (fuel + 1) A d g true =
        some ({ gameNum := g.gameNum, timeout := g.timeout, p2Address := g.p2Address,
                player := 2,
                board := Function.update (Function.update initBoard m P2_MARK) p P1_MARK },
          ev) := by
  have hme : g.board m = sentinel m := by rw [hb]; rfl
  have hw1 : check_win (Function.update g.board m P2_MARK) = 0 := by
    rw [hb]
    exact initBoard_update_P2 m
  obtain ⟨i0, hi0, _⟩ := third_cell m m
  have hd1 : check_draw (Function.update g.board m P2_MARK) = false := by
    rw [hb]
    exact (check_draw_eq_false _).mpr ⟨i0, by rw [Function.update_noteq hi0]; rfl⟩
  obtain ⟨p, hp, hpe, _, _⟩ :=
    find_best_move_spec (Function.update g.board m P2_MARK) ((check_draw_eq_false _).mp hd1)
  have hpm : p ≠ m := by
    intro hpm
    rw [hpm, Function.update_same] at hpe
    exact sentinel_ne_P2 m hpe
  have hb2 : setAt (Function.update g.board m P2_MARK)
      ((find_best_move (Function.update g.board m P2_MARK)).1 - 1) P1_MARK =
      Function.update (Function.update initBoard m P2_MARK) p P1_MARK := by
    rw [hp, setAt_cell, hb]
  have hw2 : check_win (Function.update (Function.update initBoard m P2_MARK) p P1_MARK) = 0 := by
    by_contra hne
    refine not_completesLine_of_unmarked _ P1_MARK p ?_
      ((check_win_update_ne_zero _ p P1_MARK (initBoard_update_P2 m)).mp hne)
    intro i hi
    by_cases him : i = m
    · rw [him, Function.update_same] at hi
      exact P1_ne_P2 hi.symm
    · rw [Function.update_noteq him] at hi
      exact sentinel_ne_P1 i hi.symm
  obtain ⟨i1, hi1m, hi1p⟩ := third_cell m p
  have hd2 : check_draw (Function.update (Function.update initBoard m P2_MARK) p P1_MARK) =
      false :=
    (check_draw_eq_false _).mpr
      ⟨i1, by rw [Function.update_noteq hi1p, Function.update_noteq hi1m]; rfl⟩
  refine ⟨p, [Event.sendto
    ⟨3, 1, (find_best_move (Function.update g.board m P2_MARK)).1 + 48, toChar g.gameNum⟩
    g.p2Address], hpm, ?_⟩
  rw [move_valid fuel A d g true hsame m hm hme, if_neg (by simp [hw1]),
    if_neg (by simp [hd1]), if_pos rfl, hb2, if_neg (by simp [hw2]), if_neg (by simp [hd2])]

/-- One iteration of the server loop for an accepted `MOVE` aimed at a slot whose board
is the initial one, from a sender that `same_address` takes for the stored address. -/
theorem step_move_on_initial_board (fuel : Nat) (roster : Roster) (r : Received)
    (elapsed : Int) (i : Fin 10) (m : Fin 9) (hpos : 0 < get_command r)
    (hcmd : r.datagram.command = MOVE) (hnum : r.datagram.gameNum = (i.val : Int) + 1)
    (hsame : same_address r.playerAddr (roster i).p2Address = true)
    (hb : (roster i).board = initBoard) (hm : r.datagram.data - 48 = (m.val : Int) + 1) :
    ∃ (p : Fin 9) (roster1 : Roster) (ev : List Event), p ≠ m ∧
      tictactoe_step (fuel + 1) roster r elapsed true = some (roster1, ev) ∧
      roster1 i =
        { gameNum := (roster i).gameNum, timeout := TIMEOUT,
          p2Address := (roster i).p2Address, player := 2,
          board := Function.update (Function.update initBoard m P2_MARK) p P1_MARK } := by
  obtain ⟨p, ev, hpm, hmv⟩ :=
    move_on_initial_board fuel r.playerAddr r.datagram (roster i) m hsame hb hm
  have hd := dispatch_move (fuel + 1) roster r true i _ ev hcmd hnum hmv
  have hk : (i.val : Int) = gameIndx roster r.datagram := by
    rw [gameIndx, if_neg (by rw [hcmd]; decide), hnum]
    omega
  refine ⟨p, _, ev, hpm,
    tictactoe_step_accepted (fuel + 1) roster r elapsed true _ ev hpos hd, ?_⟩
  have hT : ¬(TIMEOUT ≤ 0) := by decide
  rw [check_timeout_apply, update_timeouts_apply, if_pos hk, if_neg hT,
    Function.update_same]

/-- Why the rosters of `ReachableSent` take a send to the blank address to fail.  On the
roster written by `init_game_roster`, an accepted `MOVE` datagram for game 1 naming cell 5
arrives from address 0.0.0.0 port 0, the address stored in a Free slot.  Were the call of
`sendto` to that address to succeed, the iteration of the server loop would leave slot 1
in play with `player` 2 on a board with one mark of player 1 and one mark of player 2.
A UDP socket refuses to send to port 0, and with the send failing the slot is left Free:
see `move_from_blank_address_unsent`. -/
theorem move_from_blank_address_sent :
    0 < get_command blankMoveReceived ∧
    ∃ (roster1 : Roster) (ev : List Event),
      tictactoe_step 1 (init_game_roster idleRoster) blankMoveReceived 0 true =
        some (roster1, ev) ∧
      Reachable roster1 ∧ (roster1 0).player = 2 ∧
      countMark (roster1 0).board P1_MARK = 1 ∧ countMark (roster1 0).board P2_MARK = 1 ∧
      ¬(countMark (roster1 0).board P1_MARK = countMark (roster1 0).board P2_MARK + 1) := by
  have hpos : 0 < get_command blankMoveReceived := by decide
  obtain ⟨p, roster1, ev, hpm, hs, h0⟩ :=
    step_move_on_initial_board 0 (init_game_roster idleRoster) blankMoveReceived 0 0 4 hpos
      rfl rfl (by rw [init_game_roster_apply]; rfl) (by rw [init_game_roster_apply]) rfl
  have hX : countMark (roster1 0).board P1_MARK = 1 := by
    rw [h0]
    show countMark (Function.update (Function.update initBoard 4 P2_MARK) p P1_MARK) P1_MARK = 1
    rw [countMark_update_add _ p P1_MARK
        (by rw [Function.update_noteq hpm]; exact fun h => sentinel_ne_P1 p h.symm),
      countMark_update_other initBoard 4 P2_MARK P1_MARK P1_ne_P2.symm
        (fun h => sentinel_ne_P1 4 h.symm), countMark_initBoard_P1]
  have hO : countMark (roster1 0).board P2_MARK = 1 := by
    rw [h0]
    show countMark (Function.update (Function.update initBoard 4 P2_MARK) p P1_MARK) P2_MARK = 1
    rw [countMark_update_other _ p P1_MARK P2_MARK P1_ne_P2
        (by rw [Function.update_noteq hpm]; exact fun h => sentinel_ne_P2 p h.symm),
      countMark_update_add initBoard 4 P2_MARK (fun h => sentinel_ne_P2 4 h.symm),
      countMark_initBoard_P2]
  refine ⟨hpos, roster1, ev, hs,
    Reachable.step 1 (init_game_roster idleRoster) blankMoveReceived 0 true roster1 ev
      (Reachable.init idleRoster) hs, by rw [h0], hX, hO, ?_⟩
  rw [hX, hO]
  decide

/-- The handler `move` on a session whose board is the initial one, for a sender that
`same_address` takes for the stored address and a move naming cell `m`, with the send
failing: the session is returned freed, after one call of `sendto` to the stored
address. -/
theorem move_on_initial_board_unsent (fuel : Nat) (A : sockaddr_in) (d : Buffer)
    (g : TTT_Game) (m : Fin 9) (hsame : same_address A g.p2Address = true)
    (hb : g.board = initBoard) (hm : d.data - 48 = (m.val : Int) + 1) :
    ∃ dg : Buffer,
      move (fuel + 1) A d g false = some (free_game g, [Event.sendto dg g.p2Address]) := by
  have hme : g.board m = sentinel m := by rw [hb]; rfl
  have hw1 : check_win (Function.update g.board m P2_MARK) = 0 := by
    rw [hb]
    exact initBoard_update_P2 m
  obtain ⟨i0, hi0, _⟩ := third_cell m m
  have hd1 : check_draw (Function.update g.board m P2_MARK) = false := by
    rw [hb]
    exact (check_draw_eq_false _).mpr ⟨i0, by rw [Function.update_noteq hi0]; rfl⟩
  refine ⟨⟨3, 1, (find_best_move (Function.update g.board m P2_MARK)).1 + 48,
    toChar g.gameNum⟩, ?_⟩
  rw [move_valid fuel A d g false hsame m hm hme, if_neg (by simp [hw1]),
    if_neg (by simp [hd1]), if_neg (by decide)]

/-- An accepted `MOVE` datagram for game 1 from address 0.0.0.0 port 0 on the roster
written by `init_game_roster`: the sender matches the blank address stored in the Free
slot, the reply is handed to `sendto` with that address as destination, the send fails
and the iteration leaves slot 1 Free, on the initial board. -/
theorem move_from_blank_address_unsent :
    0 < get_command blankMoveReceived ∧
    ∃ (roster1 : Roster) (dg : Buffer),
      tictactoe_step 1 (init_game_roster idleRoster) blankMoveReceived 0 false =
        some (roster1, [Event.sendto dg blankAddr]) ∧
      ReachableSent roster1 ∧ (roster1 0).player = 0 ∧ (roster1 0).board = initBoard := by
  have hpos : 0 < get_command blankMoveReceived := by decide
  have h0 : init_game_roster idleRoster 0 =
      { gameNum := 1, timeout := TIMEOUT, p2Address := blankAddr, player := 0,
        board := initBoard } := by
    rw [init_game_roster_apply]
    rfl
  obtain ⟨dg, hmv⟩ :=
    move_on_initial_board_unsent 0 blankMoveReceived.playerAddr blankMoveReceived.datagram
      (init_game_roster idleRoster 0) 4 (by rw [h0]; rfl) (by rw [h0]) rfl
  have hd := dispatch_move 1 (init_game_roster idleRoster) blankMoveReceived false 0 _ _
    rfl rfl hmv
  have hs := tictactoe_step_accepted 1 (init_game_roster idleRoster) blankMoveReceived 0 false
    _ _ hpos hd
  have ha : (init_game_roster idleRoster 0).p2Address = blankAddr := by rw [h0]
  rw [ha] at hs
  have hk : (((0 : Fin 10)).val : Int) =
      gameIndx (init_game_roster idleRoster) blankMoveReceived.datagram := by
    rw [gameIndx, if_neg (by decide)]
    rfl
  have hT : ¬(TIMEOUT ≤ 0) := by decide
  have hslot : check_timeout (update_timeouts
      (Function.update (init_game_roster idleRoster) 0
        (free_game (init_game_roster idleRoster 0)))
      (gameIndx (init_game_roster idleRoster) blankMoveReceived.datagram) 0) 0 =
      { gameNum := 1, timeout := TIMEOUT, p2Address := blankAddr, player := 0,
        board := initBoard } := by
    rw [check_timeout_apply, update_timeouts_apply, if_pos hk, if_neg hT,
      Function.update_same, free_game_eq, h0]
  exact ⟨hpos, _, dg, hs,
    ReachableSent.step 1 (init_game_roster idleRoster) blankMoveReceived 0 false _ _
      (ReachableSent.init idleRoster) hs (fun _ _ _ _ => rfl),
    by rw [hslot], by rw [hslot]⟩

/-! ## Boards in play -/

/-- What `move` returns, by case: the session unchanged for a sender with another
address; for the stored address, the session freed, or, after a successful send to the
stored address, the session in play with the mark of player 2 in the empty cell `m` and
the mark of player 1 in another empty cell `p`, on a board that is neither won nor
full. -/
theorem move_cases (fuel : Nat) (A : sockaddr_in) (d : Buffer) (g : TTT_Game)
    (sendOk : Bool) (g1 : TTT_Game) (ev : List Event)
    (h : move fuel A d g sendOk = some (g1, ev)) :
    (same_address A g.p2Address = false ∧ g1 = g) ∨
    (same_address A g.p2Address = true ∧ g1 = free_game g) ∨
    (same_address A g.p2Address = true ∧ sendOk = true ∧
      (∃ dg : Buffer, ev = [Event.sendto dg g.p2Address]) ∧
      ∃ m p : Fin 9, g.board m = sentinel m ∧ g.board p = sentinel p ∧ p ≠ m ∧
        check_win (Function.update (Function.update g.board m P2_MARK) p P1_MARK) = 0 ∧
        check_draw (Function.update (Function.update g.board m P2_MARK) p P1_MARK) = false ∧
        g1 = { gameNum := g.gameNum, timeout := g.timeout, p2Address := g.p2Address,
               player := 2,
               board := Function.update (Function.update g.board m P2_MARK) p P1_MARK }) := by
  cases hsame : same_address A g.p2Address with
  | false =>
    rw [move_mismatch fuel A d g sendOk hsame] at h
    simp only [Option.some.injEq, Prod.mk.injEq] at h
    exact Or.inl ⟨rfl, h.1.symm⟩
  | true =>
    cases hv : validate_move (d.data - 48) g.board with
    | false =>
      rw [move_invalid fuel A d g sendOk hsame hv] at h
      simp only [Option.some.injEq, Prod.mk.injEq] at h
      exact Or.inr (Or.inl ⟨rfl, h.1.symm⟩)
    | true =>
      obtain ⟨m, hm, hme⟩ := (validate_move_iff _ _).mp hv
      by_cases hover : check_win (Function.update g.board m P2_MARK) ≠ 0 ∨
          check_draw (Function.update g.board m P2_MARK) = true
      · rw [move_over_after_p2 fuel A d g sendOk hsame m hm hme hover] at h
        simp only [Option.some.injEq, Prod.mk.injEq] at h
        exact Or.inr (Or.inl ⟨rfl, h.1.symm⟩)
      · have hw0 : check_win (Function.update g.board m P2_MARK) = 0 :=
          not_not.mp (fun hne => hover (Or.inl hne))
        have hd : check_draw (Function.update g.board m P2_MARK) = false :=
          Bool.eq_false_iff.mpr (fun ht => hover (Or.inr ht))
        cases fuel with
        | zero =>
          rw [move_zero A d g sendOk hsame m hm hme hw0 hd] at h
          exact absurd h (by simp)
        | succ n =>
          obtain ⟨p, hp, hpe, _, _⟩ :=
            find_best_move_spec (Function.update g.board m P2_MARK)
              ((check_draw_eq_false _).mp hd)
          have hpm : p ≠ m := by
            intro hpm
            rw [hpm, Function.update_same] at hpe
            exact sentinel_ne_P2 m hpe
          have hpe0 : g.board p = sentinel p := by
            rw [Function.update_noteq hpm] at hpe
            exact hpe
          rw [move_valid n A d g sendOk hsame m hm hme, if_neg (by simp [hw0]),
            if_neg (by simp [hd]), hp, setAt_cell] at h
          split_ifs at h with hs hw2 hd2
          all_goals simp only [Option.some.injEq, Prod.mk.injEq] at h
          · exact Or.inr (Or.inl ⟨rfl, h.1.symm⟩)
          · exact Or.inr (Or.inl ⟨rfl, h.1.symm⟩)
          · exact Or.inr (Or.inr ⟨rfl, hs, ⟨_, h.2.symm⟩, m, p, hme, hpe0, hpm,
              not_not.mp hw2, Bool.eq_false_iff.mpr hd2, h.1.symm⟩)
          · exact Or.inr (Or.inl ⟨rfl, h.1.symm⟩)

theorem validBoard_update (b : Board) (i : Fin 9) (m : Int) (hv : validBoard b)
    (hm : m = P1_MARK ∨ m = P2_MARK) : validBoard (Function.update b i m) := by
  intro j
  by_cases hj : j = i
  · rw [hj, Function.update_same]
    exact Or.inr hm
  · rw [Function.update_noteq hj]
    exact hv j

theorem midGame_opening (p : Fin 9) : midGame (Function.update initBoard p P1_MARK) := by
  obtain ⟨i, hi, _⟩ := third_cell p p
  refine ⟨validBoard_update _ p _ (fun _ => Or.inl rfl) (Or.inl rfl), ?_,
    initBoard_update_P1 p, ⟨i, by rw [Function.update_noteq hi]; rfl⟩⟩
  rw [countMark_update_add initBoard p P1_MARK (fun h => sentinel_ne_P1 p h.symm),
    countMark_update_other initBoard p P1_MARK P2_MARK P1_ne_P2
      (fun h => sentinel_ne_P2 p h.symm),
    countMark_initBoard_P1, countMark_initBoard_P2]

theorem midGame_exchange (b : Board) (m p : Fin 9) (hb : midGame b) (hm : b m = sentinel m)
    (hp : b p = sentinel p) (hpm : p ≠ m)
    (hw : check_win (Function.update (Function.update b m P2_MARK) p P1_MARK) = 0)
    (hd : check_draw (Function.update (Function.update b m P2_MARK) p P1_MARK) = false) :
    midGame (Function.update (Function.update b m P2_MARK) p P1_MARK) := by
  obtain ⟨hv, hc, _, _⟩ := hb
  refine ⟨validBoard_update _ p _ (validBoard_update _ m _ hv (Or.inr rfl)) (Or.inl rfl), ?_,
    hw, (check_draw_eq_false _).mp hd⟩
  have hpX : Function.update b m P2_MARK p ≠ P1_MARK := by
    rw [Function.update_noteq hpm, hp]
    exact fun h => sentinel_ne_P1 p h.symm
  have hpO : Function.update b m P2_MARK p ≠ P2_MARK := by
    rw [Function.update_noteq hpm, hp]
    exact fun h => sentinel_ne_P2 p h.symm
  rw [countMark_update_add _ p P1_MARK hpX,
    countMark_update_other _ p P1_MARK P2_MARK P1_ne_P2 hpO,
    countMark_update_other b m P2_MARK P1_MARK P1_ne_P2.symm
      (by rw [hm]; exact fun h => sentinel_ne_P1 m h.symm),
    countMark_update_add b m P2_MARK (by rw [hm]; exact fun h => sentinel_ne_P2 m h.symm), hc]

theorem playInv_free_game (g : TTT_Game) : playInv (free_game g) := by
  rw [free_game_eq]
  exact Or.inl ⟨rfl, rfl⟩

theorem playInv_dispatch (fuel : Nat) (roster : Roster) (r : Received) (sendOk : Bool)
    (roster1 : Roster) (ev : List Event)
    (h : dispatch fuel roster r sendOk = some (roster1, ev))
    (hsent : ∀ (dg : Buffer) (A : sockaddr_in), Event.sendto dg A ∈ ev →
      same_address A blankAddr = true → sendOk = false)
    (hinv : ∀ i, playInv (roster i)) (j : Fin 10) : playInv (roster1 j) := by
  rcases dispatch_result fuel roster r sendOk roster1 ev h with
    h1 | ⟨i, g1, _, h1, ⟨_, hn⟩ | ⟨_, hm⟩⟩
  · rw [h1]
    exact hinv j
  · rw [h1]
    by_cases hji : j = i
    · rw [hji, Function.update_same]
      rcases new_game_result fuel _ _ _ sendOk _ ev hn with hx | ⟨p, hx⟩
      · rw [Option.some.inj hx]
        exact playInv_free_game _
      · rw [Option.some.inj hx]
        exact Or.inr ⟨rfl, midGame_opening p⟩
    · rw [Function.update_noteq hji]
      exact hinv j
  · rw [h1]
    by_cases hji : j = i
    · rw [hji, Function.update_same]
      rcases move_cases fuel _ _ _ sendOk g1 ev hm with
        ⟨_, hx⟩ | ⟨_, hx⟩ | ⟨_, hok, ⟨dg, hev⟩, m, p, hme, hpe, hpm, hw, hd, hx⟩
      · rw [hx]
        exact hinv i
      · rw [hx]
        exact playInv_free_game _
      · rcases hinv i with ⟨_, ha⟩ | ⟨_, hmid⟩
        · have hfail := hsent dg (roster i).p2Address
            (by rw [hev]; exact List.mem_singleton.mpr rfl) (by rw [ha]; rfl)
          rw [hok] at hfail
          exact absurd hfail (by decide)
        · rw [hx]
          exact Or.inr ⟨rfl, midGame_exchange _ m p hmid hme hpe hpm hw hd⟩
    · rw [Function.update_noteq hji]
      exact hinv j

theorem playInv_update_timeouts (roster : Roster) (k elapsed : Int)
    (hinv : ∀ i, playInv (roster i)) (j : Fin 10) :
    playInv (update_timeouts roster k elapsed j) := by
  have h := hinv j
  rw [update_timeouts_apply]
  split_ifs
  · exact h
  · exact h
  · exact h

theorem playInv_step (fuel : Nat) (roster : Roster) (r : Received) (elapsed : Int)
    (sendOk : Bool) (roster1 : Roster) (ev : List Event)
    (h : tictactoe_step fuel roster r elapsed sendOk = some (roster1, ev))
    (hsent : ∀ (dg : Buffer) (A : sockaddr_in), Event.sendto dg A ∈ ev →
      same_address A blankAddr = true → sendOk = false)
    (hinv : ∀ i, playInv (roster i)) (j : Fin 10) : playInv (roster1 j) := by
  rw [tictactoe_step] at h
  by_cases hpos : get_command r > 0
  · rw [if_pos hpos] at h
    generalize hx : dispatch fuel roster r sendOk = x at h
    match x, h with
    | none, h => exact absurd h (by simp)
    | some (roster2, ev2), h =>
      simp only [Option.some.injEq, Prod.mk.injEq] at h
      rw [← h.2] at hsent
      rw [← h.1, check_timeout_apply]
      split_ifs
      · exact playInv_free_game _
      · exact playInv_update_timeouts _ _ _
          (playInv_dispatch fuel roster r sendOk roster2 ev2 hx hsent hinv) j
  · rw [if_neg hpos] at h
    by_cases hz : get_command r = 0
    · rw [if_pos hz] at h
      by_cases hg : games_in_progress roster > 0
      · rw [if_pos hg] at h
        simp only [Option.some.injEq, Prod.mk.injEq] at h
        rw [← h.1, init_game_roster_apply]
        exact Or.inl ⟨rfl, rfl⟩
      · rw [if_neg hg] at h
        simp only [Option.some.injEq, Prod.mk.injEq] at h
        rw [← h.1]
        exact hinv j
    · rw [if_neg hz] at h
      simp only [Option.some.injEq, Prod.mk.injEq] at h
      rw [← h.1]
      exact hinv j

/-- Claim C26. In every roster reachable at the top of the server loop (the roster written
by `init_game_roster`, then any sequence of loop iterations, in which a call of `sendto`
with the blank address 0.0.0.0 port 0 as destination fails, as it does on a UDP socket),
every slot has `player` 0 or 2, and every slot with `player` 2 holds a board whose cells
are each their own digit, the mark of player 1 or the mark of player 2, with exactly one
more mark of player 1 than of player 2, no complete line (`check_win` is 0) and at least
one empty cell. -/
theorem C26_in_play_boards (roster : Roster) (h : ReachableSent roster) (j : Fin 10) :
    ((roster j).player = 0 ∨ (roster j).player = 2) ∧
    ((roster j).player = 2 →
      validBoard (roster j).board ∧
      countMark (roster j).board P1_MARK = countMark (roster j).board P2_MARK + 1 ∧
      check_win (roster j).board = 0 ∧ ∃ i, (roster j).board i = sentinel i) := by
  have hinv : playInv (roster j) := by
    induction h generalizing j with
    | init roster0 =>
      rw [init_game_roster_apply]
      exact Or.inl ⟨rfl, rfl⟩
    | step fuel roster r elapsed sendOk roster1 ev _ hstep hsent ih =>
      exact playInv_step fuel roster r elapsed sendOk roster1 ev hstep hsent ih j
  rcases hinv with ⟨h0, _⟩ | ⟨h2, hmid⟩
  · exact ⟨Or.inl h0, fun h2 => absurd (h0.symm.trans h2) (by decide)⟩
  · exact ⟨Or.inr h2, fun _ => hmid⟩

theorem C26_witness :
    ∃ (roster : Roster) (ev : List Event),
      tictactoe_step 1 (init_game_roster idleRoster) newGameReceived 7 true =
        some (roster, ev) ∧
      ReachableSent roster ∧ (roster 0).player = 2 ∧
      validBoard (roster 0).board ∧
      countMark (roster 0).board P1_MARK = countMark (roster 0).board P2_MARK + 1 ∧
      check_win (roster 0).board = 0 ∧ ∃ i, (roster 0).board i = sentinel i := by
  have hopen : find_open_game (init_game_roster idleRoster) = (((0 : Fin 10)).val : Int) :=
    find_open_game_first _ (by rw [init_game_roster_apply])
  obtain ⟨p, _, hd⟩ :=
    dispatch_new_game 0 (init_game_roster idleRoster) newGameReceived true 0 rfl hopen
  have hs := tictactoe_step_accepted 1 (init_game_roster idleRoster) newGameReceived 7 true
    _ _ (by decide) hd
  have hk : (((0 : Fin 10)).val : Int) =
      gameIndx (init_game_roster idleRoster) newGameReceived.datagram := by
    rw [gameIndx, if_pos (show newGameReceived.datagram.command = NEW_GAME from rfl), hopen]
  have hT : ¬(TIMEOUT ≤ 0) := by decide
  have hreach := ReachableSent.step 1 (init_game_roster idleRoster) newGameReceived 7 true
    _ _ (ReachableSent.init idleRoster) hs
    (fun dg A hmem hsame => by
      simp only [List.mem_singleton, Event.sendto.injEq] at hmem
      rw [hmem.2] at hsame
      exact absurd hsame (by decide))
  have hp2 : (check_timeout (update_timeouts
      (Function.update (init_game_roster idleRoster) 0
        (if true = true then
          { gameNum := (init_game_roster idleRoster 0).gameNum,
            timeout := (init_game_roster idleRoster 0).timeout,
            p2Address := newGameReceived.playerAddr, player := 2,
            board := Function.update initBoard p P1_MARK }
        else free_game (init_game_roster idleRoster 0)))
      (gameIndx (init_game_roster idleRoster) newGameReceived.datagram) 7) 0).player = 2 := by
    rw [check_timeout_apply, update_timeouts_apply, if_pos hk, if_neg hT,
      Function.update_same, if_pos rfl]
  exact ⟨_, _, hs, hreach, hp2, (C26_in_play_boards _ hreach 0).2 hp2⟩

end TicTacToe
